import Mathlib

/-!
# Verification of the decode pipeline of `rpt1pgm.c`

Shallow embedding of `main` and `ascii85decode` of `src/rpt1pgm.c` (the stream
scan, the decoder, the decompression step over an abstract `inflate`, the text
extraction FSA and the report), of the row reading, the amount conversion and
the running totals of `src/rpt3pgm.c`, and of the field extraction of one
invoice in `src/rpt2pgm.c`.

Modelling conventions
* A byte is a `Nat` (its value as an unsigned byte, `0..255`); a buffer is a
  `List Nat`; a pointer into a buffer is either an index or the suffix of the
  buffer that starts at the pointer.
* In `rpt1pgm.c` the values of type `unsigned int` are modelled with their
  wrap at `2^32`: the counter `zCount`, the product `3 * zCount`, and zlib's
  `uInt` in the cast `(uInt)inflateOutBuffSize` and in the fields `avail_in`
  and `avail_out`. The buffer lengths of type `unsigned long` (64 bits) and the
  `int` indices of the decoder (`int i`, `int bytesLeft`) are assumed to fit
  their types; no wrap is modelled for them. In the functions of the first
  sections `calloc` is assumed to succeed (glibc returns a usable pointer also
  for a zero-byte request); the run of `main` takes the outcome of each
  `calloc` from its environment.
* In `rpt3pgm.c` the accumulators are modelled with the wrap of their types,
  whose widths are parameters.
* Whether plain `char` is signed is left to the compiler by the C standard; it
  is the parameter `signedChar` of the decoder.
* A read outside the buffer is undefined behaviour in C; the model returns
  `none` there. So it does for a store outside one of the fixed-size field
  arrays of `rpt2pgm.c`.
* The library functions `strstr`, `strtoul` and `fgets` are modelled as the C
  standard describes them.
-/

namespace UberEats

/-! ## ascii85decode -/

/-- The six PDF white-space bytes: the `case` labels of the `switch` in
`ascii85decode` and the tests of the skip loop in `main`. -/
def isWhitespace (c : Nat) : Bool :=
  c == 0 || c == 9 || c == 10 || c == 12 || c == 13 || c == 32

/-- The conversion `(int)*p` of a plain `char` holding the byte `c`. -/
def charToInt (signedChar : Bool) (c : Nat) : Int :=
  if signedChar && decide (128 ≤ c) then (c : Int) - 256 else (c : Int)

/-- Conversion of an `int` to `unsigned long long` (64 bits). -/
def toU64 (x : Int) : Nat :=
  (x % 18446744073709551616).toNat

/-- The accumulator `sum` of a group of five characters:
`((int)c0-33)*EXP4_85 + ... + ((int)c4-33)*EXP0_85` in 64-bit unsigned
arithmetic. -/
def sum85 (signedChar : Bool) (c0 c1 c2 c3 c4 : Nat) : Nat :=
  ( (toU64 (charToInt signedChar c0 - 33) * 52200625) % 18446744073709551616
  + (toU64 (charToInt signedChar c1 - 33) * 614125) % 18446744073709551616
  + (toU64 (charToInt signedChar c2 - 33) * 7225) % 18446744073709551616
  + (toU64 (charToInt signedChar c3 - 33) * 85) % 18446744073709551616
  + (toU64 (charToInt signedChar c4 - 33) * 1) % 18446744073709551616
  ) % 18446744073709551616

/-- The four values `b1, b2, b3, b4` computed from `sum` by the shifts and
subtractions of `ascii85decode`, each as the byte that `*q++ = b` stores. -/
def bytesOfSum (sum : Nat) : List Nat :=
  let b1 := sum / 16777216
  let residVal := sum - b1 * 16777216
  let b2 := residVal / 65536
  let residVal2 := residVal - b2 * 65536
  let b3 := residVal2 / 256
  let b4 := residVal2 - b3 * 256
  [b1 % 256, b2 % 256, b3 % 256, b4 % 256]

/-- The four output bytes of one group of five input characters. -/
def decodeGroup (signedChar : Bool) (c0 c1 c2 c3 c4 : Nat) : List Nat :=
  bytesOfSum (sum85 signedChar c0 c1 c2 c3 c4)

/-- State at the exit of the main `while` loop of `ascii85decode`: the bytes
stored through `q`, the amount added to `*actualOutCount`, the buffer from `p`
on, and `bytesLeft`. -/
structure LoopExit where
  written : List Nat
  count : Nat
  rest : List Nat
  bytesLeft : Int
deriving DecidableEq, Repr

/-- One iteration of the main loop stored the four bytes `w` through `q` and
added 4 to `*actualOutCount`; `r` is the outcome of the iterations that follow
it. -/
def emitGroup (w : List Nat) (r : Option LoopExit) : Option LoopExit :=
  match r with
  | none => none
  | some r => some { r with written := w ++ r.written, count := r.count + 4 }

/-- The main loop `while ((bytesLeft>=5) || (*p=='z'))` of `ascii85decode`.
The first argument is the buffer from `p` on. `none`: a read past the end of
the buffer. -/
def decodeLoop (signedChar : Bool) : List Nat → Int → Option LoopExit
  | [], _ => none
  | c0 :: t, bytesLeft =>
    if c0 = 122 then
      emitGroup [0, 0, 0, 0] (decodeLoop signedChar t (bytesLeft - 1))
    else if 5 ≤ bytesLeft then
      match t with
      | c1 :: c2 :: c3 :: c4 :: t5 =>
        emitGroup (decodeGroup signedChar c0 c1 c2 c3 c4)
          (decodeLoop signedChar t5 (bytesLeft - 5))
      | _ => none
    else
      some { written := [], count := 0, rest := c0 :: t, bytesLeft := bytesLeft }

/-- The array `shortGroup` after the copy loop `for (i=0; i<bytesLeft; i++)`:
five `'u'`, the first `bytesLeft` of them overwritten from `p`. `none`: a read
past the end of the buffer. -/
def shortGroup (rest : List Nat) (bytesLeft : Int) : Option (List Nat) :=
  let n := bytesLeft.toNat
  if rest.length < n then none
  else some (rest.take n ++ List.replicate (5 - n) 117)

/-- The block `if (bytesLeft) { ... }` after the main loop: the bytes stored
through `q` and the amount added to `*actualOutCount`. -/
def decodeTail (signedChar : Bool) (rest : List Nat) (bytesLeft : Int) :
    Option (List Nat × Nat) :=
  if bytesLeft = 0 then some ([], 0)
  else
    match shortGroup rest bytesLeft with
    | some [c0, c1, c2, c3, c4] =>
      let b := decodeGroup signedChar c0 c1 c2 c3 c4
      if bytesLeft = 2 then some (b.take 1, 1)
      else if bytesLeft = 3 then some (b.take 2, 2)
      else if bytesLeft = 4 then some (b.take 3, 3)
      else some ([], 0)
    | _ => none

/-- What `ascii85decode` leaves behind: its return code, the input buffer
(compacted in place), the output buffer and `*actualOutCount`. -/
structure Ascii85Result where
  rc : Nat
  streamIn : List Nat
  streamOut : List Nat
  actualOutCount : Nat
deriving DecidableEq, Repr

/-- The output buffer after the bytes `written` were stored through `q`, which
starts at `streamOut` and advances by one per store. Stores past the end of the
caller's buffer show as a longer list. -/
def storeOut (streamOut written : List Nat) : List Nat :=
  written ++ streamOut.drop written.length

/-- The function `ascii85decode(streamIn, inLen, streamOut, actualOutCount)`
with `inLen = streamIn.length`. The last two arguments are the caller's output
buffer and the caller's value of `*actualOutCount`. -/
def ascii85decode (signedChar : Bool) (streamIn streamOut : List Nat)
    (actualOutCount : Nat) : Option Ascii85Result :=
  let inLen := streamIn.length
  if inLen < 2 then none
  else if streamIn.getD (inLen - 2) 0 ≠ 126 ∨ streamIn.getD (inLen - 1) 0 ≠ 62 then
    some { rc := 1, streamIn := streamIn, streamOut := streamOut,
           actualOutCount := actualOutCount }
  else
    let inLen1 := inLen - 2
    let tempBuff := (streamIn.take inLen1).filter (fun c => !isWhitespace c)
    let wsCounter := (streamIn.take inLen1).countP isWhitespace
    let inLen2 := inLen1 - wsCounter
    let buf := tempBuff.take inLen2 ++ streamIn.drop inLen2
    match decodeLoop signedChar buf (inLen2 : Int) with
    | none => none
    | some r =>
      match decodeTail signedChar r.rest r.bytesLeft with
      | none => none
      | some (w, c) =>
        some { rc := 0, streamIn := buf, streamOut := storeOut streamOut (r.written ++ w),
               actualOutCount := 0 + r.count + c }

/-- The main loop of `ascii85decode` followed by the block
`if (bytesLeft) { ... }`: all the bytes stored through `q` and the total added
to `*actualOutCount`. -/
def decodeAll (signedChar : Bool) (buf : List Nat) (bytesLeft : Int) :
    Option (List Nat × Nat) :=
  match decodeLoop signedChar buf bytesLeft with
  | none => none
  | some r =>
    match decodeTail signedChar r.rest r.bytesLeft with
    | none => none
    | some (w, c) => some (r.written ++ w, r.count + c)

/-- The call of `ascii85decode` in `main`: the output buffer is
`calloc(ascii85InBuffLen + 3 * zCount, 1)`, the product `3 * zCount` being
computed in `unsigned int` (it wraps at `2^32`), and `ascii85ActualOutLen` is
0. -/
def mainDecode (signedChar : Bool) (ascii85InBuff : List Nat) (zCount : Nat) :
    Option Ascii85Result :=
  ascii85decode signedChar ascii85InBuff
    (List.replicate (ascii85InBuff.length + 3 * zCount % 4294967296) 0) 0

/-! ## Reference encoder (from the wording of the specification) -/

/-- Reference encoder, one full group: the five base-85 digits of the 32-bit
value `v`, most significant first, each offset by 33 (`'!'..'u'`). -/
def refEncodeDigits (v : Nat) : List Nat :=
  [v / 52200625 + 33, v / 614125 % 85 + 33, v / 7225 % 85 + 33, v / 85 % 85 + 33, v % 85 + 33]

/-- The big-endian 32-bit value of four bytes. -/
def word32 (b0 b1 b2 b3 : Nat) : Nat :=
  b0 * 16777216 + b1 * 65536 + b2 * 256 + b3

/-- Reference encoder, payload: 4 bytes give 5 characters, `'z'` for an
all-zero full group; a final group of `n` bytes (1, 2 or 3) is padded with zero
bytes, encoded without the `'z'` case, and only `n + 1` characters are kept. -/
def refEncodeBody : List Nat → List Nat
  | b0 :: b1 :: b2 :: b3 :: rest =>
    (if word32 b0 b1 b2 b3 = 0 then [122] else refEncodeDigits (word32 b0 b1 b2 b3))
      ++ refEncodeBody rest
  | [b0, b1, b2] => (refEncodeDigits (word32 b0 b1 b2 0)).take 4
  | [b0, b1] => (refEncodeDigits (word32 b0 b1 0 0)).take 3
  | [b0] => (refEncodeDigits (word32 b0 0 0 0)).take 2
  | [] => []

/-- Reference encoder: the payload followed by the marker `~>`. -/
def refEncode (B : List Nat) : List Nat :=
  refEncodeBody B ++ [126, 62]

/-! ## Vocabulary of the statements on ascii85decode -/

/-- The decode of a list of exactly five characters (empty otherwise). -/
def decodeGroupList (signedChar : Bool) : List Nat → List Nat
  | [c0, c1, c2, c3, c4] => decodeGroup signedChar c0 c1 c2 c3 c4
  | _ => []

/-- The decode of the leading full groups of five characters of a payload. -/
def decodeFullGroups (signedChar : Bool) : List Nat → List Nat
  | c0 :: c1 :: c2 :: c3 :: c4 :: t =>
    decodeGroup signedChar c0 c1 c2 c3 c4 ++ decodeFullGroups signedChar t
  | _ => []

/-! ## The stream scan of main -/

/-- The C library function `strstr(hay, needle)` for a needle without NUL: the
offset of the first occurrence of `needle` in the C string that starts at
`hay` and ends at the first NUL byte. The first argument is the buffer from
`hay` on; an empty list is a buffer that ended without a NUL. -/
def strstr : List Nat → List Nat → Option Nat
  | [], _ => none
  | c :: t, needle =>
    if needle.isPrefixOf (c :: t) then some 0
    else if c = 0 then none
    else
      match strstr t needle with
      | none => none
      | some i => some (i + 1)

/-- The keyword of `strstr(wholeInvBuffer,"\nstream")`. -/
def kwStream : List Nat := [10, 115, 116, 114, 101, 97, 109]

/-- The keyword of `strstr(startp,"endstream")`. -/
def kwEndstream : List Nat := [101, 110, 100, 115, 116, 114, 101, 97, 109]

/-- The loop `while (startp <= endp) { if (white space) startp++; else break; }`
of `main`; the first number bounds the iterations, the result is `startp` at
the exit. -/
def skipLoop (buf : List Nat) (endp : Nat) : Nat → Nat → Nat
  | 0, startp => startp
  | k + 1, startp =>
    if startp ≤ endp ∧ isWhitespace (buf.getD startp 0) = true then
      skipLoop buf endp k (startp + 1)
    else startp

/-- The loop `while (startp <= endp) { if (*startp == 'z') zCount++; *p++ = *startp++; }`
of `main`; the first number bounds the iterations, the result is the bytes
stored through `p` and `zCount`. The counter is an `unsigned int`: `zCount++`
wraps at `2^32`. -/
def copyLoop (buf : List Nat) (endp : Nat) : Nat → Nat → List Nat × Nat
  | 0, _ => ([], 0)
  | k + 1, startp =>
    if startp ≤ endp then
      let r := copyLoop buf endp k (startp + 1)
      (buf.getD startp 0 :: r.1,
        if buf.getD startp 0 = 122 then (r.2 + 1) % 4294967296 else r.2)
    else ([], 0)

/-- Outcome of the stream scan of `main`: an exit status, or the final
`startp` and `endp` (offsets into `wholeInvBuffer`), the buffer
`ascii85InBuff` and `zCount`. -/
inductive ScanResult where
  | exit (status : Nat)
  | slice (startp endp : Nat) (ascii85InBuff : List Nat) (zCount : Nat)
deriving DecidableEq, Repr

/-- The stream scan of `main` (from `strstr(wholeInvBuffer,"\nstream")` to the
copy of the stream) on a file with content `doc`: `wholeInvBuffer` is the file
content followed by the NUL that `calloc(charCount,1)` leaves. -/
def mainScan (doc : List Nat) : ScanResult :=
  let wholeInvBuffer := doc ++ [0]
  match strstr wholeInvBuffer kwStream with
  | none => ScanResult.exit 8
  | some i =>
    let startp0 := i + 1
    match strstr (wholeInvBuffer.drop startp0) kwEndstream with
    | none => ScanResult.exit 9
    | some j =>
      let endp := startp0 + j - 1
      let startp1 := startp0 + 6
      let startp := skipLoop wholeInvBuffer endp (endp + 1 - startp1) startp1
      if startp > endp then ScanResult.exit 10
      else
        let ascii85InBuffLen := endp - startp + 1
        let r := copyLoop wholeInvBuffer endp ascii85InBuffLen startp
        ScanResult.slice startp endp r.1 r.2

/-! ## The text extraction FSA of main -/

/-- The states 2, 3 and 4 of the FSA of `main` (outside a literal, inside a
literal, after a literal). `START` only moves to state 2 and `END` ends the
loop. -/
inductive FsaState where
  | s2
  | s3
  | s4
deriving DecidableEq, Repr

/-- The loop `while ( state != END )` of `main` from a given state: the bytes
written with `fputc` to the report. The arguments are the state, the buffer
from `p` on, the offset of `p` in `inflateOutBuff` and the offset of `endp`,
which is `inflateActualOutSize`. `none`: a read past the end of the buffer. -/
def fsa : FsaState → List Nat → Nat → Nat → Option (List Nat)
  | FsaState.s2, [], p, endp => if p > endp then some [] else none
  | FsaState.s2, c :: t, p, endp =>
    if p > endp then some []
    else if c = 40 then fsa FsaState.s3 t (p + 1) endp
    else fsa FsaState.s2 t (p + 1) endp
  | FsaState.s3, [], _, _ => none
  | FsaState.s3, c :: t, p, endp =>
    if c = 41 then fsa FsaState.s4 t (p + 1) endp
    else if c = 92 then
      match t with
      | [] => none
      | c1 :: t2 => (fsa FsaState.s3 t2 (p + 2) endp).map (fun out => c1 :: out)
    else (fsa FsaState.s3 t (p + 1) endp).map (fun out => c :: out)
  | FsaState.s4, [], _, _ => none
  | FsaState.s4, c :: t, p, endp =>
    if c = 40 then fsa FsaState.s3 t (p + 1) endp
    else if c = 10 then (fsa FsaState.s2 t (p + 1) endp).map (fun out => 10 :: out)
    else fsa FsaState.s4 t (p + 1) endp

/-- The FSA of `main` on the buffer `inflateOutBuff` with
`inflateActualOutSize` bytes of content: `p` starts at the buffer, `endp` is
the buffer plus `inflateActualOutSize`, and `START` moves to state 2. -/
def fsaRun (inflateOutBuff : List Nat) (inflateActualOutSize : Nat) : Option (List Nat) :=
  fsa FsaState.s2 inflateOutBuff 0 inflateActualOutSize

/-- The separator line of `main`: 65 + 31 characters `=` and a newline. -/
def separator : List Nat :=
  List.replicate 65 61 ++ (List.replicate 31 61 ++ [10])

/-! ## Vocabulary of the statements on the FSA -/

/-- The bytes of a run of literals on one line: for each pair `(t, g)` the
literal `(` `t` `)` followed by the gap `g`. -/
def litSegs : List (List Nat × List Nat) → List Nat
  | [] => []
  | s :: more => (40 :: s.1) ++ (41 :: s.2) ++ litSegs more

/-- The texts of a run of literals, concatenated in order. -/
def litTexts : List (List Nat × List Nat) → List Nat
  | [] => []
  | s :: more => s.1 ++ litTexts more

/-- A content stream of lines `pre ( t ) post \n`, one triple
`(pre, t, post)` per line. -/
def oneLiteralLines : List (List Nat × List Nat × List Nat) → List Nat
  | [] => []
  | l :: more => l.1 ++ (40 :: l.2.1) ++ (41 :: l.2.2) ++ [10] ++ oneLiteralLines more

/-- The texts of the lines `(pre, t, post)`, each followed by a newline. -/
def oneLiteralTexts : List (List Nat × List Nat × List Nat) → List Nat
  | [] => []
  | l :: more => l.2.1 ++ [10] ++ oneLiteralTexts more

/-! ## The run of main -/

/-- The function `ascii85decode` with the outcome of its `calloc(inLen,1)`
as the first argument: when the allocation fails, after the check of the
marker, the function returns 2 and has changed nothing. -/
def ascii85decodeAlloc (callocTemp : Bool) (signedChar : Bool) (streamIn streamOut : List Nat)
    (actualOutCount : Nat) : Option Ascii85Result :=
  let inLen := streamIn.length
  if inLen < 2 then none
  else if streamIn.getD (inLen - 2) 0 ≠ 126 ∨ streamIn.getD (inLen - 1) 0 ≠ 62 then
    some { rc := 1, streamIn := streamIn, streamOut := streamOut,
           actualOutCount := actualOutCount }
  else if callocTemp = false then
    some { rc := 2, streamIn := streamIn, streamOut := streamOut,
           actualOutCount := actualOutCount }
  else ascii85decode signedChar streamIn streamOut actualOutCount

/-- The failure messages of `main` and of `ascii85decode`, one per cause. -/
inductive Cause where
  | usage
  | invoiceNameTooLong
  | reportNameTooLong
  | no64BitIntegers
  | zlibIncompatible
  | invoiceOpen
  | allocInvoice
  | streamStartNotFound
  | streamEndNotFound
  | streamEmpty
  | allocAscii85In
  | allocAscii85Out
  | missingEod
  | decoderAlloc
  | allocInflateOut
  | inflateInit
  | inflateStatus
  | inflateEnd
  | reportOpen
deriving DecidableEq, Repr

/-- The end of a run of `main`: the exit status, the cause of the failure if
any, and the bytes written to the report file. -/
structure Outcome where
  status : Nat
  cause : Option Cause
  report : List Nat
deriving DecidableEq, Repr

/-- What a call of zlib's `inflate` leaves: its return code, the output buffer
and `total_out`. -/
structure InflateResult where
  rc : Int
  outBuff : List Nat
  totalOut : Nat

/-- The value `Z_OK` of zlib.h. -/
def zOk : Int := 0

/-- The value `Z_STREAM_END` of zlib.h. -/
def zStreamEnd : Int := 1

/-- Everything outside the program that a run of `main` depends on: the
arguments, the size of `unsigned long long`, the signedness of `char`, the
zlib library (with `inflate` as a function of its input bytes and of
`avail_out`), the invoice file, and the outcome of each `calloc` and of the
opening of the report. -/
structure Env where
  signedChar : Bool
  argc : Nat
  invoiceNameLen : Nat
  reportNameLen : Nat
  sizeofULL : Nat
  zlibMajorMatches : Bool
  invoiceFile : Option (List Nat)
  callocInvoice : Bool
  callocAscii85In : Bool
  callocAscii85Out : Bool
  callocTemp : Bool
  callocInflateOut : Bool
  inflateInitRc : Int
  inflate : List Nat → Nat → InflateResult
  inflateEndRc : Int
  reportOpen : Bool

/-- A `return` of `main` with a nonzero status, after its message. -/
def failWith (status : Nat) (cause : Cause) : Option Outcome :=
  some { status := status, cause := some cause, report := [] }

/-- The end of `main`: the opening of the report, the FSA over
`inflateOutBuff`, the separator line and `return 0`. -/
def mainReport (env : Env) (inflateOutBuff : List Nat) (inflateActualOutSize : Nat) :
    Option Outcome :=
  if env.reportOpen = false then failWith 18 Cause.reportOpen
  else
    match fsaRun inflateOutBuff inflateActualOutSize with
    | none => none
    | some out => some { status := 0, cause := none, report := out ++ separator }

/-- The decompression step of `main`, from the allocation of `inflateOutBuff`
to `inflateEnd`, followed by the end of `main`. The buffer is
`calloc((uInt)inflateOutBuffSize,1)` and the fields `avail_in` and `avail_out`
of `d_stream` are of type `uInt`, so `inflate` is given the first
`inflateInBuffSize mod 2^32` decoded bytes and `inflateOutBuffSize mod 2^32`
bytes of room (a wrap of the `unsigned long` product
`COMPRESSION_FACTOR_FOR_ZLIB * inflateInBuffSize` would not change its value
modulo `2^32`). -/
def mainInflate (env : Env) (ascii85OutBuff : List Nat) (ascii85ActualOutLen : Nat) :
    Option Outcome :=
  let inflateInBuffSize := ascii85ActualOutLen
  let inflateOutBuffSize := 20 * inflateInBuffSize
  if env.callocInflateOut = false then failWith 14 Cause.allocInflateOut
  else if env.inflateInitRc ≠ zOk then failWith 15 Cause.inflateInit
  else
    let availIn := inflateInBuffSize % 4294967296
    let availOut := inflateOutBuffSize % 4294967296
    let res := env.inflate (ascii85OutBuff.take availIn) availOut
    if res.rc ≠ zStreamEnd then failWith 16 Cause.inflateStatus
    else if env.inflateEndRc ≠ zOk then failWith 17 Cause.inflateEnd
    else mainReport env res.outBuff res.totalOut

/-- The decoding step of `main`, from the allocation of `ascii85OutBuff` to the
test of the return code of `ascii85decode`, followed by the decompression
step. -/
def mainDecodeStep (env : Env) (ascii85InBuff : List Nat) (zCount : Nat) : Option Outcome :=
  if env.callocAscii85Out = false then failWith 12 Cause.allocAscii85Out
  else
    match ascii85decodeAlloc env.callocTemp env.signedChar ascii85InBuff
        (List.replicate (ascii85InBuff.length + 3 * zCount % 4294967296) 0) 0 with
    | none => none
    | some r =>
      if r.rc = 1 then failWith 13 Cause.missingEod
      else if r.rc ≠ 0 then failWith 13 Cause.decoderAlloc
      else mainInflate env r.streamOut r.actualOutCount

/-- A run of `main`. `none`: a read outside a buffer. -/
def mainRun (env : Env) : Option Outcome :=
  if env.argc ≠ 3 then failWith 1 Cause.usage
  else if env.invoiceNameLen > 199 then failWith 2 Cause.invoiceNameTooLong
  else if env.reportNameLen > 199 then failWith 3 Cause.reportNameTooLong
  else if env.sizeofULL < 8 then failWith 4 Cause.no64BitIntegers
  else if env.zlibMajorMatches = false then failWith 5 Cause.zlibIncompatible
  else
    match env.invoiceFile with
    | none => failWith 6 Cause.invoiceOpen
    | some doc =>
      if env.callocInvoice = false then failWith 7 Cause.allocInvoice
      else
        match mainScan doc with
        | ScanResult.exit status =>
          if status = 8 then failWith 8 Cause.streamStartNotFound
          else if status = 9 then failWith 9 Cause.streamEndNotFound
          else failWith 10 Cause.streamEmpty
        | ScanResult.slice _ _ ascii85InBuff zCount =>
          if env.callocAscii85In = false then failWith 11 Cause.allocAscii85In
          else mainDecodeStep env ascii85InBuff zCount

/-- The facts on an outcome that the claims on exit statuses rest on: the
status is at most 18, a report is written only with status 0, and the status
tells the cause, except that 13 stands for both failures of the decoder. -/
def outcomeOk (o : Outcome) : Prop :=
  (o.status = 0 ∧ o.cause = none)
  ∨ (o.report = [] ∧
      ((o.status = 1 ∧ o.cause = some Cause.usage)
      ∨ (o.status = 2 ∧ o.cause = some Cause.invoiceNameTooLong)
      ∨ (o.status = 3 ∧ o.cause = some Cause.reportNameTooLong)
      ∨ (o.status = 4 ∧ o.cause = some Cause.no64BitIntegers)
      ∨ (o.status = 5 ∧ o.cause = some Cause.zlibIncompatible)
      ∨ (o.status = 6 ∧ o.cause = some Cause.invoiceOpen)
      ∨ (o.status = 7 ∧ o.cause = some Cause.allocInvoice)
      ∨ (o.status = 8 ∧ o.cause = some Cause.streamStartNotFound)
      ∨ (o.status = 9 ∧ o.cause = some Cause.streamEndNotFound)
      ∨ (o.status = 10 ∧ o.cause = some Cause.streamEmpty)
      ∨ (o.status = 11 ∧ o.cause = some Cause.allocAscii85In)
      ∨ (o.status = 12 ∧ o.cause = some Cause.allocAscii85Out)
      ∨ (o.status = 13 ∧ (o.cause = some Cause.missingEod ∨ o.cause = some Cause.decoderAlloc))
      ∨ (o.status = 14 ∧ o.cause = some Cause.allocInflateOut)
      ∨ (o.status = 15 ∧ o.cause = some Cause.inflateInit)
      ∨ (o.status = 16 ∧ o.cause = some Cause.inflateStatus)
      ∨ (o.status = 17 ∧ o.cause = some Cause.inflateEnd)
      ∨ (o.status = 18 ∧ o.cause = some Cause.reportOpen)))

/-- A run in which every step succeeds: the invoice file holds `doc` and
`inflate` fills the start of its zeroed output buffer with `content`. -/
def exampleEnv (doc content : List Nat) : Env :=
  { signedChar := true, argc := 3, invoiceNameLen := 11, reportNameLen := 11, sizeofULL := 8,
    zlibMajorMatches := true, invoiceFile := some doc, callocInvoice := true,
    callocAscii85In := true, callocAscii85Out := true, callocTemp := true,
    callocInflateOut := true, inflateInitRc := 0,
    inflate := fun _ availOut =>
      { rc := 1, outBuff := content ++ List.replicate (availOut - content.length) 0,
        totalOut := content.length },
    inflateEndRc := 0, reportOpen := true }

/-- The invoice file `\nstream6M<G#~>endstream`. -/
def exampleDoc : List Nat :=
  kwStream ++ [54, 77, 60, 71, 35, 126, 62] ++ kwEndstream

/-- An environment as `exampleEnv` whose `inflate` knows one zlib stream: on
the input `compressed` with room for `content` it fills the start of its
zeroed output buffer with `content` and returns `Z_STREAM_END`, with less room
it fills the buffer and returns `Z_OK`; on any other input it returns
`Z_DATA_ERROR` and leaves the buffer as `calloc` made it. -/
def zlibEnv (doc compressed content : List Nat) : Env :=
  { exampleEnv doc content with
    inflate := fun input availOut =>
      if input = compressed then
        if content.length ≤ availOut then
          { rc := 1, outBuff := content ++ List.replicate (availOut - content.length) 0,
            totalOut := content.length }
        else { rc := 0, outBuff := content.take availOut, totalOut := availOut }
      else { rc := -3, outBuff := List.replicate availOut 0, totalOut := 0 } }

/-- The content stream `($12.34) Tj\n`. -/
def dollarContent : List Nat :=
  [40, 36, 49, 50, 46, 51, 52, 41, 32, 84, 106, 10]

/-- The zlib stream of `dollarContent` (20 bytes). -/
def dollarZlib : List Nat :=
  [120, 218, 211, 80, 49, 52, 210, 51, 54, 209, 84, 8, 201, 226, 2, 0, 14, 88, 2, 86]

/-- The invoice file `\nstream`, the ASCII85 encoding of `dollarZlib`,
`~>endstream`. -/
def dollarDoc : List Nat :=
  kwStream
    ++ [71, 104, 85, 86, 67, 48, 102, 55, 60, 55, 50, 85, 80, 74, 48, 97, 108, 51, 64, 37, 37,
        84, 105, 100, 53, 126, 62]
    ++ kwEndstream

/-- The content stream of 80 lines `(A)\n`, 320 bytes. -/
def literalFillContent : List Nat :=
  oneLiteralLines (List.replicate 80 ([], [65], []))

/-- The zlib stream of `literalFillContent` (16 bytes, so that
`inflateOutBuff` has `20 * 16 = 320` bytes). -/
def literalFillZlib : List Nat :=
  [120, 218, 211, 112, 212, 228, 210, 24, 197, 100, 99, 0, 165, 50, 48, 193]

/-- The invoice file `\nstream`, the ASCII85 encoding of `literalFillZlib`,
`~>endstream`. -/
def literalFillDoc : List Nat :=
  kwStream
    ++ [71, 104, 85, 86, 99, 101, 69, 35, 36, 112, 96, 70, 78, 72, 89, 86, 40, 115, 97, 64,
        126, 62]
    ++ kwEndstream

/-- The content stream of 100 lines `BT\n`, 300 bytes without any `(`. -/
def plainFillContent : List Nat :=
  (List.replicate 100 [66, 84, 10]).flatten

/-- The zlib stream of `plainFillContent` (15 bytes, so that `inflateOutBuff`
has `20 * 15 = 300` bytes). -/
def plainFillZlib : List Nat :=
  [120, 218, 115, 10, 225, 114, 26, 69, 196, 33, 0, 215, 104, 62, 129]

/-- The invoice file `\nstream`, the ASCII85 encoding of `plainFillZlib`,
`~>endstream`. -/
def plainFillDoc : List Nat :=
  kwStream
    ++ [71, 104, 82, 51, 71, 105, 71, 111, 105, 42, 96, 36, 35, 45, 52, 66, 75, 103, 116,
        126, 62]
    ++ kwEndstream

/-- An environment as `exampleEnv` whose `inflate` looks at the room it is
given only: with `avail_out = room` it returns `Z_STREAM_END` with no output,
with any other `avail_out` it returns `Z_BUF_ERROR`. -/
def roomEnv (doc : List Nat) (room : Nat) : Env :=
  { exampleEnv doc [] with
    inflate := fun _ availOut =>
      { rc := if availOut = room then 1 else -5,
        outBuff := List.replicate availOut 0, totalOut := 0 } }

/-- A slice of `k` characters `z` (each stands for four zero bytes) followed by
the marker `~>`. -/
def zSlice (k : Nat) : List Nat :=
  List.replicate k 122 ++ [126, 62]

/-! ## The running totals of rpt3pgm -/

/-- The seven accumulators of `main` in rpt3pgm.c. -/
structure Totals where
  countInvoicesAll : Nat
  countInvoicesWithNonZeroHst : Nat
  sumNetAmtsAll : Nat
  sumNetAmtsWithNonZeroHst : Nat
  sumHst : Nat
  sumGrossAmtsAll : Nat
  sumGrossAmtsWithNonZeroHst : Nat
deriving DecidableEq, Repr

/-- The block `Update running totals` of rpt3pgm.c for one row with the values
`net`, `hst`, `gross` that `strtoul` returned. The counters are `unsigned int`
(arithmetic modulo `uintMod`), the sums `unsigned long int` (modulo
`ulongMod`). -/
def updateTotals (uintMod ulongMod : Nat) (t : Totals) (net hst gross : Nat) : Totals :=
  if hst ≠ 0 then
    { countInvoicesAll := (t.countInvoicesAll + 1) % uintMod,
      countInvoicesWithNonZeroHst := (t.countInvoicesWithNonZeroHst + 1) % uintMod,
      sumNetAmtsAll := (t.sumNetAmtsAll + net) % ulongMod,
      sumNetAmtsWithNonZeroHst := (t.sumNetAmtsWithNonZeroHst + net) % ulongMod,
      sumHst := (t.sumHst + hst) % ulongMod,
      sumGrossAmtsAll := (t.sumGrossAmtsAll + gross) % ulongMod,
      sumGrossAmtsWithNonZeroHst := (t.sumGrossAmtsWithNonZeroHst + gross) % ulongMod }
  else
    { countInvoicesAll := (t.countInvoicesAll + 1) % uintMod,
      countInvoicesWithNonZeroHst := t.countInvoicesWithNonZeroHst,
      sumNetAmtsAll := (t.sumNetAmtsAll + net) % ulongMod,
      sumNetAmtsWithNonZeroHst := t.sumNetAmtsWithNonZeroHst,
      sumHst := t.sumHst,
      sumGrossAmtsAll := (t.sumGrossAmtsAll + gross) % ulongMod,
      sumGrossAmtsWithNonZeroHst := t.sumGrossAmtsWithNonZeroHst }

/-- The accumulators of rpt3pgm.c after the loop over the data rows, each row
given by its values `(net, hst, gross)`; all accumulators start at 0. -/
def runTotals (uintMod ulongMod : Nat) (rows : List (Nat × Nat × Nat)) : Totals :=
  rows.foldl (fun t r => updateTotals uintMod ulongMod t r.1 r.2.1 r.2.2)
    { countInvoicesAll := 0, countInvoicesWithNonZeroHst := 0, sumNetAmtsAll := 0,
      sumNetAmtsWithNonZeroHst := 0, sumHst := 0, sumGrossAmtsAll := 0,
      sumGrossAmtsWithNonZeroHst := 0 }

/-- The rows with a nonzero HST value. -/
def rowsWithHst (rows : List (Nat × Nat × Nat)) : List (Nat × Nat × Nat) :=
  rows.filter (fun r => decide (r.2.1 ≠ 0))


/-! ## The white-space removal of ascii85decode, loop by loop -/

/-- The first loop of the white-space removal in `ascii85decode`, over the
bytes of `streamIn` it walks: the bytes stored through `q` into `tempBuff`, in
the order they are stored, and the final `wsCounter`. -/
def stripLoop : List Nat → List Nat × Nat
  | [] => ([], 0)
  | c :: t =>
    if c = 0 ∨ c = 9 ∨ c = 10 ∨ c = 12 ∨ c = 13 ∨ c = 32 then
      ((stripLoop t).1, (stripLoop t).2 + 1)
    else (c :: (stripLoop t).1, (stripLoop t).2)

/-- The white-space removal in `ascii85decode`, entered with the length
`inLen` already reduced by the two bytes of the marker: `tempBuff` is the
zeroed allocation of `inLen` bytes with the stored bytes at its start, `inLen`
is reduced by `wsCounter`, and that many bytes of `tempBuff` are copied back
to the start of `streamIn`. The result is `streamIn` after the copy and the
new `inLen`. -/
def stripWhitespace (streamIn : List Nat) (inLen : Nat) : List Nat × Nat :=
  let r := stripLoop (streamIn.take inLen)
  let tempBuff := r.1 ++ List.replicate (inLen - r.1.length) 0
  let inLen2 := inLen - r.2
  (tempBuff.take inLen2 ++ streamIn.drop inLen2, inLen2)

/-! ## The amount fields of rpt3pgm -/

/-- The second loop of the decimal point removal in rpt3pgm.c,
`while ( *p != '\0' ) { *(p-1) = *p; p++; }`, with the two statements
`p--; *p='\0';` after it. The argument is the buffer from `p` on, the result
the buffer from `p - 1` on; `none`: a read outside the buffer. -/
def shiftLoop : List Nat → Option (List Nat)
  | [] => none
  | c :: t => if c = 0 then some (0 :: c :: t) else (shiftLoop t).map (fun r => c :: r)

/-- The decimal point removal in rpt3pgm.c on one of `charNet`, `charHst`,
`charGross`: the loop `while ( *p++ != '.' ) ;` followed by `shiftLoop`.
The argument is the array, the result the array after the removal; `none`:
a read outside the array. -/
def removePoint : List Nat → Option (List Nat)
  | [] => none
  | c :: t => if c = 46 then shiftLoop t else (removePoint t).map (fun r => c :: r)

/-- The characters `isspace` accepts in the C locale. -/
def isSpaceC (c : Nat) : Bool := c == 32 || (decide (9 ≤ c) && decide (c ≤ 13))

/-- The decimal digits. -/
def isDigitC (c : Nat) : Bool := decide (48 ≤ c) && decide (c ≤ 57)

/-- The number a run of decimal digits is read as, most significant digit
first. -/
def digitsValue (ds : List Nat) : Nat := ds.foldl (fun acc c => acc * 10 + (c - 48)) 0

/-- What a call `strtoul(nptr, &q, 10)` leaves: the value returned, the buffer
from `q` on, and whether `errno` is set to `ERANGE`. -/
structure StrtoulResult where
  value : Nat
  endptr : List Nat
  erange : Bool
deriving DecidableEq, Repr

/-- The library function `strtoul` with base 10 as the C standard describes
it, on the buffer from `nptr` on: white space is passed over, one sign is
accepted, the longest run of digits is converted; without a digit the value
is 0 and `q` is `nptr`; a value above `ulongMax` gives `ulongMax` and
`ERANGE`; a minus sign negates the value in the unsigned type. -/
def strtoul (ulongMax : Nat) (nptr : List Nat) : StrtoulResult :=
  let s1 := nptr.dropWhile isSpaceC
  let neg := s1.head? == some 45
  let s2 := if s1.head? == some 43 || s1.head? == some 45 then s1.tail else s1
  let ds := s2.takeWhile isDigitC
  if ds = [] then { value := 0, endptr := nptr, erange := false }
  else if digitsValue ds > ulongMax then
    { value := ulongMax, endptr := s2.dropWhile isDigitC, erange := true }
  else
    { value := if neg then (ulongMax + 1 - digitsValue ds) % (ulongMax + 1) else digitsValue ds,
      endptr := s2.dropWhile isDigitC, erange := false }

/-- The outcome of the conversion of one amount in rpt3pgm.c: the format
error that makes `main` return 10, 11 or 12, or the value in cents. -/
inductive Amount where
  | formatError
  | cents (v : Nat)
deriving DecidableEq, Repr

/-- The conversion of one amount in rpt3pgm.c after the decimal point
removal: `errno=0; v = strtoul(charAmt,&q,10);` and the test
`(errno==ERANGE) || (*q!='\0')`. `none`: `q` is outside the array. -/
def parseAmount (ulongMax : Nat) (charAmt : List Nat) : Option Amount :=
  match (strtoul ulongMax charAmt).endptr with
  | [] => none
  | c :: _ =>
    if (strtoul ulongMax charAmt).erange || c != 0 then some Amount.formatError
    else some (Amount.cents (strtoul ulongMax charAmt).value)

/-- One amount of a row of rpt3pgm.c, from the array that holds the field as
a C string to the value in cents: decimal point removal, then conversion. -/
def convertAmount (ulongMax : Nat) (charAmt : List Nat) : Option Amount :=
  match removePoint charAmt with
  | none => none
  | some b => parseAmount ulongMax b

/-! ## The fields of one invoice in rpt2pgm -/

/-- The text `\nInvoice Number:  `. -/
def kwInvoiceNumber : List Nat :=
  [10, 73, 110, 118, 111, 105, 99, 101, 32, 78, 117, 109, 98, 101, 114, 58, 32, 32]

/-- The text `\nInvoice Date:  `. -/
def kwInvoiceDate : List Nat :=
  [10, 73, 110, 118, 111, 105, 99, 101, 32, 68, 97, 116, 101, 58, 32, 32]

/-- The text `\nDelivery service`. -/
def kwDelivery : List Nat :=
  [10, 68, 101, 108, 105, 118, 101, 114, 121, 32, 115, 101, 114, 118, 105, 99, 101]

/-- The text `\nUber Portier B.V.`. -/
def kwUber : List Nat :=
  [10, 85, 98, 101, 114, 32, 80, 111, 114, 116, 105, 101, 114, 32, 66, 46, 86, 46]

/-- The text `\nGST Registration Number: `. -/
def kwGst : List Nat :=
  [10, 71, 83, 84, 32, 82, 101, 103, 105, 115, 116, 114, 97, 116, 105, 111, 110, 32, 78, 117,
    109, 98, 101, 114, 58, 32]

/-- The text `\nTotal Net \n`. -/
def kwTotalNet : List Nat := [10, 84, 111, 116, 97, 108, 32, 78, 101, 116, 32, 10]

/-- The text `\nGross Amount \n`. -/
def kwGross : List Nat :=
  [10, 71, 114, 111, 115, 115, 32, 65, 109, 111, 117, 110, 116, 32, 10]

/-- The text `\nTotal HST Amount \n`. -/
def kwTotalHst : List Nat :=
  [10, 84, 111, 116, 97, 108, 32, 72, 83, 84, 32, 65, 109, 111, 117, 110, 116, 32, 10]

/-- The text `notSpecified`. -/
def notSpecified : List Nat := [110, 111, 116, 83, 112, 101, 99, 105, 102, 105, 101, 100]

/-- The text `0.00`. -/
def zeroAmount : List Nat := [48, 46, 48, 48]

/-- The call `strstr(startp, needle)` in rpt2pgm.c, `startp` being an index
into the buffer `buf` that holds the file and the NUL appended to it: the
index of the match. -/
def findFrom (buf : List Nat) (startp : Nat) (needle : List Nat) : Option Nat :=
  (strstr (buf.drop startp) needle).map (fun i => startp + i)

/-- The loop `while ( *x != delim ) *w++ = *x++;` on the buffer from `x` on:
the bytes copied, in order; `none`: a read outside the buffer. -/
def copyUntil (delim : Nat) : List Nat → Option (List Nat)
  | [] => none
  | c :: t => if c = delim then some [] else (copyUntil delim t).map (fun r => c :: r)

/-- The bytes `written` stored from the start of a character array of `cap`
bytes; `none`: a store outside the array. -/
def stored (cap : Nat) (written : List Nat) : Option (List Nat) :=
  if written.length ≤ cap then some written else none

/-- What `%s` prints of a character array: the bytes before the first NUL. -/
def cString (a : List Nat) : List Nat := a.takeWhile (fun c => c != 0)

/-- What the extraction of one field leaves: a `return` of `main` with a
status, or the bytes stored into the array of the field, the NUL included. -/
inductive Extract where
  | exit (status : Nat)
  | text (written : List Nat)
deriving DecidableEq, Repr

/-- The common shape of the mandatory fields `invNum`, `invDate`,
`gstNumber`, `netAmt`, `grossAmt`: search of the anchor from `startp`, the
test `!x || (x>endp)` with its `return`, then the copy of the text behind the
anchor up to `delim` into the array of `cap` bytes, between double quotes when
`quoted`, and the NUL. -/
def mandatoryField (buf : List Nat) (startp endp : Nat) (anchor : List Nat) (status : Nat)
    (delim cap : Nat) (quoted : Bool) : Option Extract :=
  match findFrom buf startp anchor with
  | none => some (Extract.exit status)
  | some x =>
    if x > endp then some (Extract.exit status)
    else
      match copyUntil delim (buf.drop (x + anchor.length)) with
      | none => none
      | some t =>
        (stored cap (if quoted then 34 :: t ++ [34, 0] else t ++ [0])).map Extract.text

/-- The loop `while ( *x != '\n' ) x--;` of the tax point date, entered after
`x--`, on the bytes before the anchor in reverse order: the number of bytes
stepped over; `none`: a read before the buffer. -/
def backLoop : List Nat → Option Nat
  | [] => none
  | c :: t => if c = 10 then some 0 else (backLoop t).map (fun k => k + 1)

/-- The tax point date of rpt2pgm.c: `strcpy(taxPointDate,"notSpecified")`,
the search of `\nDelivery service`, and under `x && (x<endp)` the copy of the
line above between double quotes; `w--` takes back the last byte copied
before the closing quote is stored. The array has 20 bytes. -/
def taxPointDateField (buf : List Nat) (startp endp : Nat) : Option Extract :=
  match findFrom buf startp kwDelivery with
  | none => some (Extract.text (notSpecified ++ [0]))
  | some x =>
    if x < endp then
      match backLoop (buf.take x).reverse with
      | none => none
      | some k =>
        match copyUntil 10 (buf.drop (x - k)) with
        | none => none
        | some line =>
          (stored 20 ((34 :: line).dropLast ++ [34, 0])).map Extract.text
    else some (Extract.text (notSpecified ++ [0]))

/-- The loop `while ( *x++ != '\n' ) ;` on the buffer from `x` on: the buffer
behind the first line feed; `none`: a read outside the buffer. -/
def skipLine : List Nat → Option (List Nat)
  | [] => none
  | c :: t => if c = 10 then some t else skipLine t

/-- The loop `for ( i=0; i<j; i++ ) { if ( *x == '\n' ) break; *w++ = *x++; }`
with `j` iterations at most, on the buffer from `x` on: the bytes copied. -/
def copyBounded : Nat → List Nat → Option (List Nat)
  | 0, _ => some []
  | _ + 1, [] => none
  | j + 1, c :: t => if c = 10 then some [] else (copyBounded j t).map (fun r => c :: r)

/-- The number of bytes of the array `restaurantName`. -/
def RESTAURANTMAX : Nat := 53

/-- The restaurant name of rpt2pgm.c: search of `\nUber Portier B.V.`, the test
`!x || (x>endp)` with `return 12`, the rest of that line passed over, then at
most `RESTAURANTMAX - 3` bytes of the next line between double quotes, and the
NUL. The result holds every byte stored into `restaurantName`. -/
def restaurantNameField (buf : List Nat) (startp endp : Nat) : Option Extract :=
  match findFrom buf startp kwUber with
  | none => some (Extract.exit 12)
  | some x =>
    if x > endp then some (Extract.exit 12)
    else
      match skipLine (buf.drop (x + 1)) with
      | none => none
      | some after =>
        match copyBounded (RESTAURANTMAX - 3) after with
        | none => none
        | some name => some (Extract.text (34 :: name ++ [34, 0]))

/-- The HST amount of rpt2pgm.c: `strcpy(hstAmt,"0.00")`, the search of
`\nTotal HST Amount \n`, and under `x && (x<endp)` the copy of the text behind
the anchor up to the next space into the 10 bytes of `hstAmt`, and the NUL. -/
def hstAmtField (buf : List Nat) (startp endp : Nat) : Option Extract :=
  match findFrom buf startp kwTotalHst with
  | none => some (Extract.text (zeroAmount ++ [0]))
  | some x =>
    if x < endp then
      match copyUntil 32 (buf.drop (x + kwTotalHst.length)) with
      | none => none
      | some t => (stored 10 (t ++ [0])).map Extract.text
    else some (Extract.text (zeroAmount ++ [0]))

/-- The eight fields of a row of the CSV file, as `%s` prints them. -/
structure CsvRow where
  invNum : List Nat
  invDate : List Nat
  taxPointDate : List Nat
  restaurantName : List Nat
  gstNumber : List Nat
  netAmt : List Nat
  hstAmt : List Nat
  grossAmt : List Nat
deriving DecidableEq, Repr

/-- What the body of the invoice loop leaves for one invoice: a `return` of
`main` with a status, or the row handed to `fprintf`. -/
inductive RowResult where
  | exit (status : Nat)
  | row (r : CsvRow)
deriving DecidableEq, Repr

/-- One step of the body of the invoice loop: a field that makes `main`
return ends the run with its status, a field stored lets the run go on with
the string the array holds. -/
def thenField (r : Option Extract) (k : List Nat → Option RowResult) :
    Option RowResult :=
  match r with
  | none => none
  | some (Extract.exit status) => some (RowResult.exit status)
  | some (Extract.text written) => k (cString written)

/-- The body of the invoice loop of rpt2pgm.c for the invoice from `startp` to
`endp` (both indexes into `buf`), up to the row handed to `fprintf`: the
fields in the order of the source, each with its `return`. -/
def invoiceRow (buf : List Nat) (startp endp : Nat) : Option RowResult :=
  thenField (mandatoryField buf startp endp kwInvoiceNumber 10 10 30 false) fun invNum =>
  thenField (mandatoryField buf startp endp kwInvoiceDate 11 10 20 true) fun invDate =>
  thenField (taxPointDateField buf startp endp) fun taxPointDate =>
  thenField (restaurantNameField buf startp endp) fun restaurantName =>
  thenField (mandatoryField buf startp endp kwGst 13 10 20 false) fun gstNumber =>
  thenField (mandatoryField buf startp endp kwTotalNet 14 32 10 false) fun netAmt =>
  thenField (mandatoryField buf startp endp kwGross 15 32 10 false) fun grossAmt =>
  thenField (hstAmtField buf startp endp) fun hstAmt =>
  some (RowResult.row
    { invNum := invNum, invDate := invDate, taxPointDate := taxPointDate,
      restaurantName := restaurantName, gstNumber := gstNumber,
      netAmt := netAmt, hstAmt := hstAmt, grossAmt := grossAmt })

/-- The row `fprintf` writes for the format `%s,%s,%s,%s,%s,%s,%s,%s\n`. -/
def csvLine (r : CsvRow) : List Nat :=
  r.invNum ++ 44 :: r.invDate ++ 44 :: r.taxPointDate ++ 44 :: r.restaurantName
    ++ 44 :: r.gstNumber ++ 44 :: r.netAmt ++ 44 :: r.hstAmt ++ 44 :: r.grossAmt ++ [10]

/-! ## An example invoice for rpt2pgm -/

/-- The start of the example file: the row of `=` before the invoice, its
first line, the line `Uber Portier B.V.`, the restaurant `Joe`, the invoice
number `A1` and the invoice date `Mar 1`. -/
def exampleHead : List Nat :=
  [61, 61, 61, 10, 73, 115, 115, 117, 101, 100, 32, 111, 110, 32, 98, 101, 104, 97, 108, 102, 32,
   111, 102, 32, 10, 85, 98, 101, 114, 32, 80, 111, 114, 116, 105, 101, 114, 32, 66, 46, 86, 46,
   10, 74, 111, 101, 10, 73, 110, 118, 111, 105, 99, 101, 32, 78, 117, 109, 98, 101, 114, 58, 32,
   32, 65, 49, 10, 73, 110, 118, 111, 105, 99, 101, 32, 68, 97, 116, 101, 58, 32, 32, 77, 97,
   114, 32, 49, 10]

/-- The middle of the example file: the GST registration number `12` and the
net amount `1.00`. -/
def exampleMid : List Nat :=
  [71, 83, 84, 32, 82, 101, 103, 105, 115, 116, 114, 97, 116, 105, 111, 110, 32, 78, 117, 109,
   98, 101, 114, 58, 32, 49, 50, 10, 84, 111, 116, 97, 108, 32, 78, 101, 116, 32, 10, 49, 46, 48,
   48, 32, 10]

/-- The end of the example file: the gross amount `1.13`, the row of `=`
behind the invoice and the NUL `main` appends. -/
def exampleTail : List Nat :=
  [71, 114, 111, 115, 115, 32, 65, 109, 111, 117, 110, 116, 32, 10, 49, 46, 49, 51, 32, 10, 61,
   61, 61, 10, 0]

/-- The buffer of rpt2pgm for a file with one invoice, with the lines
`dateLines` between the invoice date and the GST number and the lines
`hstLines` between the net amount and the gross amount. The invoice starts at
index 4 and ends 7 bytes before the end of the buffer. -/
def exampleInvoice (dateLines hstLines : List Nat) : List Nat :=
  exampleHead ++ dateLines ++ exampleMid ++ hstLines ++ exampleTail

/-- The lines `Mar 2 ` and `Delivery service`. -/
def exampleDateLines : List Nat :=
  [77, 97, 114, 32, 50, 32, 10, 68, 101, 108, 105, 118, 101, 114, 121, 32, 115, 101, 114, 118,
   105, 99, 101, 10]

/-- The lines `Total HST Amount ` and `0.13 `. -/
def exampleHstLines : List Nat :=
  [84, 111, 116, 97, 108, 32, 72, 83, 84, 32, 65, 109, 111, 117, 110, 116, 32, 10, 48, 46, 49,
   51, 32, 10]


/-! ## Vocabulary of the statements on well-formed content streams -/

/-- One item of the body of a literal: a byte other than `)` and backslash,
or a backslash followed by any byte. -/
inductive BodyItem where
  | plain (c : Nat)
  | escaped (c : Nat)
deriving DecidableEq, Repr

/-- Whether an item is what it says: a plain byte is neither `)` nor a
backslash. -/
def itemOk : BodyItem → Bool
  | BodyItem.plain c => c != 41 && c != 92
  | BodyItem.escaped _ => true

/-- The bytes of a body in the content stream. -/
def bodyBytes : List BodyItem → List Nat
  | [] => []
  | BodyItem.plain c :: more => c :: bodyBytes more
  | BodyItem.escaped c :: more => 92 :: c :: bodyBytes more

/-- The text of a body: the plain bytes and the bytes behind a backslash. -/
def bodyText : List BodyItem → List Nat
  | [] => []
  | BodyItem.plain c :: more => c :: bodyText more
  | BodyItem.escaped c :: more => c :: bodyText more

/-- The bytes of the literals of one line: for each pair `(body, gap)` the
literal `(` `body` `)` followed by the bytes `gap`. -/
def lineBytes : List (List BodyItem × List Nat) → List Nat
  | [] => []
  | s :: more => (40 :: bodyBytes s.1) ++ (41 :: s.2) ++ lineBytes more

/-- The texts of the literals of one line, in order. -/
def lineText : List (List BodyItem × List Nat) → List Nat
  | [] => []
  | s :: more => bodyText s.1 ++ lineText more

/-- A segment of a well-formed content stream: a single byte, or a literal
line, given by its literals `(body, gap)`, the last gap being the tail in
front of the newline. -/
inductive Segment where
  | byte (c : Nat)
  | line (lits : List (List BodyItem × List Nat))
deriving DecidableEq, Repr

/-- Whether a segment is well formed: the single byte is not `(`; the line has
at least one literal, its bodies are made of items that are what they say, and
its gaps hold neither `(` nor a newline. -/
def segOk : Segment → Bool
  | Segment.byte c => c != 40
  | Segment.line lits =>
    !lits.isEmpty
      && lits.all (fun s => s.1.all itemOk && s.2.all (fun c => c != 40 && c != 10))

/-- The bytes of a segment in the content stream. -/
def segBytes : Segment → List Nat
  | Segment.byte c => [c]
  | Segment.line lits => lineBytes lits ++ [10]

/-- What a segment adds to the report: nothing for a single byte, the texts of
the literals and one newline for a literal line. -/
def segText : Segment → List Nat
  | Segment.byte _ => []
  | Segment.line lits => lineText lits ++ [10]

/-- The content stream made of the segments, in order. -/
def contentOf : List Segment → List Nat
  | [] => []
  | s :: more => segBytes s ++ contentOf more

/-- The report text of the segments, in order. -/
def textOf : List Segment → List Nat
  | [] => []
  | s :: more => segText s ++ textOf more

/-! ## The amount strings of a row in rpt3pgm -/

/-- The characters `fgets` takes from the stream: at most `k`, up to and
with the first newline. The result is the characters and the rest of the
stream. -/
def fgetsChars : Nat → List Nat → List Nat × List Nat
  | 0, s => ([], s)
  | _ + 1, [] => ([], [])
  | k + 1, c :: t =>
    if c = 10 then ([c], t) else (c :: (fgetsChars k t).1, (fgetsChars k t).2)

/-- The library function `fgets(buffer, n, stream)` as the C standard
describes it: `none` at the end of the file; otherwise at most `n - 1`
characters, up to and with the first newline, are stored with a NUL behind
them. The result is the bytes stored and the rest of the stream. -/
def fgets (n : Nat) (stream : List Nat) : Option (List Nat × List Nat) :=
  if stream = [] then none
  else some ((fgetsChars (n - 1) stream).1 ++ [0], (fgetsChars (n - 1) stream).2)

/-- The statement of rpt3pgm.c that replaces a newline at the end of the line
by a NUL: `if ( buffer[strlen(buffer)-1] == '\n' ) buffer[strlen(buffer)-1] = '\0';`.
`none`: the string is empty and the byte before the buffer is read. -/
def stripNewline (buffer : List Nat) : Option (List Nat) :=
  if (cString buffer).length = 0 then none
  else if buffer.getD ((cString buffer).length - 1) 0 = 10 then
    some (buffer.set ((cString buffer).length - 1) 0)
  else some buffer

/-- The loop `while ( *p-- != ',' ) ;` of rpt3pgm.c on the bytes from `p`
downwards (the byte at `p` first): the bytes from the new `p` downwards, which
is one byte before the comma found. `none`: a read before the buffer. -/
def scanComma : List Nat → Option (List Nat)
  | [] => none
  | c :: t => if c = 44 then some t else scanComma t

/-- The positioning of `p` in rpt3pgm.c: `p=buffer+strlen(buffer)`, then three
times the loop `while ( *p-- != ',' ) ;`, with `p--` after the first and after
the second, then `p++; p++;`. The result is the index `p` ends at. -/
def netStart (buffer : List Nat) : Option Nat :=
  match scanComma ((buffer.take ((cString buffer).length + 1)).reverse) with
  | none => none
  | some r1 =>
    match scanComma r1.tail with
    | none => none
    | some r2 =>
      match scanComma r2.tail with
      | none => none
      | some r3 => some (r3.length + 1)

/-- The three copies of rpt3pgm.c from index `p` on: up to the next comma
into `charNet`, behind it up to the next comma into `charHst`, behind it up to
the NUL into `charGross`, each with a NUL behind it in an array of 15 bytes.
The result is the bytes stored into the three arrays. -/
def grabAmounts (buffer : List Nat) (p : Nat) : Option (List Nat × List Nat × List Nat) :=
  match copyUntil 44 (buffer.drop p) with
  | none => none
  | some net =>
    match stored 15 (net ++ [0]) with
    | none => none
    | some charNet =>
      match copyUntil 44 (buffer.drop (p + net.length + 1)) with
      | none => none
      | some hst =>
        match stored 15 (hst ++ [0]) with
        | none => none
        | some charHst =>
          match copyUntil 0 (buffer.drop (p + net.length + 1 + hst.length + 1)) with
          | none => none
          | some gross =>
            match stored 15 (gross ++ [0]) with
            | none => none
            | some charGross => some (charNet, charHst, charGross)

/-- The body of the row loop of rpt3pgm.c up to the three arrays, on the
buffer `fgets` has filled. -/
def rowAmountArrays (buffer : List Nat) : Option (List Nat × List Nat × List Nat) :=
  match stripNewline buffer with
  | none => none
  | some b =>
    match netStart b with
    | none => none
    | some p => grabAmounts b p

/-- One row of rpt3pgm.c from the CSV file on: `fgets(buffer,MAXCSVLINE-5,csvFile)`
with `MAXCSVLINE` 200, then the body of the loop up to the three arrays. -/
def readRowAmounts (stream : List Nat) : Option (List Nat × List Nat × List Nat) :=
  match fgets 195 stream with
  | none => none
  | some r => rowAmountArrays r.1

end UberEats

namespace UberEats

/-! ## Lemmas on the end-of-data check -/

theorem getD_eod_fst (body : List Nat) (a b : Nat) :
    (body ++ [a, b]).getD ((body ++ [a, b]).length - 2) 0 = a := by
  have h : (body ++ [a, b]).length - 2 = body.length := by simp
  rw [h, List.getD_eq_getElem?_getD, List.getElem?_append_right (le_refl _)]
  simp

theorem getD_eod_snd (body : List Nat) (a b : Nat) :
    (body ++ [a, b]).getD ((body ++ [a, b]).length - 1) 0 = b := by
  have h : (body ++ [a, b]).length - 1 = body.length + 1 := by simp
  rw [h, List.getD_eq_getElem?_getD, List.getElem?_append_right (Nat.le_succ _)]
  simp

theorem exists_eod_split (s : List Nat) (h : 2 ≤ s.length) :
    ∃ body a b, s = body ++ [a, b] := by
  refine ⟨s.take (s.length - 2), s.getD (s.length - 2) 0, s.getD (s.length - 1) 0, ?_⟩
  have h1 : s.drop (s.length - 2) = [s.getD (s.length - 2) 0, s.getD (s.length - 1) 0] := by
    apply List.ext_getElem
    · simp; omega
    · intro i h1 h2
      simp at h2
      have hi : i = 0 ∨ i = 1 := by omega
      rcases hi with rfl | rfl
      · simp [List.getD_eq_getElem?_getD]
        rw [List.getElem?_eq_getElem (by omega)]; simp
      · simp [List.getD_eq_getElem?_getD]
        rw [List.getElem?_eq_getElem (by omega)]; simp
        congr 1; omega
  rw [← h1, List.take_append_drop]

theorem countP_whitespace_eq (l : List Nat) :
    l.length - l.countP isWhitespace = (l.filter (fun c => !isWhitespace c)).length := by
  have h := List.length_eq_countP_add_countP isWhitespace l
  have h2 : (l.filter (fun c => !isWhitespace c)).length
      = l.countP (fun c => !isWhitespace c) := by
    rw [List.countP_eq_length_filter]
  rw [h2]
  have h3 : List.countP (fun a => decide ¬isWhitespace a = true) l
      = l.countP (fun c => !isWhitespace c) := by
    congr 1; funext c; cases isWhitespace c <;> simp
  omega

/-- Unfolding of `ascii85decode` on a buffer that ends in the marker `~>`. -/
theorem ascii85decode_eod (sc : Bool) (body out : List Nat) (cnt : Nat) :
    ascii85decode sc (body ++ [126, 62]) out cnt =
      match decodeLoop sc (body.filter (fun c => !isWhitespace c)
              ++ (body ++ [126, 62]).drop (body.filter (fun c => !isWhitespace c)).length)
              ((body.filter (fun c => !isWhitespace c)).length : Int) with
      | none => none
      | some r =>
        match decodeTail sc r.rest r.bytesLeft with
        | none => none
        | some (w, c) =>
          some { rc := 0,
                 streamIn := body.filter (fun c => !isWhitespace c)
                   ++ (body ++ [126, 62]).drop (body.filter (fun c => !isWhitespace c)).length,
                 streamOut := storeOut out (r.written ++ w),
                 actualOutCount := 0 + r.count + c } := by
  unfold ascii85decode
  have hlen : ¬ (body ++ [126, 62]).length < 2 := by simp
  have htake : (body ++ [126, 62]).take ((body ++ [126, 62]).length - 2) = body := by simp
  simp only [hlen, if_false, getD_eod_fst, getD_eod_snd, htake]
  have hl2 : (body ++ [126, 62]).length - 2 = body.length := by simp
  simp only [hl2, countP_whitespace_eq, List.take_length]
  simp

/-- Unfolding of `ascii85decode` on a buffer without white space that ends in
the marker `~>`: the compaction leaves the buffer as it is. -/
theorem ascii85decode_eod_clean (sc : Bool) (body out : List Nat) (cnt : Nat)
    (hws : ∀ c ∈ body, isWhitespace c = false) :
    ascii85decode sc (body ++ [126, 62]) out cnt =
      match decodeLoop sc (body ++ [126, 62]) (body.length : Int) with
      | none => none
      | some r =>
        match decodeTail sc r.rest r.bytesLeft with
        | none => none
        | some (w, c) =>
          some { rc := 0, streamIn := body ++ [126, 62],
                 streamOut := storeOut out (r.written ++ w),
                 actualOutCount := 0 + r.count + c } := by
  have hf : body.filter (fun c => !isWhitespace c) = body := by
    rw [List.filter_eq_self]
    intro c hc
    simp [hws c hc]
  rw [ascii85decode_eod, hf]
  simp

theorem decodeLoop_stop (sc : Bool) (c0 : Nat) (t : List Nat) (bl : Int)
    (hz : c0 ≠ 122) (hbl : bl < 5) :
    decodeLoop sc (c0 :: t) bl
      = some { written := [], count := 0, rest := c0 :: t, bytesLeft := bl } := by
  have h5 : ¬ (5 ≤ bl) := by omega
  rw [decodeLoop.eq_def]
  simp [hz, h5]

theorem decodeLoop_z (sc : Bool) (t : List Nat) (bl : Int) :
    decodeLoop sc (122 :: t) bl = emitGroup [0, 0, 0, 0] (decodeLoop sc t (bl - 1)) := by
  rw [decodeLoop.eq_def]
  simp

theorem decodeLoop_group (sc : Bool) (c0 c1 c2 c3 c4 : Nat) (t : List Nat) (bl : Int)
    (hz : c0 ≠ 122) (hbl : 5 ≤ bl) :
    decodeLoop sc (c0 :: c1 :: c2 :: c3 :: c4 :: t) bl =
      emitGroup (decodeGroup sc c0 c1 c2 c3 c4) (decodeLoop sc t (bl - 5)) := by
  rw [decodeLoop.eq_def]
  simp [hz, hbl]

theorem decodeLoop_z_run (sc : Bool) (k : Nat) (t : List Nat) (bl : Int) (h : bl - k < 5) :
    decodeLoop sc (List.replicate k 122 ++ 126 :: t) bl
      = some { written := List.replicate (4 * k) 0, count := 4 * k, rest := 126 :: t,
               bytesLeft := bl - k } := by
  induction k generalizing bl with
  | zero =>
    simp at h
    simpa using decodeLoop_stop sc 126 t bl (by decide) h
  | succ k ih =>
    have h1 : (bl - 1) - (k : Int) < 5 := by push_cast at h; omega
    rw [List.replicate_succ, List.cons_append, decodeLoop_z, ih (bl - 1) h1]
    have h2 : 4 * (k + 1) = 4 * k + 4 := by ring
    have h3 : bl - 1 - (k : Int) = bl - ((k + 1 : Nat) : Int) := by push_cast; ring
    simp [emitGroup, h2, h3, List.replicate_succ]

theorem decodeGroup_length (sc : Bool) (c0 c1 c2 c3 c4 : Nat) :
    (decodeGroup sc c0 c1 c2 c3 c4).length = 4 := by
  simp [decodeGroup, bytesOfSum]

theorem decodeFullGroups_short (sc : Bool) (l : List Nat) (h : l.length < 5) :
    decodeFullGroups sc l = [] := by
  rcases l with _ | ⟨a, _ | ⟨b, _ | ⟨c, _ | ⟨d, _ | ⟨e, t⟩⟩⟩⟩⟩ <;>
    simp [decodeFullGroups] at h ⊢
  omega

/-- The main loop on a payload without `z`: it decodes the `m` full groups and
stops in front of the `n < 5` characters left over. -/
theorem decodeLoop_clean (sc : Bool) (n : Nat) (hn : n < 5) (T : List Nat) :
    ∀ (m : Nat) (payload : List Nat), (∀ c ∈ payload, c ≠ 122) →
      payload.length = 5 * m + n →
      decodeLoop sc (payload ++ 126 :: T) (payload.length : Int)
        = some { written := decodeFullGroups sc payload, count := 4 * m,
                 rest := payload.drop (5 * m) ++ 126 :: T, bytesLeft := (n : Int) } := by
  intro m
  induction m with
  | zero =>
    intro payload hz hlen
    have hl : payload.length < 5 := by omega
    have hl2 : ((payload.length : Nat) : Int) < 5 := by omega
    rw [decodeFullGroups_short sc payload hl]
    rcases payload with _ | ⟨c0, t⟩
    · simp at hlen
      subst hlen
      simpa using decodeLoop_stop sc 126 T 0 (by decide) (by decide)
    · have hc0 : c0 ≠ 122 := hz c0 (by simp)
      have := decodeLoop_stop sc c0 (t ++ 126 :: T) ((c0 :: t).length : Int) hc0 hl2
      simp only [List.cons_append] at this ⊢
      rw [this]
      simp at hlen
      simp [hlen]
  | succ m ih =>
    intro payload hz hlen
    rcases payload with _ | ⟨c0, _ | ⟨c1, _ | ⟨c2, _ | ⟨c3, _ | ⟨c4, t⟩⟩⟩⟩⟩ <;>
      simp at hlen <;> try omega
    have hc0 : c0 ≠ 122 := hz c0 (by simp)
    have hzt : ∀ c ∈ t, c ≠ 122 := fun c hc => hz c (by simp [hc])
    have hlt : t.length = 5 * m + n := by omega
    have h5 : (5 : Int) ≤ ((c0 :: c1 :: c2 :: c3 :: c4 :: t).length : Int) := by
      simp; omega
    have hbl : (((c0 :: c1 :: c2 :: c3 :: c4 :: t).length : Nat) : Int) - 5
        = (t.length : Int) := by
      simp only [List.length_cons]
      push_cast
      ring
    simp only [List.cons_append]
    rw [decodeLoop_group sc c0 c1 c2 c3 c4 _ _ hc0 h5, hbl, ih t hzt hlt]
    have hd : 5 * (m + 1) = 5 * m + 5 := by ring
    simp [emitGroup, decodeFullGroups, hd]
    ring

/-- The short-group block on `n` (2, 3 or 4) characters left over: it stores
the first `n - 1` bytes of the decode of the characters padded with `u`. -/
theorem decodeTail_short (sc : Bool) (rest T : List Nat) (n : Nat)
    (hn : n = 2 ∨ n = 3 ∨ n = 4) (hl : rest.length = n) :
    decodeTail sc (rest ++ 126 :: T) (n : Int)
      = some ((decodeGroupList sc (rest ++ List.replicate (5 - n) 117)).take (n - 1),
              n - 1) := by
  rcases hn with rfl | rfl | rfl
  · rcases rest with _ | ⟨a, _ | ⟨b, _ | ⟨c, t⟩⟩⟩ <;> simp at hl
    have h : ¬ (T.length + 1 + 1 + 1 < 2) := by omega
    simp [decodeTail, shortGroup, decodeGroupList, List.replicate, h]
  · rcases rest with _ | ⟨a, _ | ⟨b, _ | ⟨c, _ | ⟨d, t⟩⟩⟩⟩ <;> simp at hl
    have h : ¬ (T.length + 1 + 1 + 1 + 1 < 3) := by omega
    simp [decodeTail, shortGroup, decodeGroupList, List.replicate, h]
  · rcases rest with _ | ⟨a, _ | ⟨b, _ | ⟨c, _ | ⟨d, _ | ⟨e, t⟩⟩⟩⟩⟩ <;> simp at hl
    have h : ¬ (T.length + 1 + 1 + 1 + 1 + 1 < 4) := by omega
    simp [decodeTail, shortGroup, decodeGroupList, List.replicate, h]

theorem decodeFullGroups_length (sc : Bool) (n : Nat) (hn : n < 5) :
    ∀ (m : Nat) (payload : List Nat), payload.length = 5 * m + n →
      (decodeFullGroups sc payload).length = 4 * m := by
  intro m
  induction m with
  | zero =>
    intro payload hlen
    rw [decodeFullGroups_short sc payload (by omega)]
    rfl
  | succ m ih =>
    intro payload hlen
    rcases payload with _ | ⟨c0, _ | ⟨c1, _ | ⟨c2, _ | ⟨c3, _ | ⟨c4, t⟩⟩⟩⟩⟩ <;>
      simp at hlen <;> try omega
    have hlt : t.length = 5 * m + n := by omega
    simp [decodeFullGroups, decodeGroup_length, ih t hlt]
    ring

/-! ## Arithmetic of one group -/

theorem toU64_char (sc : Bool) (d : Nat) (h : d < 85) :
    toU64 (charToInt sc (d + 33) - 33) = d := by
  have h1 : ¬ (128 ≤ d + 33) := by omega
  simp only [charToInt, h1, decide_False, Bool.and_false, if_false, toU64]
  push_cast
  omega

/-- On five characters that are digits below 85 offset by 33, `sum` is the
base-85 number of the digits. -/
theorem sum85_digits (sc : Bool) (d0 d1 d2 d3 d4 : Nat)
    (h0 : d0 < 85) (h1 : d1 < 85) (h2 : d2 < 85) (h3 : d3 < 85) (h4 : d4 < 85) :
    sum85 sc (d0 + 33) (d1 + 33) (d2 + 33) (d3 + 33) (d4 + 33)
      = d0 * 52200625 + d1 * 614125 + d2 * 7225 + d3 * 85 + d4 := by
  unfold sum85
  rw [toU64_char sc d0 h0, toU64_char sc d1 h1, toU64_char sc d2 h2, toU64_char sc d3 h3,
    toU64_char sc d4 h4]
  omega

theorem bytesOfSum_word32 (b0 b1 b2 b3 : Nat)
    (h0 : b0 < 256) (h1 : b1 < 256) (h2 : b2 < 256) (h3 : b3 < 256) :
    bytesOfSum (word32 b0 b1 b2 b3) = [b0, b1, b2, b3] := by
  unfold bytesOfSum word32
  have e1 : (b0 * 16777216 + b1 * 65536 + b2 * 256 + b3) / 16777216 = b0 := by omega
  simp only [e1]
  have e2 : b0 * 16777216 + b1 * 65536 + b2 * 256 + b3 - b0 * 16777216
      = b1 * 65536 + b2 * 256 + b3 := by omega
  simp only [e2]
  have e3 : (b1 * 65536 + b2 * 256 + b3) / 65536 = b1 := by omega
  simp only [e3]
  have e4 : b1 * 65536 + b2 * 256 + b3 - b1 * 65536 = b2 * 256 + b3 := by omega
  simp only [e4]
  have e5 : (b2 * 256 + b3) / 256 = b2 := by omega
  simp only [e5]
  have e6 : b2 * 256 + b3 - b2 * 256 = b3 := by omega
  simp only [e6, Nat.mod_eq_of_lt h0, Nat.mod_eq_of_lt h1, Nat.mod_eq_of_lt h2,
    Nat.mod_eq_of_lt h3]

theorem word32_lt (b0 b1 b2 b3 : Nat)
    (h0 : b0 < 256) (h1 : b1 < 256) (h2 : b2 < 256) (h3 : b3 < 256) :
    word32 b0 b1 b2 b3 < 4294967296 := by
  unfold word32
  omega

/-- A full group of the reference encoder decodes to its four bytes. -/
theorem decodeGroup_refEncodeDigits (sc : Bool) (b0 b1 b2 b3 : Nat)
    (h0 : b0 < 256) (h1 : b1 < 256) (h2 : b2 < 256) (h3 : b3 < 256) :
    decodeGroupList sc (refEncodeDigits (word32 b0 b1 b2 b3)) = [b0, b1, b2, b3] := by
  have hv := word32_lt b0 b1 b2 b3 h0 h1 h2 h3
  generalize hvd : word32 b0 b1 b2 b3 = v at hv
  simp only [refEncodeDigits, decodeGroupList, decodeGroup]
  rw [sum85_digits sc _ _ _ _ _ (by omega) (Nat.mod_lt _ (by decide))
    (Nat.mod_lt _ (by decide)) (Nat.mod_lt _ (by decide)) (Nat.mod_lt _ (by decide))]
  have hs : v / 52200625 * 52200625 + v / 614125 % 85 * 614125 + v / 7225 % 85 * 7225
      + v / 85 % 85 * 85 + v % 85 = v := by omega
  rw [hs, ← hvd]
  exact bytesOfSum_word32 b0 b1 b2 b3 h0 h1 h2 h3

/-- The bytes of a sum below 2^32, from its top byte and the 24 bits under
it. -/
theorem bytesOfSum_low (b0 r : Nat) (h0 : b0 < 256) (hr : r < 16777216) :
    bytesOfSum (b0 * 16777216 + r) = [b0, r / 65536, r / 256 % 256, r % 256] := by
  have hw : b0 * 16777216 + r = word32 b0 (r / 65536) (r / 256 % 256) (r % 256) := by
    unfold word32
    omega
  rw [hw, bytesOfSum_word32 _ _ _ _ h0 (by omega) (by omega) (by omega)]

/-- A final group of one byte: the first byte of the decode of its two
characters padded with `u`. -/
theorem decodeGroup_pad1 (sc : Bool) (b0 : Nat) (h0 : b0 < 256) :
    (decodeGroup sc (word32 b0 0 0 0 / 52200625 + 33) (word32 b0 0 0 0 / 614125 % 85 + 33)
      117 117 117).take 1 = [b0] := by
  have hv := word32_lt b0 0 0 0 h0 (by decide) (by decide) (by decide)
  have hu : (117 : Nat) = 84 + 33 := rfl
  unfold decodeGroup
  rw [hu, sum85_digits sc _ _ _ _ _ (by omega) (Nat.mod_lt _ (by decide)) (by decide)
    (by decide) (by decide)]
  have hvd : word32 b0 0 0 0 = b0 * 16777216 := by simp [word32]
  generalize word32 b0 0 0 0 = v at hv hvd
  have q1 : v / 614125 / 85 = v / 52200625 := by rw [Nat.div_div_eq_div_mul]
  have hq1 : v / 614125 * 614125 ≤ v := Nat.div_mul_le_self v 614125
  have hq2 : v < v / 614125 * 614125 + 614125 := by omega
  rw [← q1]
  generalize v / 614125 = q at hq1 hq2
  have hS : q / 85 * 52200625 + q % 85 * 614125 + 84 * 7225 + 84 * 85 + 84
      = b0 * 16777216 + (q * 614125 + 614124 - v) := by omega
  rw [hS, bytesOfSum_low b0 _ h0 (by omega)]
  rfl

/-- A final group of two bytes: the first two bytes of the decode of its three
characters padded with `u`. -/
theorem decodeGroup_pad2 (sc : Bool) (b0 b1 : Nat) (h0 : b0 < 256) (h1 : b1 < 256) :
    (decodeGroup sc (word32 b0 b1 0 0 / 52200625 + 33) (word32 b0 b1 0 0 / 614125 % 85 + 33)
      (word32 b0 b1 0 0 / 7225 % 85 + 33) 117 117).take 2 = [b0, b1] := by
  have hv := word32_lt b0 b1 0 0 h0 h1 (by decide) (by decide)
  have hu : (117 : Nat) = 84 + 33 := rfl
  unfold decodeGroup
  rw [hu, sum85_digits sc _ _ _ _ _ (by omega) (Nat.mod_lt _ (by decide))
    (Nat.mod_lt _ (by decide)) (by decide) (by decide)]
  have hvd : word32 b0 b1 0 0 = b0 * 16777216 + b1 * 65536 := by simp [word32]
  generalize word32 b0 b1 0 0 = v at hv hvd
  have q1 : v / 7225 / 85 / 85 = v / 52200625 := by
    rw [Nat.div_div_eq_div_mul, Nat.div_div_eq_div_mul]
  have q2 : v / 7225 / 85 = v / 614125 := by rw [Nat.div_div_eq_div_mul]
  have hq1 : v / 7225 * 7225 ≤ v := Nat.div_mul_le_self v 7225
  have hq2 : v < v / 7225 * 7225 + 7225 := by omega
  rw [← q1, ← q2]
  generalize v / 7225 = q at hq1 hq2
  have hS : q / 85 / 85 * 52200625 + q / 85 % 85 * 614125 + q % 85 * 7225 + 84 * 85 + 84
      = b0 * 16777216 + (b1 * 65536 + (q * 7225 + 7224 - v)) := by omega
  rw [hS, bytesOfSum_low b0 _ h0 (by omega)]
  simp only [List.take_succ_cons, List.take_zero, List.cons.injEq, and_true, true_and]
  omega

/-- A final group of three bytes: the first three bytes of the decode of its
four characters padded with `u`. -/
theorem decodeGroup_pad3 (sc : Bool) (b0 b1 b2 : Nat)
    (h0 : b0 < 256) (h1 : b1 < 256) (h2 : b2 < 256) :
    (decodeGroup sc (word32 b0 b1 b2 0 / 52200625 + 33) (word32 b0 b1 b2 0 / 614125 % 85 + 33)
      (word32 b0 b1 b2 0 / 7225 % 85 + 33) (word32 b0 b1 b2 0 / 85 % 85 + 33) 117).take 3
      = [b0, b1, b2] := by
  have hv := word32_lt b0 b1 b2 0 h0 h1 h2 (by decide)
  have hu : (117 : Nat) = 84 + 33 := rfl
  unfold decodeGroup
  rw [hu, sum85_digits sc _ _ _ _ _ (by omega) (Nat.mod_lt _ (by decide))
    (Nat.mod_lt _ (by decide)) (Nat.mod_lt _ (by decide)) (by decide)]
  have hvd : word32 b0 b1 b2 0 = b0 * 16777216 + b1 * 65536 + b2 * 256 := by simp [word32]
  generalize word32 b0 b1 b2 0 = v at hv hvd
  have q1 : v / 85 / 85 / 85 / 85 = v / 52200625 := by
    rw [Nat.div_div_eq_div_mul, Nat.div_div_eq_div_mul, Nat.div_div_eq_div_mul]
  have q2 : v / 85 / 85 / 85 = v / 614125 := by
    rw [Nat.div_div_eq_div_mul, Nat.div_div_eq_div_mul]
  have q3 : v / 85 / 85 = v / 7225 := by rw [Nat.div_div_eq_div_mul]
  have hq1 : v / 85 * 85 ≤ v := Nat.div_mul_le_self v 85
  have hq2 : v < v / 85 * 85 + 85 := by omega
  rw [← q1, ← q2, ← q3]
  generalize v / 85 = q at hq1 hq2
  have hS : q / 85 / 85 / 85 * 52200625 + q / 85 / 85 % 85 * 614125 + q / 85 % 85 * 7225
        + q % 85 * 85 + 84
      = b0 * 16777216 + (b1 * 65536 + b2 * 256 + (q * 85 + 84 - v)) := by omega
  have he : q * 85 + 84 - v < 85 := by omega
  rw [hS]
  generalize q * 85 + 84 - v = e at he
  rw [bytesOfSum_low b0 _ h0 (by omega)]
  simp only [List.take_succ_cons, List.take_zero, List.cons.injEq, and_true, true_and]
  clear hS hq1 hq2 q1 q2 q3 hvd hv
  constructor <;> omega

/-! ## The loop and the short-group block together -/

theorem decodeAll_z (sc : Bool) (t : List Nat) (bl : Int) :
    decodeAll sc (122 :: t) bl
      = (decodeAll sc t (bl - 1)).map (fun r => (0 :: 0 :: 0 :: 0 :: r.1, r.2 + 4)) := by
  unfold decodeAll
  rw [decodeLoop_z]
  cases decodeLoop sc t (bl - 1) with
  | none => simp [emitGroup]
  | some r =>
    simp only [emitGroup]
    cases decodeTail sc r.rest r.bytesLeft with
    | none => simp
    | some wc => simp; ring

theorem decodeAll_group (sc : Bool) (c0 c1 c2 c3 c4 : Nat) (t : List Nat) (bl : Int)
    (hz : c0 ≠ 122) (hbl : 5 ≤ bl) :
    decodeAll sc (c0 :: c1 :: c2 :: c3 :: c4 :: t) bl
      = (decodeAll sc t (bl - 5)).map
          (fun r => (decodeGroup sc c0 c1 c2 c3 c4 ++ r.1, r.2 + 4)) := by
  unfold decodeAll
  rw [decodeLoop_group sc c0 c1 c2 c3 c4 t bl hz hbl]
  cases decodeLoop sc t (bl - 5) with
  | none => simp [emitGroup]
  | some r =>
    simp only [emitGroup]
    cases decodeTail sc r.rest r.bytesLeft with
    | none => simp
    | some wc => simp; ring

theorem decodeAll_stop (sc : Bool) (c0 : Nat) (t : List Nat) (bl : Int)
    (hz : c0 ≠ 122) (hbl : bl < 5) :
    decodeAll sc (c0 :: t) bl = decodeTail sc (c0 :: t) bl := by
  unfold decodeAll
  rw [decodeLoop_stop sc c0 t bl hz hbl]
  simp only [List.nil_append, zero_add]
  rcases decodeTail sc (c0 :: t) bl with _ | ⟨w, c⟩ <;> rfl

/-- Unfolding of `ascii85decode` on a buffer without white space that ends in
`~>`, through `decodeAll`. -/
theorem ascii85decode_eod_clean_all (sc : Bool) (body out : List Nat) (cnt : Nat)
    (hws : ∀ c ∈ body, isWhitespace c = false) :
    ascii85decode sc (body ++ [126, 62]) out cnt =
      (decodeAll sc (body ++ 126 :: [62]) (body.length : Int)).map
        (fun r => { rc := 0, streamIn := body ++ [126, 62], streamOut := storeOut out r.1,
                    actualOutCount := r.2 }) := by
  rw [ascii85decode_eod_clean sc body out cnt hws]
  unfold decodeAll
  cases decodeLoop sc (body ++ [126, 62]) (body.length : Int) with
  | none => simp
  | some r =>
    simp only
    cases decodeTail sc r.rest r.bytesLeft with
    | none => simp
    | some wc => simp

/-! ## Round trip with the reference encoder -/

theorem isWhitespace_of_ge (c : Nat) (h : 33 ≤ c) : isWhitespace c = false := by
  have h0 : c ≠ 0 := by omega
  have h1 : c ≠ 9 := by omega
  have h2 : c ≠ 10 := by omega
  have h3 : c ≠ 12 := by omega
  have h4 : c ≠ 13 := by omega
  have h5 : c ≠ 32 := by omega
  simp [isWhitespace, h0, h1, h2, h3, h4, h5]

theorem refEncodeDigits_ge (v c : Nat) (h : c ∈ refEncodeDigits v) : 33 ≤ c := by
  simp only [refEncodeDigits, List.mem_cons, List.mem_singleton, List.not_mem_nil,
    or_false] at h
  omega

theorem refEncodeBody_ge : ∀ (B : List Nat) (c : Nat), c ∈ refEncodeBody B → 33 ≤ c
  | [], c, h => by simp [refEncodeBody] at h
  | [b0], c, h => by
    simp only [refEncodeBody] at h
    exact refEncodeDigits_ge _ c (List.mem_of_mem_take h)
  | [b0, b1], c, h => by
    simp only [refEncodeBody] at h
    exact refEncodeDigits_ge _ c (List.mem_of_mem_take h)
  | [b0, b1, b2], c, h => by
    simp only [refEncodeBody] at h
    exact refEncodeDigits_ge _ c (List.mem_of_mem_take h)
  | b0 :: b1 :: b2 :: b3 :: rest, c, h => by
    simp only [refEncodeBody, List.mem_append] at h
    rcases h with h | h
    · split at h
      · simp at h; omega
      · exact refEncodeDigits_ge _ c h
    · exact refEncodeBody_ge rest c h

/-- The decoder loop and short-group block invert the reference encoder. -/
theorem decodeAll_refEncodeBody (sc : Bool) (T : List Nat) :
    ∀ (B : List Nat), (∀ b ∈ B, b < 256) →
      decodeAll sc (refEncodeBody B ++ 126 :: T) ((refEncodeBody B).length : Int)
        = some (B, B.length)
  | [], _ => by
    simp only [refEncodeBody, List.nil_append, List.length_nil]
    rw [decodeAll_stop sc 126 T _ (by decide) (by decide)]
    simp [decodeTail]
  | [b0], h => by
    have h0 : b0 < 256 := h b0 (by simp)
    have hv := word32_lt b0 0 0 0 h0 (by decide) (by decide) (by decide)
    have hc : word32 b0 0 0 0 / 52200625 + 33 ≠ 122 := by omega
    simp only [refEncodeBody, refEncodeDigits, List.take_succ_cons, List.take_zero,
      List.cons_append, List.nil_append, List.length_cons, List.length_nil]
    rw [decodeAll_stop sc _ _ _ hc (by decide)]
    have ht := decodeTail_short sc
      [word32 b0 0 0 0 / 52200625 + 33, word32 b0 0 0 0 / 614125 % 85 + 33] T 2
      (Or.inl rfl) rfl
    simp only [List.cons_append, List.nil_append] at ht
    have h2 : ((0 + 1 + 1 : Nat) : Int) = ((2 : Nat) : Int) := rfl
    rw [h2, ht]
    have hp := decodeGroup_pad1 sc b0 h0
    simp only [decodeGroupList, List.replicate] at hp ⊢
    simp only [hp]
  | [b0, b1], h => by
    have h0 : b0 < 256 := h b0 (by simp)
    have h1 : b1 < 256 := h b1 (by simp)
    have hv := word32_lt b0 b1 0 0 h0 h1 (by decide) (by decide)
    have hc : word32 b0 b1 0 0 / 52200625 + 33 ≠ 122 := by omega
    simp only [refEncodeBody, refEncodeDigits, List.take_succ_cons, List.take_zero,
      List.cons_append, List.nil_append, List.length_cons, List.length_nil]
    rw [decodeAll_stop sc _ _ _ hc (by decide)]
    have ht := decodeTail_short sc
      [word32 b0 b1 0 0 / 52200625 + 33, word32 b0 b1 0 0 / 614125 % 85 + 33,
        word32 b0 b1 0 0 / 7225 % 85 + 33] T 3 (Or.inr (Or.inl rfl)) rfl
    simp only [List.cons_append, List.nil_append] at ht
    have h2 : ((0 + 1 + 1 + 1 : Nat) : Int) = ((3 : Nat) : Int) := rfl
    rw [h2, ht]
    have hp := decodeGroup_pad2 sc b0 b1 h0 h1
    simp only [decodeGroupList, List.replicate] at hp ⊢
    simp only [hp]
  | [b0, b1, b2], h => by
    have h0 : b0 < 256 := h b0 (by simp)
    have h1 : b1 < 256 := h b1 (by simp)
    have h2 : b2 < 256 := h b2 (by simp)
    have hv := word32_lt b0 b1 b2 0 h0 h1 h2 (by decide)
    have hc : word32 b0 b1 b2 0 / 52200625 + 33 ≠ 122 := by omega
    simp only [refEncodeBody, refEncodeDigits, List.take_succ_cons, List.take_zero,
      List.cons_append, List.nil_append, List.length_cons, List.length_nil]
    rw [decodeAll_stop sc _ _ _ hc (by decide)]
    have ht := decodeTail_short sc
      [word32 b0 b1 b2 0 / 52200625 + 33, word32 b0 b1 b2 0 / 614125 % 85 + 33,
        word32 b0 b1 b2 0 / 7225 % 85 + 33, word32 b0 b1 b2 0 / 85 % 85 + 33] T 4
      (Or.inr (Or.inr rfl)) rfl
    simp only [List.cons_append, List.nil_append] at ht
    have h4 : ((0 + 1 + 1 + 1 + 1 : Nat) : Int) = ((4 : Nat) : Int) := rfl
    rw [h4, ht]
    have hp := decodeGroup_pad3 sc b0 b1 b2 h0 h1 h2
    simp only [decodeGroupList, List.replicate] at hp ⊢
    simp only [hp]
  | b0 :: b1 :: b2 :: b3 :: rest, h => by
    have h0 : b0 < 256 := h b0 (by simp)
    have h1 : b1 < 256 := h b1 (by simp)
    have h2 : b2 < 256 := h b2 (by simp)
    have h3 : b3 < 256 := h b3 (by simp)
    have hr : ∀ b ∈ rest, b < 256 := fun b hb => h b (by simp [hb])
    have ih := decodeAll_refEncodeBody sc T rest hr
    have hv := word32_lt b0 b1 b2 b3 h0 h1 h2 h3
    simp only [refEncodeBody]
    by_cases hw : word32 b0 b1 b2 b3 = 0
    · have hb : b0 = 0 ∧ b1 = 0 ∧ b2 = 0 ∧ b3 = 0 := by
        unfold word32 at hw
        omega
      obtain ⟨rfl, rfl, rfl, rfl⟩ := hb
      simp only [hw, if_true, List.cons_append, List.nil_append, List.length_cons]
      rw [decodeAll_z]
      have hbl : (((refEncodeBody rest).length + 1 : Nat) : Int) - 1
          = ((refEncodeBody rest).length : Int) := by push_cast; ring
      rw [hbl, ih]
      simp
    · have hc : word32 b0 b1 b2 b3 / 52200625 + 33 ≠ 122 := by omega
      have hg := decodeGroup_refEncodeDigits sc b0 b1 b2 b3 h0 h1 h2 h3
      simp only [refEncodeDigits, decodeGroupList] at hg
      simp only [hw, if_false, refEncodeDigits, List.cons_append, List.nil_append,
        List.length_cons]
      have h5 : (5 : Int) ≤ (((refEncodeBody rest).length + 1 + 1 + 1 + 1 + 1 : Nat) : Int) := by
        push_cast; omega
      rw [decodeAll_group sc _ _ _ _ _ _ _ hc h5]
      have hbl : (((refEncodeBody rest).length + 1 + 1 + 1 + 1 + 1 : Nat) : Int) - 5
          = ((refEncodeBody rest).length : Int) := by push_cast; ring
      rw [hbl, ih, hg]
      simp

/-! ## Claims on ascii85decode -/

/-- C3: an input of length at least 2 whose last two bytes are not `~>` makes
`ascii85decode` return 1 and leaves the output buffer and the output count as
the caller passed them. -/
theorem ascii85decode_missing_eod (sc : Bool) (s out : List Nat) (cnt : Nat)
    (hlen : 2 ≤ s.length) (h : ¬ [126, 62] <:+ s) :
    ascii85decode sc s out cnt
      = some { rc := 1, streamIn := s, streamOut := out, actualOutCount := cnt } := by
  obtain ⟨body, a, b, rfl⟩ := exists_eod_split s hlen
  have hab : a ≠ 126 ∨ b ≠ 62 := by
    by_contra hc
    push_neg at hc
    apply h
    rw [hc.1, hc.2]
    exact List.suffix_append body [126, 62]
  have hl : ¬ (body ++ [a, b]).length < 2 := by simp
  unfold ascii85decode
  simp only [hl, if_false, getD_eod_fst, getD_eod_snd]
  simp [hab]

theorem ascii85decode_missing_eod_witness :
    ascii85decode true [54, 77, 60, 71, 35, 62, 126] [7, 7, 7, 7] 9
      = some { rc := 1, streamIn := [54, 77, 60, 71, 35, 62, 126], streamOut := [7, 7, 7, 7],
               actualOutCount := 9 } :=
  ascii85decode_missing_eod true [54, 77, 60, 71, 35, 62, 126] [7, 7, 7, 7] 9
    (by decide) (by decide)

/-- C6: decoding the 7-byte stream `6M<G#~>` succeeds, stores exactly the four
bytes 0x42, 0xf6, 0x39, 0xe4 and sets the output count to 4. -/
theorem ascii85decode_worked_example (sc : Bool) (out : List Nat) (cnt : Nat) :
    ascii85decode sc [54, 77, 60, 71, 35, 126, 62] out cnt
      = some { rc := 0, streamIn := [54, 77, 60, 71, 35, 126, 62],
               streamOut := [66, 246, 57, 228] ++ out.drop 4, actualOutCount := 4 }
    ∧ sum85 sc 54 77 60 71 35 = 1123432932 := by
  cases sc <;> exact ⟨rfl, rfl⟩

/-- C7: decoding `z~>` stores exactly 4 zero bytes with output count 4, and for
every `k` decoding `k` characters `z` followed by `~>` stores exactly `4 * k`
zero bytes with output count `4 * k`. -/
theorem ascii85decode_z_shorthand (sc : Bool) (out : List Nat) (cnt : Nat) :
    ascii85decode sc [122, 126, 62] out cnt
      = some { rc := 0, streamIn := [122, 126, 62],
               streamOut := [0, 0, 0, 0] ++ out.drop 4, actualOutCount := 4 }
    ∧ ∀ k : Nat, ascii85decode sc (List.replicate k 122 ++ [126, 62]) out cnt
      = some { rc := 0, streamIn := List.replicate k 122 ++ [126, 62],
               streamOut := List.replicate (4 * k) 0 ++ out.drop (4 * k),
               actualOutCount := 4 * k } := by
  have hk : ∀ k : Nat, ascii85decode sc (List.replicate k 122 ++ [126, 62]) out cnt
      = some { rc := 0, streamIn := List.replicate k 122 ++ [126, 62],
               streamOut := List.replicate (4 * k) 0 ++ out.drop (4 * k),
               actualOutCount := 4 * k } := by
    intro k
    have hws : ∀ c ∈ List.replicate k 122, isWhitespace c = false := by
      intro c hc
      rw [List.eq_of_mem_replicate hc]
      rfl
    rw [ascii85decode_eod_clean sc _ out cnt hws]
    have hl := decodeLoop_z_run sc k [62] ((List.replicate k 122).length : Int) (by simp)
    simp only [List.length_replicate] at hl ⊢
    rw [hl]
    simp [decodeTail, storeOut]
  exact ⟨hk 1, hk⟩

/-- C5: for a payload without white space and without `z`, of length
`5 * m + n` with `n` in 2, 3, 4, followed by `~>`, `ascii85decode` succeeds with
output count `4 * m + (n - 1)`; the bytes stored are the `4 * m` bytes of the
full groups followed by the first `n - 1` of the four bytes obtained by
decoding the `n` characters left over padded on the right with `u` to five
characters. -/
theorem ascii85decode_short_group (sc : Bool) (payload out : List Nat) (cnt m n : Nat)
    (hws : ∀ c ∈ payload, isWhitespace c = false) (hz : ∀ c ∈ payload, c ≠ 122)
    (hlen : payload.length = 5 * m + n) (hn : n = 2 ∨ n = 3 ∨ n = 4) :
    ascii85decode sc (payload ++ [126, 62]) out cnt
      = some { rc := 0, streamIn := payload ++ [126, 62],
               streamOut := (decodeFullGroups sc payload
                   ++ (decodeGroupList sc
                        (payload.drop (5 * m) ++ List.replicate (5 - n) 117)).take (n - 1))
                 ++ out.drop (4 * m + (n - 1)),
               actualOutCount := 4 * m + (n - 1) }
    ∧ (decodeFullGroups sc payload).length = 4 * m
    ∧ ((decodeGroupList sc
          (payload.drop (5 * m) ++ List.replicate (5 - n) 117)).take (n - 1)).length
        = n - 1 := by
  have hn5 : n < 5 := by omega
  have hdl : (payload.drop (5 * m)).length = n := by simp [hlen]
  have hfl := decodeFullGroups_length sc n hn5 m payload hlen
  have htl : ((decodeGroupList sc
      (payload.drop (5 * m) ++ List.replicate (5 - n) 117)).take (n - 1)).length = n - 1 := by
    rcases hn with rfl | rfl | rfl
    · rcases hp : payload.drop (5 * m) with _ | ⟨a, _ | ⟨b, _ | ⟨c, t⟩⟩⟩ <;>
        rw [hp] at hdl <;> simp at hdl
      simp [decodeGroupList, List.replicate, decodeGroup_length]
    · rcases hp : payload.drop (5 * m) with _ | ⟨a, _ | ⟨b, _ | ⟨c, _ | ⟨d, t⟩⟩⟩⟩ <;>
        rw [hp] at hdl <;> simp at hdl
      simp [decodeGroupList, List.replicate, decodeGroup_length]
    · rcases hp : payload.drop (5 * m) with _ | ⟨a, _ | ⟨b, _ | ⟨c, _ | ⟨d, _ | ⟨e, t⟩⟩⟩⟩⟩ <;>
        rw [hp] at hdl <;> simp at hdl
      simp [decodeGroupList, List.replicate, decodeGroup_length]
  refine ⟨?_, hfl, htl⟩
  rw [ascii85decode_eod_clean sc payload out cnt hws]
  have hloop := decodeLoop_clean sc n hn5 [62] m payload hz hlen
  simp only [List.append_assoc] at hloop
  rw [hloop]
  simp only
  rw [decodeTail_short sc (payload.drop (5 * m)) [62] n hn hdl]
  simp only [storeOut, List.length_append, hfl, htl, zero_add]

theorem ascii85decode_short_group_witness :
    ascii85decode true ([54, 77, 60, 71, 35, 54, 77] ++ [126, 62]) [] 0
      = some { rc := 0, streamIn := [54, 77, 60, 71, 35, 54, 77] ++ [126, 62],
               streamOut := (decodeFullGroups true [54, 77, 60, 71, 35, 54, 77]
                   ++ (decodeGroupList true
                        (List.drop (5 * 1) [54, 77, 60, 71, 35, 54, 77]
                          ++ List.replicate (5 - 2) 117)).take (2 - 1))
                 ++ List.drop (4 * 1 + (2 - 1)) [],
               actualOutCount := 4 * 1 + (2 - 1) }
    ∧ (decodeFullGroups true [54, 77, 60, 71, 35, 54, 77]).length = 4 * 1
    ∧ ((decodeGroupList true
          (List.drop (5 * 1) [54, 77, 60, 71, 35, 54, 77]
            ++ List.replicate (5 - 2) 117)).take (2 - 1)).length = 2 - 1 :=
  ascii85decode_short_group true [54, 77, 60, 71, 35, 54, 77] [] 0 1 2
    (by decide) (by decide) (by decide) (by decide)

/-- C1: for every byte sequence `B`, decoding the reference encoding of `B`
succeeds, stores exactly the bytes of `B` at the start of the output buffer and
sets the output count to the length of `B`. -/
theorem ascii85decode_roundtrip (sc : Bool) (B out : List Nat) (cnt : Nat)
    (hB : ∀ b ∈ B, b < 256) :
    ascii85decode sc (refEncode B) out cnt
      = some { rc := 0, streamIn := refEncode B, streamOut := B ++ out.drop B.length,
               actualOutCount := B.length } := by
  have hws : ∀ c ∈ refEncodeBody B, isWhitespace c = false :=
    fun c hc => isWhitespace_of_ge c (refEncodeBody_ge B c hc)
  unfold refEncode
  rw [ascii85decode_eod_clean_all sc (refEncodeBody B) out cnt hws,
    decodeAll_refEncodeBody sc [62] B hB]
  simp [storeOut]

theorem ascii85decode_roundtrip_witness :
    ascii85decode true (refEncode [1, 2, 3, 4, 0, 0, 0, 0, 255, 254, 7]) [9, 9] 5
      = some { rc := 0, streamIn := refEncode [1, 2, 3, 4, 0, 0, 0, 0, 255, 254, 7],
               streamOut := [1, 2, 3, 4, 0, 0, 0, 0, 255, 254, 7]
                 ++ List.drop (List.length [1, 2, 3, 4, 0, 0, 0, 0, 255, 254, 7]) [9, 9],
               actualOutCount := List.length [1, 2, 3, 4, 0, 0, 0, 0, 255, 254, 7] } :=
  ascii85decode_roundtrip true [1, 2, 3, 4, 0, 0, 0, 0, 255, 254, 7] [9, 9] 5 (by decide)

/-- C2 (failing input): the stream `zz~>` decodes to 8 zero bytes, but with one
space inserted, `z z~>`, the decoder stores 12 zero bytes: after the compaction
the loop test `*p=='z'` reads the stale `z` left behind the compacted payload. -/
theorem ascii85decode_whitespace_stale_z :
    (∀ sc : Bool, ascii85decode sc [122, 122, 126, 62] [] 0
      = some { rc := 0, streamIn := [122, 122, 126, 62],
               streamOut := [0, 0, 0, 0, 0, 0, 0, 0], actualOutCount := 8 })
    ∧ (∀ sc : Bool, ascii85decode sc [122, 32, 122, 126, 62] [] 0
      = some { rc := 0, streamIn := [122, 122, 122, 126, 62],
               streamOut := [0, 0, 0, 0, 0, 0, 0, 0, 0, 0, 0, 0], actualOutCount := 12 }) := by
  constructor <;> intro sc <;> cases sc <;> rfl

/-- C4 (failing input): on the file content `\nstreamz z~>endstream` the scan
of `main` copies the 5 bytes `z z~>` with `zCount = 2`, the output buffer
has 5 + 3 * 2 = 11 bytes, and `ascii85decode` stores 12 bytes. -/
theorem mainDecode_overflow_stale_z :
    mainScan [10, 115, 116, 114, 101, 97, 109, 122, 32, 122, 126, 62,
        101, 110, 100, 115, 116, 114, 101, 97, 109]
      = ScanResult.slice 7 11 [122, 32, 122, 126, 62] 2
    ∧ (List.replicate ([122, 32, 122, 126, 62].length + 3 * 2) 0).length = 11
    ∧ (∀ sc : Bool, mainDecode sc [122, 32, 122, 126, 62] 2
      = some { rc := 0, streamIn := [122, 122, 122, 126, 62],
               streamOut := List.replicate 12 0, actualOutCount := 12 }) := by
  refine ⟨by decide, by decide, ?_⟩
  intro sc
  cases sc <;> rfl

/-! ## Lemmas on strstr -/

theorem strstr_here (needle : List Nat) (c : Nat) (t : List Nat)
    (h : needle <+: c :: t) : strstr (c :: t) needle = some 0 := by
  rw [strstr.eq_def]
  simp [h]

/-- The search steps over a part of the buffer that holds no NUL and in which
no occurrence of the needle starts. -/
theorem strstr_skip (needle : List Nat) (S : List Nat) :
    ∀ P : List Nat, (∀ c ∈ P, c ≠ 0) →
      (∀ t, t <:+ P → t ≠ [] → ¬ needle <+: t ++ S) →
      strstr (P ++ S) needle = (strstr S needle).map (fun i => i + P.length)
  | [], _, _ => by simp
  | c :: P, h0, hno => by
    have hc : c ≠ 0 := h0 c (by simp)
    have hp : ¬ needle <+: c :: (P ++ S) := by
      simpa using hno (c :: P) (List.suffix_refl _) (by simp)
    have ih := strstr_skip needle S P (fun x hx => h0 x (by simp [hx]))
      (fun t ht hne => hno t (List.suffix_cons_iff.2 (Or.inr ht)) hne)
    rw [List.cons_append, strstr.eq_def]
    simp only [List.isPrefixOf_iff_prefix, hp, if_false, hc]
    rw [ih]
    cases strstr S needle with
    | none => rfl
    | some i => simp; ring

/-- A successful search returns the offset of an occurrence. -/
theorem strstr_some (needle : List Nat) :
    ∀ (hay : List Nat) (i : Nat), strstr hay needle = some i → needle <+: hay.drop i
  | [], i, h => by simp [strstr] at h
  | c :: t, i, h => by
    rw [strstr.eq_def] at h
    simp only [List.isPrefixOf_iff_prefix] at h
    by_cases hp : needle <+: c :: t
    · simp only [hp, if_true, Option.some.injEq] at h
      subst h
      simpa using hp
    · simp only [hp, if_false] at h
      by_cases hc : c = 0
      · simp [hc] at h
      · simp only [hc, if_false] at h
        cases hr : strstr t needle with
        | none => simp [hr] at h
        | some k =>
          simp only [hr, Option.some.injEq] at h
          subst h
          simpa using strstr_some needle t k hr

theorem strstr_none (needle hay : List Nat) (h : ¬ needle <:+: hay) :
    strstr hay needle = none := by
  cases hr : strstr hay needle with
  | none => rfl
  | some i =>
    exfalso
    apply h
    exact List.infix_iff_prefix_suffix.2 ⟨hay.drop i, strstr_some needle hay i hr,
      List.drop_suffix i hay⟩

/-- No occurrence of the needle starts in `P` when `P` holds none and none can
straddle the end of `P` and a copy of the needle. -/
theorem no_start_in (needle P T : List Nat)
    (hns : ∀ Q : List Nat, Q ≠ [] → Q.length < needle.length → ¬ needle <+: Q ++ (needle ++ T))
    (hP : ¬ needle <:+: P) :
    ∀ t, t <:+ P → t ≠ [] → ¬ needle <+: t ++ (needle ++ T) := by
  intro t ht hne hpre
  by_cases hl : t.length < needle.length
  · exact hns t hne hl hpre
  · apply hP
    have h1 : needle <+: t :=
      List.prefix_of_prefix_length_le hpre (List.prefix_append t _) (by omega)
    exact List.infix_iff_prefix_suffix.2 ⟨t, h1, ht⟩

theorem kwStream_no_straddle (T Q : List Nat) (hne : Q ≠ [])
    (hl : Q.length < kwStream.length) : ¬ kwStream <+: Q ++ (kwStream ++ T) := by
  rcases Q with _ | ⟨a, _ | ⟨b, _ | ⟨c, _ | ⟨d, _ | ⟨e, _ | ⟨f, _ | ⟨g, t⟩⟩⟩⟩⟩⟩⟩ <;>
    simp [kwStream] at hl hne ⊢
  omega

theorem kwEndstream_no_straddle (T Q : List Nat) (hne : Q ≠ [])
    (hl : Q.length < kwEndstream.length) : ¬ kwEndstream <+: Q ++ (kwEndstream ++ T) := by
  rcases Q with _ | ⟨a, _ | ⟨b, _ | ⟨c, _ | ⟨d, _ | ⟨e, _ | ⟨f, _ | ⟨g, _ | ⟨h, _ | ⟨i, t⟩⟩⟩⟩⟩⟩⟩⟩⟩ <;>
    simp [kwEndstream] at hl hne ⊢
  omega

/-- An occurrence of a needle without the byte `z` inside `X` followed by `z`
lies inside `X`. -/
theorem infix_of_infix_concat (needle X : List Nat) (z : Nat) (hz : z ∉ needle)
    (hne : needle ≠ []) (h : needle <:+: X ++ [z]) : needle <:+: X := by
  obtain ⟨s, t, hst⟩ := h
  rcases List.eq_nil_or_concat t with rfl | ⟨t1, b, rfl⟩
  · exfalso
    rcases List.eq_nil_or_concat needle with hn | ⟨n1, l, rfl⟩
    · exact hne hn
    · have h1 : (s ++ n1) ++ [l] = X ++ [z] := by simpa using hst
      have h2 := List.append_inj_right' h1 rfl
      simp at h2
      apply hz
      simp [h2]
  · have h1 : (s ++ needle ++ t1) ++ [b] = X ++ [z] := by simpa using hst
    have h2 := List.append_inj_left' h1 rfl
    exact ⟨s, t1, h2⟩

theorem kwEndstream_not_in_stream (R : List Nat) (hR : ¬ kwEndstream <:+: R) :
    ¬ kwEndstream <:+: 115 :: 116 :: 114 :: 101 :: 97 :: 109 :: R := by
  intro h
  obtain ⟨t, hp, hs⟩ := List.infix_iff_prefix_suffix.1 h
  simp only [List.suffix_cons_iff] at hs
  rcases hs with rfl | rfl | rfl | rfl | rfl | rfl | hs
  · simp [kwEndstream] at hp
  · simp [kwEndstream] at hp
  · simp [kwEndstream] at hp
  · simp [kwEndstream] at hp
  · simp [kwEndstream] at hp
  · simp [kwEndstream] at hp
  · exact hR (List.infix_iff_prefix_suffix.2 ⟨t, hp, hs⟩)

/-- The first search of `main` on a file whose first `\nstream` follows a
part `P` without NUL: it returns the offset of that occurrence. -/
theorem strstr_kwStream (P R : List Nat) (hP0 : ∀ c ∈ P, c ≠ 0)
    (hP : ¬ kwStream <:+: P) :
    strstr (P ++ (kwStream ++ R)) kwStream = some P.length := by
  rw [strstr_skip kwStream (kwStream ++ R) P hP0
    (no_start_in kwStream P R (kwStream_no_straddle R) hP)]
  have : strstr (kwStream ++ R) kwStream = some 0 :=
    strstr_here kwStream 10 _ (by simp [kwStream])
  rw [this]
  simp

/-- The second search of `main`, from the `s` of `stream`, when the first
`endstream` follows a part `X` without NUL. -/
theorem strstr_kwEndstream (X T : List Nat) (hX0 : ∀ c ∈ X, c ≠ 0)
    (hX : ¬ kwEndstream <:+: X) :
    strstr (115 :: 116 :: 114 :: 101 :: 97 :: 109 :: (X ++ (kwEndstream ++ T))) kwEndstream
      = some (X.length + 6) := by
  have h0 : ∀ c ∈ 115 :: 116 :: 114 :: 101 :: 97 :: 109 :: X, c ≠ 0 := by
    intro c hc
    simp only [List.mem_cons] at hc
    rcases hc with rfl | rfl | rfl | rfl | rfl | rfl | hc
    · decide
    · decide
    · decide
    · decide
    · decide
    · decide
    · exact hX0 c hc
  have hs := strstr_skip kwEndstream (kwEndstream ++ T)
    (115 :: 116 :: 114 :: 101 :: 97 :: 109 :: X) h0
    (no_start_in kwEndstream _ T (kwEndstream_no_straddle T) (kwEndstream_not_in_stream X hX))
  simp only [List.cons_append] at hs
  rw [hs]
  have : strstr (kwEndstream ++ T) kwEndstream = some 0 :=
    strstr_here kwEndstream 101 _ (by simp [kwEndstream])
  rw [this]
  simp

/-! ## Lemmas on the loops of the scan -/

theorem getD_append_cons (A : List Nat) (x : Nat) (R : List Nat) :
    (A ++ x :: R).getD A.length 0 = x := by
  rw [List.getD_append_right _ _ _ _ (le_refl _)]
  simp

/-- The skip loop runs over a run `W` of white space that ends at or before
`endp`. -/
theorem skipLoop_run (endp : Nat) (R : List Nat) :
    ∀ (W A : List Nat) (k : Nat), (∀ c ∈ W, isWhitespace c = true) →
      A.length + W.length ≤ endp + 1 →
      skipLoop (A ++ (W ++ R)) endp (W.length + k) A.length
        = skipLoop (A ++ (W ++ R)) endp k (A.length + W.length)
  | [], A, k, _, _ => by simp
  | w :: W, A, k, hw, hl => by
    have hw0 : isWhitespace w = true := hw w (by simp)
    have hA : A.length ≤ endp := by simp at hl; omega
    have hf : (w :: W).length + k = (W.length + k) + 1 := by simp; ring
    rw [hf, skipLoop]
    simp only [List.cons_append, getD_append_cons, hw0, hA, and_self, if_true]
    have ih := skipLoop_run endp R W (A ++ [w]) k (fun c hc => hw c (by simp [hc]))
      (by simp at hl ⊢; omega)
    simp only [List.append_assoc, List.singleton_append, List.length_append,
      List.length_singleton] at ih
    rw [ih]
    simp only [List.length_cons]
    congr 1
    ring

theorem skipLoop_stop (buf : List Nat) (endp k startp : Nat)
    (h : isWhitespace (buf.getD startp 0) = false) :
    skipLoop buf endp k startp = startp := by
  cases k with
  | zero => rfl
  | succ k =>
    rw [skipLoop]
    simp only [h, Bool.false_eq_true, and_false, if_false]

/-- At the exit of the skip loop, when it had iterations enough to reach
`endp`, either `startp` is past `endp` or it points at a byte that is not white
space. -/
theorem skipLoop_exit (buf : List Nat) (endp : Nat) :
    ∀ (k startp : Nat), endp + 1 ≤ startp + k →
      skipLoop buf endp k startp ≤ endp →
      isWhitespace (buf.getD (skipLoop buf endp k startp) 0) = false
  | 0, startp, hk, h => by
    simp only [skipLoop] at h
    omega
  | k + 1, startp, hk, h => by
    rw [skipLoop] at h ⊢
    by_cases hc : startp ≤ endp ∧ isWhitespace (buf.getD startp 0) = true
    · simp only [hc, and_self, if_true] at h ⊢
      exact skipLoop_exit buf endp k (startp + 1) (by omega) h
    · simp only [hc, if_false] at h ⊢
      cases hws : isWhitespace (buf.getD startp 0) with
      | false => rfl
      | true => exact absurd ⟨h, hws⟩ hc

/-- The copy loop over the bytes `D` that end at `endp`: it copies `D` and
counts its `z` modulo `2^32`. -/
theorem copyLoop_copy (endp : Nat) (R : List Nat) :
    ∀ (D A : List Nat), A.length + D.length = endp + 1 →
      copyLoop (A ++ (D ++ R)) endp D.length A.length = (D, D.count 122 % 4294967296)
  | [], A, _ => by simp [copyLoop]
  | x :: D, A, hl => by
    have hA : A.length ≤ endp := by simp at hl; omega
    have ih := copyLoop_copy endp R D (A ++ [x]) (by simp at hl ⊢; omega)
    simp only [List.append_assoc, List.singleton_append, List.length_append,
      List.length_singleton] at ih
    rw [List.length_cons, copyLoop]
    simp only [List.cons_append, getD_append_cons, hA, if_true, ih]
    by_cases hx : x = 122
    · subst hx
      simp only [if_true, List.count_cons_self]
      congr 1
      omega
    · simp [hx, List.count_cons]

/-- The copy loop stores one byte per iteration: with `k` iterations that end
at `endp` it stores `k` bytes, the first of them the byte at `startp`. -/
theorem copyLoop_length (buf : List Nat) (endp : Nat) :
    ∀ (k startp : Nat), startp + k = endp + 1 →
      (copyLoop buf endp k startp).1.length = k
        ∧ (0 < k → (copyLoop buf endp k startp).1.head? = some (buf.getD startp 0))
  | 0, _, _ => by simp [copyLoop]
  | k + 1, startp, h => by
    have hs : startp ≤ endp := by omega
    have ih := copyLoop_length buf endp k (startp + 1) (by omega)
    rw [copyLoop]
    simp [hs, ih.1]

/-- Unfolding of the scan once both searches have succeeded. -/
theorem mainScan_found (doc : List Nat) (i j : Nat)
    (h1 : strstr (doc ++ [0]) kwStream = some i)
    (h2 : strstr ((doc ++ [0]).drop (i + 1)) kwEndstream = some j) :
    mainScan doc =
      if skipLoop (doc ++ [0]) (i + 1 + j - 1) (i + 1 + j - 1 + 1 - (i + 1 + 6)) (i + 1 + 6)
          > i + 1 + j - 1 then ScanResult.exit 10
      else
        ScanResult.slice
          (skipLoop (doc ++ [0]) (i + 1 + j - 1) (i + 1 + j - 1 + 1 - (i + 1 + 6)) (i + 1 + 6))
          (i + 1 + j - 1)
          (copyLoop (doc ++ [0]) (i + 1 + j - 1)
            (i + 1 + j - 1
              - skipLoop (doc ++ [0]) (i + 1 + j - 1) (i + 1 + j - 1 + 1 - (i + 1 + 6))
                  (i + 1 + 6) + 1)
            (skipLoop (doc ++ [0]) (i + 1 + j - 1) (i + 1 + j - 1 + 1 - (i + 1 + 6))
              (i + 1 + 6))).1
          (copyLoop (doc ++ [0]) (i + 1 + j - 1)
            (i + 1 + j - 1
              - skipLoop (doc ++ [0]) (i + 1 + j - 1) (i + 1 + j - 1 + 1 - (i + 1 + 6))
                  (i + 1 + 6) + 1)
            (skipLoop (doc ++ [0]) (i + 1 + j - 1) (i + 1 + j - 1 + 1 - (i + 1 + 6))
              (i + 1 + 6))).2 := by
  unfold mainScan
  simp only [h1, h2]

/-- The two searches of `main` on a file in which the first `\nstream`
follows a part `P` without NUL and the first `endstream` after it follows a
part `X` without NUL. -/
theorem searches_found (P X S : List Nat) (hP0 : ∀ c ∈ P, c ≠ 0)
    (hP : ¬ kwStream <:+: P) (hX0 : ∀ c ∈ X, c ≠ 0) (hX : ¬ kwEndstream <:+: X) :
    strstr ((P ++ kwStream ++ X ++ kwEndstream ++ S) ++ [0]) kwStream = some P.length
    ∧ strstr (((P ++ kwStream ++ X ++ kwEndstream ++ S) ++ [0]).drop (P.length + 1))
        kwEndstream = some (X.length + 6) := by
  have e : (P ++ kwStream ++ X ++ kwEndstream ++ S) ++ [0]
      = P ++ (kwStream ++ (X ++ (kwEndstream ++ (S ++ [0])))) := by
    simp only [List.append_assoc]
  rw [e]
  refine ⟨strstr_kwStream P _ hP0 hP, ?_⟩
  have hd : (P ++ (kwStream ++ (X ++ (kwEndstream ++ (S ++ [0]))))).drop (P.length + 1)
      = 115 :: 116 :: 114 :: 101 :: 97 :: 109 :: (X ++ (kwEndstream ++ (S ++ [0]))) := by
    rw [List.drop_append]
    rfl
  rw [hd]
  exact strstr_kwEndstream X (S ++ [0]) hX0 hX

theorem five_whitespace (W : List Nat)
    (hW : ∀ c ∈ W, c = 9 ∨ c = 10 ∨ c = 12 ∨ c = 13 ∨ c = 32) :
    (∀ c ∈ W, isWhitespace c = true) ∧ (∀ c ∈ W, c ≠ 0) := by
  constructor
  · intro c hc
    rcases hW c hc with rfl | rfl | rfl | rfl | rfl <;> rfl
  · intro c hc
    rcases hW c hc with rfl | rfl | rfl | rfl | rfl <;> decide

/-! ## Claims on the stream scan -/

/-- The scan on a file `P ++ "\nstream" ++ W ++ D ++ "endstream" ++ S` whose
parts hold no NUL, `P` without `\nstream`, `W` white space, `D = d :: D1` with
`d` not white space and `W ++ D` without `endstream`: the slice is `D`, and
`zCount` is the number of `z` in `D` modulo `2^32`. -/
theorem mainScan_parts (P W D1 S : List Nat) (d : Nat)
    (hP0 : ∀ c ∈ P, c ≠ 0) (hP : ¬ kwStream <:+: P)
    (hW : ∀ c ∈ W, c = 9 ∨ c = 10 ∨ c = 12 ∨ c = 13 ∨ c = 32)
    (hd : isWhitespace d = false) (hD0 : ∀ c ∈ D1, c ≠ 0)
    (hWD : ¬ kwEndstream <:+: W ++ d :: D1) :
    mainScan (P ++ kwStream ++ (W ++ d :: D1) ++ kwEndstream ++ S)
      = ScanResult.slice (P.length + 7 + W.length) (P.length + 7 + W.length + D1.length)
          (d :: D1) ((d :: D1).count 122 % 4294967296) := by
  obtain ⟨hWws, hW0⟩ := five_whitespace W hW
  have hd0 : d ≠ 0 := by
    intro h
    rw [h] at hd
    exact absurd hd (by decide)
  have hX0 : ∀ c ∈ W ++ d :: D1, c ≠ 0 := by
    intro c hc
    simp only [List.mem_append, List.mem_cons] at hc
    rcases hc with hc | rfl | hc
    · exact hW0 c hc
    · exact hd0
    · exact hD0 c hc
  obtain ⟨h1, h2⟩ := searches_found P (W ++ d :: D1) S hP0 hP hX0 hWD
  rw [mainScan_found _ _ _ h1 h2]
  have hbuf : (P ++ kwStream ++ (W ++ d :: D1) ++ kwEndstream ++ S) ++ [0]
      = (P ++ kwStream) ++ (W ++ (d :: D1 ++ (kwEndstream ++ (S ++ [0])))) := by
    simp only [List.append_assoc, List.cons_append]
  have hA : (P ++ kwStream).length = P.length + 1 + 6 := by simp [kwStream]
  have hendp : P.length + 1 + ((W ++ d :: D1).length + 6) - 1
      = P.length + 7 + W.length + D1.length := by
    simp only [List.length_append, List.length_cons]
    omega
  have hfuel : P.length + 7 + W.length + D1.length + 1 - (P.length + 1 + 6)
      = W.length + (D1.length + 1) := by omega
  rw [hbuf, hendp, hfuel, ← hA]
  rw [skipLoop_run _ _ W (P ++ kwStream) _ hWws (by rw [hA]; omega)]
  have hbuf2 : (P ++ kwStream) ++ (W ++ (d :: D1 ++ (kwEndstream ++ (S ++ [0]))))
      = (P ++ kwStream ++ W) ++ (d :: D1 ++ (kwEndstream ++ (S ++ [0]))) := by
    simp only [List.append_assoc]
  have hAW : (P ++ kwStream).length + W.length = (P ++ kwStream ++ W).length := by
    simp only [List.length_append]
  rw [hbuf2, hAW]
  rw [skipLoop_stop _ _ _ _ (by rw [List.cons_append, getD_append_cons]; exact hd)]
  have hgt : ¬ ((P ++ kwStream ++ W).length > (P ++ kwStream ++ W).length + D1.length) := by
    omega
  have hn : (P ++ kwStream ++ W).length + D1.length - (P ++ kwStream ++ W).length + 1
      = (d :: D1).length := by
    simp only [List.length_cons]
    omega
  rw [if_neg hgt, hn, copyLoop_copy _ _ (d :: D1) (P ++ kwStream ++ W)
    (by simp only [List.length_cons]; omega)]

/-- C8 (amended): on a file `P ++ "\nstream" ++ W ++ D ++ "endstream" ++ S`
where `P` holds no NUL and no `\nstream`, `W` is a run of bytes among TAB, LF,
FF, CR, SPACE, `D = d :: D1` starts with a byte that is not white space and
holds no NUL, and `W ++ D` holds no `endstream`, the scan succeeds and copies
exactly `D`: from the first byte after the white space to the byte before the
end keyword. -/
theorem mainScan_slice (P W D1 S : List Nat) (d : Nat)
    (hP0 : ∀ c ∈ P, c ≠ 0) (hP : ¬ kwStream <:+: P)
    (hW : ∀ c ∈ W, c = 9 ∨ c = 10 ∨ c = 12 ∨ c = 13 ∨ c = 32)
    (hd : isWhitespace d = false) (hD0 : ∀ c ∈ D1, c ≠ 0)
    (hWD : ¬ kwEndstream <:+: W ++ d :: D1) :
    mainScan (P ++ kwStream ++ (W ++ d :: D1) ++ kwEndstream ++ S)
      = ScanResult.slice (P.length + 7 + W.length) (P.length + 7 + W.length + D1.length)
          (d :: D1) ((d :: D1).count 122 % 4294967296) :=
  mainScan_parts P W D1 S d hP0 hP hW hd hD0 hWD

theorem mainScan_slice_witness :
    mainScan ([37, 80, 68, 70] ++ kwStream ++ ([13, 10] ++ 54 :: [77, 126, 62])
        ++ kwEndstream ++ [10])
      = ScanResult.slice (List.length [37, 80, 68, 70] + 7 + List.length [13, 10])
          (List.length [37, 80, 68, 70] + 7 + List.length [13, 10]
            + List.length [77, 126, 62])
          (54 :: [77, 126, 62]) (List.count 122 (54 :: [77, 126, 62]) % 4294967296) :=
  mainScan_slice [37, 80, 68, 70] [13, 10] [77, 126, 62] [10] 54
    (by decide) (by decide) (by decide) (by decide) (by decide) (by decide)

/-- C8 (counterexample): the file `\nstream`, NUL, `A`, `endstream` has the
form of the claim (`P` empty, `W` the white-space byte NUL, `D = "A"`), yet the
scan stops with status 9: the search for `endstream` ends at the NUL. The same
happens with a NUL inside `D` (`D = "A", NUL, "B"`), and with a NUL in `P` the
scan stops with status 8. -/
theorem mainScan_slice_nul_counterexample :
    (¬ kwStream <:+: ([] : List Nat)
      ∧ isWhitespace 0 = true
      ∧ isWhitespace 65 = false
      ∧ ¬ kwEndstream <:+: [0] ++ [65]
      ∧ mainScan ([] ++ kwStream ++ ([0] ++ [65]) ++ kwEndstream ++ [])
          = ScanResult.exit 9)
    ∧ (¬ kwEndstream <:+: [] ++ [65, 0, 66]
      ∧ mainScan ([] ++ kwStream ++ ([] ++ [65, 0, 66]) ++ kwEndstream ++ [])
          = ScanResult.exit 9)
    ∧ (¬ kwStream <:+: [0]
      ∧ ¬ kwEndstream <:+: [] ++ [65]
      ∧ mainScan ([0] ++ kwStream ++ ([] ++ [65]) ++ kwEndstream ++ [])
          = ScanResult.exit 8) := by
  refine ⟨⟨by decide, by decide, by decide, by decide, by decide⟩,
    ⟨by decide, by decide⟩, ⟨by decide, by decide, by decide⟩⟩

/-- C9 (amended): a file without any `\nstream` makes the scan stop with
status 8; a file whose first `\nstream` is not preceded by a NUL byte and is
followed by no `endstream` makes it stop with status 9. In both cases no slice
is produced. -/
theorem mainScan_marker_errors :
    (∀ doc : List Nat, ¬ kwStream <:+: doc → mainScan doc = ScanResult.exit 8)
    ∧ (∀ P R : List Nat, (∀ c ∈ P, c ≠ 0) → ¬ kwStream <:+: P → ¬ kwEndstream <:+: R →
        mainScan (P ++ kwStream ++ R) = ScanResult.exit 9) := by
  constructor
  · intro doc h
    have h0 : ¬ kwStream <:+: doc ++ [0] :=
      fun hc => h (infix_of_infix_concat kwStream doc 0 (by decide) (by decide) hc)
    unfold mainScan
    simp only [strstr_none kwStream _ h0]
  · intro P R hP0 hP hR
    have e : (P ++ kwStream ++ R) ++ [0] = P ++ (kwStream ++ (R ++ [0])) := by
      simp only [List.append_assoc]
    have h1 : strstr ((P ++ kwStream ++ R) ++ [0]) kwStream = some P.length := by
      rw [e]
      exact strstr_kwStream P _ hP0 hP
    have hd : ((P ++ kwStream ++ R) ++ [0]).drop (P.length + 1)
        = 115 :: 116 :: 114 :: 101 :: 97 :: 109 :: (R ++ [0]) := by
      rw [e, List.drop_append]
      rfl
    have hR0 : ¬ kwEndstream <:+: R ++ [0] :=
      fun hc => hR (infix_of_infix_concat kwEndstream R 0 (by decide) (by decide) hc)
    have h2 : strstr (((P ++ kwStream ++ R) ++ [0]).drop (P.length + 1)) kwEndstream
        = none := by
      rw [hd]
      exact strstr_none kwEndstream _ (kwEndstream_not_in_stream _ hR0)
    unfold mainScan
    simp only [h1, h2]

theorem mainScan_marker_errors_witness :
    mainScan [37, 80, 68, 70, 10, 115, 116, 114, 101] = ScanResult.exit 8
    ∧ mainScan ([37, 80, 68, 70] ++ kwStream ++ [10, 54, 77, 126, 62, 10])
        = ScanResult.exit 9 :=
  ⟨mainScan_marker_errors.1 [37, 80, 68, 70, 10, 115, 116, 114, 101] (by decide),
    mainScan_marker_errors.2 [37, 80, 68, 70] [10, 54, 77, 126, 62, 10]
      (by decide) (by decide) (by decide)⟩

/-- C9 (counterexample): the file NUL, `\nstream` holds an occurrence of
`\nstream` and no `endstream`, yet the scan stops with status 8, not 9: the
first search ends at the NUL. -/
theorem mainScan_marker_nul_counterexample :
    kwStream <:+: [0] ++ kwStream
    ∧ ¬ kwEndstream <:+: [0] ++ kwStream
    ∧ mainScan ([0] ++ kwStream) = ScanResult.exit 8 := by
  refine ⟨by decide, by decide, by decide⟩

/-- C10 (amended): on a file `P ++ "\nstream" ++ W ++ "endstream" ++ S`
where `P` holds no NUL and no `\nstream` and `W` is a (possibly empty) run of
bytes among TAB, LF, FF, CR, SPACE, the scan stops with status 10; and whenever
the scan succeeds, `startp <= endp`, the slice has `endp - startp + 1 >= 1`
bytes and its first byte is not a white-space byte. -/
theorem mainScan_empty_stream :
    (∀ P W S : List Nat, (∀ c ∈ P, c ≠ 0) → ¬ kwStream <:+: P →
        (∀ c ∈ W, c = 9 ∨ c = 10 ∨ c = 12 ∨ c = 13 ∨ c = 32) →
        mainScan (P ++ kwStream ++ W ++ kwEndstream ++ S) = ScanResult.exit 10)
    ∧ (∀ (doc : List Nat) (startp endp : Nat) (buf : List Nat) (z : Nat),
        mainScan doc = ScanResult.slice startp endp buf z →
        startp ≤ endp ∧ buf.length = endp - startp + 1 ∧ 1 ≤ buf.length
          ∧ ∃ c, buf.head? = some c ∧ isWhitespace c = false) := by
  constructor
  · intro P W S hP0 hP hW
    obtain ⟨hWws, hW0⟩ := five_whitespace W hW
    have hX : ¬ kwEndstream <:+: W := by
      intro hc
      have hm : (101 : Nat) ∈ W := hc.subset (by simp [kwEndstream])
      rcases hW 101 hm with h | h | h | h | h <;> exact absurd h (by decide)
    obtain ⟨h1, h2⟩ := searches_found P W S hP0 hP hW0 hX
    rw [mainScan_found _ _ _ h1 h2]
    have hbuf : (P ++ kwStream ++ W ++ kwEndstream ++ S) ++ [0]
        = (P ++ kwStream) ++ (W ++ (kwEndstream ++ (S ++ [0]))) := by
      simp only [List.append_assoc]
    have hA : (P ++ kwStream).length = P.length + 1 + 6 := by simp [kwStream]
    have hendp : P.length + 1 + (W.length + 6) - 1 = (P ++ kwStream).length + W.length - 1 := by
      omega
    have hfuel : (P ++ kwStream).length + W.length - 1 + 1 - (P ++ kwStream).length
        = W.length + 0 := by omega
    rw [hbuf, hendp, ← hA, hfuel]
    rw [skipLoop_run _ _ W (P ++ kwStream) 0 hWws (by omega)]
    have hgt : (P ++ kwStream).length + W.length > (P ++ kwStream).length + W.length - 1 := by
      omega
    simp only [skipLoop, hgt, if_true]
  · intro doc startp endp buf z h
    unfold mainScan at h
    cases h1 : strstr (doc ++ [0]) kwStream with
    | none => simp [h1] at h
    | some i =>
      cases h2 : strstr ((doc ++ [0]).drop (i + 1)) kwEndstream with
      | none => simp [h1, h2] at h
      | some j =>
        simp only [h1, h2] at h
        have hex := skipLoop_exit (doc ++ [0]) (i + 1 + j - 1)
          (i + 1 + j - 1 + 1 - (i + 1 + 6)) (i + 1 + 6) (by omega)
        generalize skipLoop (doc ++ [0]) (i + 1 + j - 1) (i + 1 + j - 1 + 1 - (i + 1 + 6))
          (i + 1 + 6) = s at h hex
        generalize i + 1 + j - 1 = e at h hex
        by_cases hgt : s > e
        · simp [hgt] at h
        · rw [if_neg hgt] at h
          have hse : s ≤ e := by omega
          have hcl := copyLoop_length (doc ++ [0]) e (e - s + 1) s (by omega)
          injection h with hs he hb hz
          subst hs he hb
          refine ⟨hse, hcl.1, by rw [hcl.1]; omega, _, hcl.2 (by omega), hex hse⟩

theorem mainScan_empty_stream_witness :
    mainScan ([37, 80, 68, 70] ++ kwStream ++ [13, 10, 32] ++ kwEndstream ++ [10])
      = ScanResult.exit 10
    ∧ (7 ≤ 11 ∧ List.length [122, 32, 122, 126, 62] = 11 - 7 + 1
        ∧ 1 ≤ List.length [122, 32, 122, 126, 62]
        ∧ ∃ c, List.head? [122, 32, 122, 126, 62] = some c ∧ isWhitespace c = false) :=
  ⟨mainScan_empty_stream.1 [37, 80, 68, 70] [13, 10, 32] [10]
      (by decide) (by decide) (by decide),
    mainScan_empty_stream.2
      [10, 115, 116, 114, 101, 97, 109, 122, 32, 122, 126, 62,
        101, 110, 100, 115, 116, 114, 101, 97, 109]
      7 11 [122, 32, 122, 126, 62] 2 (by decide)⟩

/-- C10 (counterexample): in the file `\nstream`, NUL, `endstream` the only
byte between the two keywords is the white-space byte NUL, yet the scan stops
with status 9, not 10: the search for `endstream` ends at the NUL. With a NUL
in front of `\nstream`, SPACE, `endstream` the scan stops with status 8. -/
theorem mainScan_empty_nul_counterexample :
    (isWhitespace 0 = true
      ∧ mainScan (kwStream ++ [0] ++ kwEndstream) = ScanResult.exit 9)
    ∧ (isWhitespace 32 = true
      ∧ mainScan ([0] ++ kwStream ++ [32] ++ kwEndstream) = ScanResult.exit 8) := by
  refine ⟨⟨by decide, by decide⟩, ⟨by decide, by decide⟩⟩

/-! ## The copy of the slice -/

/-- The copy loop over `k` bytes that end at `endp`, inside the buffer: it
copies the bytes `startp .. endp` and counts the `z` among them modulo
`2^32`. -/
theorem copyLoop_slice (buf : List Nat) (endp : Nat) (hend : endp < buf.length) :
    ∀ (k startp : Nat), startp + k = endp + 1 →
      copyLoop buf endp k startp
        = ((buf.drop startp).take k, ((buf.drop startp).take k).count 122 % 4294967296)
  | 0, _, _ => by simp [copyLoop]
  | k + 1, startp, h => by
    have hs : startp ≤ endp := by omega
    have hlt : startp < buf.length := by omega
    have ih := copyLoop_slice buf endp hend k (startp + 1) (by omega)
    have hd : buf.drop startp = buf.getD startp 0 :: buf.drop (startp + 1) := by
      rw [List.drop_eq_getElem_cons hlt, List.getD_eq_getElem _ _ hlt]
    rw [copyLoop]
    simp only [hs, if_true, ih, hd, List.take_succ_cons]
    generalize buf.getD startp 0 = x
    by_cases hx : x = 122
    · subst hx
      simp only [if_true, List.count_cons_self]
      congr 1
      omega
    · simp [hx, List.count_cons]

/-- C11 (amended): on every successful scan, `zCount` is the number of bytes
`z` in the copied buffer modulo `2^32` (the counter is an `unsigned int`), so
it is that number whenever the buffer holds fewer than `2^32` bytes `z`; and
the copied buffer is the slice `startp .. endp` of the document, byte for
byte. -/
theorem mainScan_copy (doc : List Nat) (startp endp : Nat) (buf : List Nat) (z : Nat)
    (h : mainScan doc = ScanResult.slice startp endp buf z) :
    z = buf.count 122 % 4294967296
      ∧ (buf.count 122 < 4294967296 → z = buf.count 122)
      ∧ buf = (doc.drop startp).take (endp - startp + 1)
      ∧ startp ≤ endp ∧ endp < doc.length := by
  unfold mainScan at h
  cases h1 : strstr (doc ++ [0]) kwStream with
  | none => simp [h1] at h
  | some i =>
    cases h2 : strstr ((doc ++ [0]).drop (i + 1)) kwEndstream with
    | none => simp [h1, h2] at h
    | some j =>
      simp only [h1, h2] at h
      have hpre := strstr_some kwEndstream _ j h2
      have hlen := hpre.length_le
      simp only [List.length_drop, List.length_append, List.length_singleton] at hlen
      have hk : kwEndstream.length = 9 := rfl
      rw [hk] at hlen
      generalize skipLoop (doc ++ [0]) (i + 1 + j - 1) (i + 1 + j - 1 + 1 - (i + 1 + 6))
        (i + 1 + 6) = s at h
      have hend : i + 1 + j - 1 < doc.length := by omega
      generalize i + 1 + j - 1 = e at h hend
      by_cases hgt : s > e
      · simp [hgt] at h
      · rw [if_neg hgt] at h
        have hse : s ≤ e := by omega
        have hcl := copyLoop_slice (doc ++ [0]) e (by simp; omega) (e - s + 1) s (by omega)
        rw [hcl] at h
        injection h with hs he hb hz
        subst hs he
        have hdoc : ((doc ++ [0]).drop s).take (e - s + 1) = (doc.drop s).take (e - s + 1) := by
          rw [List.drop_append_of_le_length (by omega),
            List.take_append_of_le_length (by simp; omega)]
        rw [hdoc] at hb hz
        have hzc : z = buf.count 122 % 4294967296 := by rw [← hz, ← hb]
        exact ⟨hzc, fun hlt => by rw [hzc, Nat.mod_eq_of_lt hlt], hb.symm, hse, hend⟩

theorem mainScan_copy_witness :
    2 = List.count 122 [122, 32, 122, 126, 62] % 4294967296
      ∧ (List.count 122 [122, 32, 122, 126, 62] < 4294967296
          → 2 = List.count 122 [122, 32, 122, 126, 62])
      ∧ [122, 32, 122, 126, 62]
          = (List.drop 7 [10, 115, 116, 114, 101, 97, 109, 122, 32, 122, 126, 62,
              101, 110, 100, 115, 116, 114, 101, 97, 109]).take (11 - 7 + 1)
      ∧ 7 ≤ 11
      ∧ 11 < List.length [10, 115, 116, 114, 101, 97, 109, 122, 32, 122, 126, 62,
              101, 110, 100, 115, 116, 114, 101, 97, 109] :=
  mainScan_copy
    [10, 115, 116, 114, 101, 97, 109, 122, 32, 122, 126, 62,
      101, 110, 100, 115, 116, 114, 101, 97, 109]
    7 11 [122, 32, 122, 126, 62] 2 (by decide)

/-- The scan on a file `\nstream`, `z`, `D1`, `endstream` in which `D1` holds
no NUL and `z`, `D1` holds no `endstream`: the slice is `z`, `D1`, and `zCount`
is the number of its `z` modulo `2^32`. -/
theorem mainScan_z_slice (D1 : List Nat) (n c : Nat) (hD0 : ∀ x ∈ D1, x ≠ 0)
    (hWD : ¬ kwEndstream <:+: 122 :: D1) (hn : D1.length = n)
    (hc : (122 :: D1).count 122 % 4294967296 = c) :
    mainScan (kwStream ++ (122 :: D1) ++ kwEndstream)
      = ScanResult.slice 7 (7 + n) (122 :: D1) c := by
  have h := mainScan_parts [] [] D1 [] 122 (by simp) (by decide) (by simp) (by decide) hD0
    (by rw [List.nil_append]; exact hWD)
  simp only [List.nil_append, List.append_nil, List.length_nil, Nat.zero_add, Nat.add_zero,
    hn, hc] at h
  exact h

/-- The scan on the file `\nstream`, `k + 1` characters `z`, `~>`,
`endstream`: the slice is the characters `z` and the marker, and `zCount` is
`k + 1` modulo `2^32`. -/
theorem mainScan_zSlice (k : Nat) :
    mainScan (kwStream ++ zSlice (k + 1) ++ kwEndstream)
      = ScanResult.slice 7 (7 + (k + 2)) (zSlice (k + 1)) ((k + 1) % 4294967296) := by
  have e : zSlice (k + 1) = 122 :: (List.replicate k 122 ++ [126, 62]) := rfl
  have hD0 : ∀ c ∈ List.replicate k 122 ++ [126, 62], c ≠ 0 := by
    intro c hc
    simp only [List.mem_append, List.mem_replicate, List.mem_cons, List.mem_singleton,
      List.not_mem_nil, or_false] at hc
    rcases hc with ⟨_, rfl⟩ | rfl | rfl <;> decide
  have hWD : ¬ kwEndstream <:+: 122 :: (List.replicate k 122 ++ [126, 62]) := by
    intro hc
    have hm : (101 : Nat) ∈ 122 :: (List.replicate k 122 ++ [126, 62]) :=
      hc.subset (by simp [kwEndstream])
    simp only [List.mem_cons, List.mem_append, List.mem_replicate,
      List.mem_singleton, List.not_mem_nil, or_false] at hm
    rcases hm with h | ⟨_, h⟩ | h | h <;> exact absurd h (by decide)
  have hcount : (122 :: (List.replicate k 122 ++ [126, 62])).count 122 = k + 1 := by
    rw [List.count_cons_self, List.count_append, List.count_replicate_self]
    rfl
  rw [e]
  exact mainScan_z_slice _ (k + 2) _ hD0 hWD (by simp) (by rw [hcount])

/-- C11 (counterexample): in the file `\nstream`, `2^32` characters `z`, `~>`,
`endstream` the scan succeeds, the copied slice holds `2^32` bytes `z`, and
`zCount` is 0: the counter has wrapped. -/
theorem mainScan_copy_wrap_counterexample :
    mainScan (kwStream ++ zSlice 4294967296 ++ kwEndstream)
        = ScanResult.slice 7 4294967304 (zSlice 4294967296) 0
    ∧ (zSlice 4294967296).count 122 = 4294967296 := by
  refine ⟨mainScan_zSlice 4294967295, ?_⟩
  unfold zSlice
  rw [List.count_append, List.count_replicate_self]
  rfl

/-! ## Lemmas on the FSA -/

theorem fsa_s2_end (rest : List Nat) (p endp : Nat) (h : p > endp) :
    fsa FsaState.s2 rest p endp = some [] := by
  cases rest <;> simp [fsa, h]

theorem fsa_s2_skip (c : Nat) (t : List Nat) (p endp : Nat) (hp : p ≤ endp) (hc : c ≠ 40) :
    fsa FsaState.s2 (c :: t) p endp = fsa FsaState.s2 t (p + 1) endp := by
  have h : ¬ p > endp := by omega
  simp [fsa, h, hc]

theorem fsa_s2_open (t : List Nat) (p endp : Nat) (hp : p ≤ endp) :
    fsa FsaState.s2 (40 :: t) p endp = fsa FsaState.s3 t (p + 1) endp := by
  have h : ¬ p > endp := by omega
  simp [fsa, h]

theorem fsa_s3_close (t : List Nat) (p endp : Nat) :
    fsa FsaState.s3 (41 :: t) p endp = fsa FsaState.s4 t (p + 1) endp := by
  rw [fsa.eq_def]
  simp only [if_true]

theorem fsa_s3_escape (c : Nat) (t : List Nat) (p endp : Nat) :
    fsa FsaState.s3 (92 :: c :: t) p endp
      = (fsa FsaState.s3 t (p + 2) endp).map (fun out => c :: out) := by
  simp [fsa]

theorem fsa_s3_emit (c : Nat) (t : List Nat) (p endp : Nat) (h1 : c ≠ 41) (h2 : c ≠ 92) :
    fsa FsaState.s3 (c :: t) p endp
      = (fsa FsaState.s3 t (p + 1) endp).map (fun out => c :: out) := by
  rw [fsa.eq_def]
  simp only [h1, h2, if_false]

theorem fsa_s4_open (t : List Nat) (p endp : Nat) :
    fsa FsaState.s4 (40 :: t) p endp = fsa FsaState.s3 t (p + 1) endp := by
  simp [fsa]

theorem fsa_s4_newline (t : List Nat) (p endp : Nat) :
    fsa FsaState.s4 (10 :: t) p endp
      = (fsa FsaState.s2 t (p + 1) endp).map (fun out => 10 :: out) := by
  simp [fsa]

theorem fsa_s4_skip (c : Nat) (t : List Nat) (p endp : Nat) (h1 : c ≠ 40) (h2 : c ≠ 10) :
    fsa FsaState.s4 (c :: t) p endp = fsa FsaState.s4 t (p + 1) endp := by
  simp [fsa, h1, h2]

/-- State 2 steps over bytes other than `(` that lie at offsets up to
`endp`. -/
theorem fsa_s2_run (rest : List Nat) (endp : Nat) :
    ∀ (pre : List Nat) (p : Nat), (∀ c ∈ pre, c ≠ 40) → p + pre.length ≤ endp + 1 →
      fsa FsaState.s2 (pre ++ rest) p endp = fsa FsaState.s2 rest (p + pre.length) endp
  | [], p, _, _ => by simp
  | c :: pre, p, hc, hl => by
    have hl2 : p + (pre.length + 1) ≤ endp + 1 := by simpa using hl
    rw [List.cons_append, fsa_s2_skip c _ p endp (by omega) (hc c (by simp)),
      fsa_s2_run rest endp pre (p + 1) (fun x hx => hc x (by simp [hx])) (by omega)]
    simp only [List.length_cons]
    congr 1
    omega

/-- State 3 emits a text without `)` and backslash and closes at the `)`. -/
theorem fsa_s3_text (rest : List Nat) (endp : Nat) :
    ∀ (t : List Nat) (p : Nat), (∀ c ∈ t, c ≠ 41 ∧ c ≠ 92) →
      fsa FsaState.s3 (t ++ 41 :: rest) p endp
        = (fsa FsaState.s4 rest (p + t.length + 1) endp).map (fun out => t ++ out)
  | [], p, _ => by
    simp only [List.nil_append, List.length_nil, Nat.add_zero]
    rw [fsa_s3_close]
    cases fsa FsaState.s4 rest (p + 1) endp <;> rfl
  | c :: t, p, hc => by
    have h := hc c (by simp)
    rw [List.cons_append, fsa_s3_emit c _ p endp h.1 h.2,
      fsa_s3_text rest endp t (p + 1) (fun x hx => hc x (by simp [hx]))]
    have e : p + 1 + t.length + 1 = p + (c :: t).length + 1 := by
      simp only [List.length_cons]
      omega
    rw [e]
    cases fsa FsaState.s4 rest (p + (c :: t).length + 1) endp <;> rfl

/-- State 4 steps over a gap without `(` and newline. -/
theorem fsa_s4_gap (rest : List Nat) (endp : Nat) :
    ∀ (g : List Nat) (p : Nat), (∀ c ∈ g, c ≠ 40 ∧ c ≠ 10) →
      fsa FsaState.s4 (g ++ rest) p endp = fsa FsaState.s4 rest (p + g.length) endp
  | [], p, _ => by simp
  | c :: g, p, hc => by
    have h := hc c (by simp)
    rw [List.cons_append, fsa_s4_skip c _ p endp h.1 h.2,
      fsa_s4_gap rest endp g (p + 1) (fun x hx => hc x (by simp [hx]))]
    simp only [List.length_cons]
    congr 1
    omega

/-- One literal and its gap, entered at the byte after the `(`. -/
theorem fsa_s3_seg (t g rest : List Nat) (p endp : Nat)
    (ht : ∀ c ∈ t, c ≠ 41 ∧ c ≠ 92) (hg : ∀ c ∈ g, c ≠ 40 ∧ c ≠ 10) :
    fsa FsaState.s3 (t ++ 41 :: (g ++ rest)) p endp
      = (fsa FsaState.s4 rest (p + t.length + 1 + g.length) endp).map (fun out => t ++ out) := by
  rw [fsa_s3_text _ endp t p ht, fsa_s4_gap rest endp g _ hg]

/-- State 4 in front of a run of literals that ends with a newline: the texts
are emitted, then one newline, and the FSA is back in state 2. -/
theorem fsa_s4_segs (rest : List Nat) (endp : Nat) :
    ∀ (segs : List (List Nat × List Nat)) (p : Nat),
      (∀ s ∈ segs, (∀ c ∈ s.1, c ≠ 41 ∧ c ≠ 92) ∧ (∀ c ∈ s.2, c ≠ 40 ∧ c ≠ 10)) →
      fsa FsaState.s4 (litSegs segs ++ 10 :: rest) p endp
        = (fsa FsaState.s2 rest (p + (litSegs segs).length + 1) endp).map
            (fun out => litTexts segs ++ 10 :: out)
  | [], p, _ => by
    simp only [litSegs, litTexts, List.nil_append, List.length_nil, Nat.add_zero]
    rw [fsa_s4_newline]
  | s :: segs, p, h => by
    have hs := h s (by simp)
    have ih := fsa_s4_segs rest endp segs (p + 1 + s.1.length + 1 + s.2.length)
      (fun x hx => h x (by simp [hx]))
    have e : litSegs (s :: segs) ++ 10 :: rest
        = 40 :: (s.1 ++ 41 :: (s.2 ++ (litSegs segs ++ 10 :: rest))) := by
      simp [litSegs]
    rw [e, fsa_s4_open, fsa_s3_seg _ _ _ _ _ hs.1 hs.2, ih]
    have e2 : p + 1 + s.1.length + 1 + s.2.length + (litSegs segs).length + 1
        = p + (litSegs (s :: segs)).length + 1 := by
      simp [litSegs]
      omega
    rw [e2]
    cases fsa FsaState.s2 rest (p + (litSegs (s :: segs)).length + 1) endp with
    | none => rfl
    | some out => simp [litTexts]

/-- State 2 at the `(` of a run of literals that ends with a newline. -/
theorem fsa_s2_segs (rest : List Nat) (endp : Nat)
    (segs : List (List Nat × List Nat)) (p : Nat) (hne : segs ≠ []) (hp : p ≤ endp)
    (h : ∀ s ∈ segs, (∀ c ∈ s.1, c ≠ 41 ∧ c ≠ 92) ∧ (∀ c ∈ s.2, c ≠ 40 ∧ c ≠ 10)) :
    fsa FsaState.s2 (litSegs segs ++ 10 :: rest) p endp
      = (fsa FsaState.s2 rest (p + (litSegs segs).length + 1) endp).map
          (fun out => litTexts segs ++ 10 :: out) := by
  rcases segs with _ | ⟨s, segs⟩
  · exact absurd rfl hne
  · rw [← fsa_s4_segs rest endp (s :: segs) p h]
    have e : litSegs (s :: segs) ++ 10 :: rest
        = 40 :: (s.1 ++ 41 :: (s.2 ++ (litSegs segs ++ 10 :: rest))) := by
      simp [litSegs]
    rw [e, fsa_s2_open _ _ _ hp, fsa_s4_open]

/-- State 2 at the end of the content, in front of a byte other than `(`: the
byte is stepped over and the loop ends. -/
theorem fsa_s2_tail (b : Nat) (pad : List Nat) (n : Nat) (hb : b ≠ 40) :
    fsa FsaState.s2 (b :: pad) n n = some [] := by
  rw [fsa_s2_skip b pad n n (le_refl n) hb, fsa_s2_end pad (n + 1) n (by omega)]

/-- State 2 in front of lines `pre ( t ) post \n` that lie at offsets up to
`endp`: the texts are emitted, each with its newline. -/
theorem fsa_s2_lines (tail : List Nat) (endp : Nat) :
    ∀ (lines : List (List Nat × List Nat × List Nat)) (p : Nat),
      (∀ l ∈ lines, (∀ c ∈ l.1, c ≠ 40) ∧ (∀ c ∈ l.2.1, c ≠ 41 ∧ c ≠ 92)
        ∧ (∀ c ∈ l.2.2, c ≠ 40 ∧ c ≠ 10)) →
      p + (oneLiteralLines lines).length ≤ endp + 1 →
      fsa FsaState.s2 (oneLiteralLines lines ++ tail) p endp
        = (fsa FsaState.s2 tail (p + (oneLiteralLines lines).length) endp).map
            (fun out => oneLiteralTexts lines ++ out)
  | [], p, _, _ => by
    simp only [oneLiteralLines, oneLiteralTexts, List.nil_append, List.length_nil,
      Nat.add_zero]
    cases fsa FsaState.s2 tail p endp <;> rfl
  | l :: lines, p, h, hl => by
    have hw := h l (by simp)
    have hlen : (oneLiteralLines (l :: lines)).length
        = l.1.length + (litSegs [(l.2.1, l.2.2)]).length + 1
          + (oneLiteralLines lines).length := by
      simp [oneLiteralLines, litSegs]
      omega
    have hseg : 3 ≤ (litSegs [(l.2.1, l.2.2)]).length + 1 := by
      simp [litSegs]
      omega
    have e : oneLiteralLines (l :: lines) ++ tail
        = l.1 ++ (litSegs [(l.2.1, l.2.2)] ++ 10 :: (oneLiteralLines lines ++ tail)) := by
      simp [oneLiteralLines, litSegs]
    have ih := fsa_s2_lines tail endp lines
      (p + l.1.length + (litSegs [(l.2.1, l.2.2)]).length + 1)
      (fun x hx => h x (by simp [hx])) (by omega)
    rw [e, fsa_s2_run _ endp l.1 p hw.1 (by omega),
      fsa_s2_segs _ endp [(l.2.1, l.2.2)] (p + l.1.length) (by simp) (by omega)
        (by
          intro s hs
          simp only [List.mem_singleton] at hs
          subst hs
          exact ⟨hw.2.1, hw.2.2⟩),
      ih]
    have e2 : p + l.1.length + (litSegs [(l.2.1, l.2.2)]).length + 1
          + (oneLiteralLines lines).length
        = p + (oneLiteralLines (l :: lines)).length := by omega
    rw [e2]
    cases fsa FsaState.s2 tail (p + (oneLiteralLines (l :: lines)).length) endp with
    | none => rfl
    | some out => simp [oneLiteralTexts, litTexts]

/-- The FSA on a content stream of lines `pre ( t ) post \n` (`pre` without
`(`, `t` without `)` and backslash, `post` without `(` and newline) that is
followed in the buffer by a byte other than `(` (the zero that `calloc` left,
when the content does not fill the buffer): it writes exactly the texts `t`,
each followed by a newline, in order; in particular `(Hello) Tj\n(World) Tj\n`
gives `Hello\nWorld\n`. -/
theorem fsaRun_one_literal_lines (lines : List (List Nat × List Nat × List Nat))
    (b : Nat) (pad : List Nat) (hb : b ≠ 40)
    (h : ∀ l ∈ lines, (∀ c ∈ l.1, c ≠ 40) ∧ (∀ c ∈ l.2.1, c ≠ 41 ∧ c ≠ 92)
      ∧ (∀ c ∈ l.2.2, c ≠ 40 ∧ c ≠ 10)) :
    fsaRun (oneLiteralLines lines ++ b :: pad) (oneLiteralLines lines).length
        = some (oneLiteralTexts lines)
    ∧ fsaRun ([40, 72, 101, 108, 108, 111, 41, 32, 84, 106, 10,
          40, 87, 111, 114, 108, 100, 41, 32, 84, 106, 10] ++ b :: pad) 22
        = some [72, 101, 108, 108, 111, 10, 87, 111, 114, 108, 100, 10] := by
  have key : ∀ ls : List (List Nat × List Nat × List Nat),
      (∀ l ∈ ls, (∀ c ∈ l.1, c ≠ 40) ∧ (∀ c ∈ l.2.1, c ≠ 41 ∧ c ≠ 92)
        ∧ (∀ c ∈ l.2.2, c ≠ 40 ∧ c ≠ 10)) →
      fsaRun (oneLiteralLines ls ++ b :: pad) (oneLiteralLines ls).length
        = some (oneLiteralTexts ls) := by
    intro ls hls
    unfold fsaRun
    rw [fsa_s2_lines (b :: pad) _ ls 0 hls (by omega), Nat.zero_add, fsa_s2_tail b pad _ hb]
    simp
  refine ⟨key lines h, ?_⟩
  have hex := key [([], [72, 101, 108, 108, 111], [32, 84, 106]),
    ([], [87, 111, 114, 108, 100], [32, 84, 106])] (by decide)
  simpa [oneLiteralLines, oneLiteralTexts] using hex

theorem fsaRun_one_literal_lines_example :
    fsaRun (oneLiteralLines [([66, 84, 10], [36, 49], [32, 84, 106])] ++ 0 :: [0, 0])
        (oneLiteralLines [([66, 84, 10], [36, 49], [32, 84, 106])]).length
        = some (oneLiteralTexts [([66, 84, 10], [36, 49], [32, 84, 106])])
    ∧ fsaRun ([40, 72, 101, 108, 108, 111, 41, 32, 84, 106, 10,
          40, 87, 111, 114, 108, 100, 41, 32, 84, 106, 10] ++ 0 :: [0, 0]) 22
        = some [72, 101, 108, 108, 111, 10, 87, 111, 114, 108, 100, 10] :=
  fsaRun_one_literal_lines [([66, 84, 10], [36, 49], [32, 84, 106])] 0 [0, 0]
    (by decide) (by decide)

/-- The FSA on a content stream of such lines that ends where the buffer ends:
after the last line state 2 tests `p > endp` with `p = endp` and reads `*p`,
the byte after the buffer. -/
theorem fsaRun_lines_exact_fill (lines : List (List Nat × List Nat × List Nat))
    (h : ∀ l ∈ lines, (∀ c ∈ l.1, c ≠ 40) ∧ (∀ c ∈ l.2.1, c ≠ 41 ∧ c ≠ 92)
      ∧ (∀ c ∈ l.2.2, c ≠ 40 ∧ c ≠ 10)) :
    fsaRun (oneLiteralLines lines) (oneLiteralLines lines).length = none := by
  have e : oneLiteralLines lines = oneLiteralLines lines ++ [] := by simp
  unfold fsaRun
  rw [e, fsa_s2_lines [] _ lines 0 h (by simp), ← e]
  simp [fsa]

/-- The FSA on a content stream without any `(`, followed in the buffer by a
byte other than `(`: it ends and writes nothing, no newline either; in
particular `BT\n` gives the empty output. -/
theorem fsaRun_no_literal (content : List Nat) (b : Nat) (pad : List Nat)
    (h : ∀ c ∈ content, c ≠ 40) (hb : b ≠ 40) :
    fsaRun (content ++ b :: pad) content.length = some []
    ∧ fsaRun ([66, 84, 10] ++ b :: pad) 3 = some [] := by
  have key : ∀ cs : List Nat, (∀ c ∈ cs, c ≠ 40) →
      fsaRun (cs ++ b :: pad) cs.length = some [] := by
    intro cs hcs
    unfold fsaRun
    rw [fsa_s2_run (b :: pad) _ cs 0 hcs (by omega), Nat.zero_add, fsa_s2_tail b pad _ hb]
  exact ⟨key content h, key [66, 84, 10] (by decide)⟩

theorem fsaRun_no_literal_example :
    fsaRun ([66, 84, 10, 10, 69, 84, 41, 10] ++ 0 :: []) (List.length [66, 84, 10, 10, 69, 84, 41, 10])
        = some []
    ∧ fsaRun ([66, 84, 10] ++ 0 :: []) 3 = some [] :=
  fsaRun_no_literal [66, 84, 10, 10, 69, 84, 41, 10] 0 [] (by decide) (by decide)

/-- The FSA on a content stream without any `(` that ends where the buffer
ends: state 2 tests `p > endp` with `p = endp` and reads `*p`, the byte after
the buffer. -/
theorem fsaRun_plain_exact_fill (content : List Nat) (h : ∀ c ∈ content, c ≠ 40) :
    fsaRun content content.length = none := by
  have e : content = content ++ [] := by simp
  unfold fsaRun
  rw [e, fsa_s2_run [] _ content 0 h (by simp), ← e]
  simp [fsa]

/-! ## Claims on the FSA -/

/-- C12 (failing input): the content stream of 80 lines `(A)\n` has the form of
the claim and 320 bytes; its zlib stream has 16 bytes, so that `inflateOutBuff`
has `20 * 16 = 320` bytes and the content fills it. On the invoice file that
holds this stream the scan succeeds, the decoder returns the 16 bytes, and the
run of `main` reads the byte after `inflateOutBuff`: after the last line state
2 tests `p > endp` with `p = endp` and goes on to `*p == '('`. The same
content in a buffer with one more byte, a zero, gives the 80 texts. -/
theorem mainRun_lines_exact_fill :
    (∀ l ∈ List.replicate 80 (([] : List Nat), [65], ([] : List Nat)),
        (∀ c ∈ l.1, c ≠ 40) ∧ (∀ c ∈ l.2.1, c ≠ 41 ∧ c ≠ 92) ∧ (∀ c ∈ l.2.2, c ≠ 40 ∧ c ≠ 10))
    ∧ literalFillContent.length = 20 * literalFillZlib.length
    ∧ mainScan literalFillDoc
        = ScanResult.slice 7 28
            [71, 104, 85, 86, 99, 101, 69, 35, 36, 112, 96, 70, 78, 72, 89, 86, 40, 115, 97, 64,
              126, 62] 0
    ∧ (mainDecode true
          [71, 104, 85, 86, 99, 101, 69, 35, 36, 112, 96, 70, 78, 72, 89, 86, 40, 115, 97, 64,
            126, 62] 0).map
        (fun r => (r.rc, r.actualOutCount, r.streamOut.take r.actualOutCount))
        = some (0, 16, literalFillZlib)
    ∧ fsaRun literalFillContent literalFillContent.length = none
    ∧ mainRun (zlibEnv literalFillDoc literalFillZlib literalFillContent) = none
    ∧ fsaRun (literalFillContent ++ [0]) literalFillContent.length
        = some (oneLiteralTexts (List.replicate 80 ([], [65], []))) := by
  refine ⟨by decide, by decide!, by decide!, by decide!, ?_, ?_, ?_⟩
  · exact fsaRun_lines_exact_fill _ (by decide)
  · decide!
  · exact (fsaRun_one_literal_lines _ 0 [] (by decide) (by decide)).1

/-- C13 (failing input): the content stream of 100 lines `BT\n` holds no `(`
and has 300 bytes; its zlib stream has 15 bytes, so that `inflateOutBuff` has
`20 * 15 = 300` bytes and the content fills it. On the invoice file that holds
this stream the scan succeeds, the decoder returns the 15 bytes, and the run of
`main` reads the byte after `inflateOutBuff`: at the end of the content state 2
tests `p > endp` with `p = endp` and goes on to `*p == '('`. The same content
in a buffer with one more byte, a zero, gives the empty output. -/
theorem mainRun_plain_exact_fill :
    (∀ c ∈ plainFillContent, c ≠ 40)
    ∧ plainFillContent.length = 20 * plainFillZlib.length
    ∧ mainScan plainFillDoc
        = ScanResult.slice 7 27
            [71, 104, 82, 51, 71, 105, 71, 111, 105, 42, 96, 36, 35, 45, 52, 66, 75, 103, 116,
              126, 62] 0
    ∧ (mainDecode true
          [71, 104, 82, 51, 71, 105, 71, 111, 105, 42, 96, 36, 35, 45, 52, 66, 75, 103, 116,
            126, 62] 0).map
        (fun r => (r.rc, r.actualOutCount, r.streamOut.take r.actualOutCount))
        = some (0, 15, plainFillZlib)
    ∧ fsaRun plainFillContent plainFillContent.length = none
    ∧ mainRun (zlibEnv plainFillDoc plainFillZlib plainFillContent) = none
    ∧ fsaRun (plainFillContent ++ [0]) plainFillContent.length = some [] := by
  refine ⟨by decide!, by decide!, by decide!, by decide!, ?_, ?_, ?_⟩
  · exact fsaRun_plain_exact_fill _ (by decide!)
  · decide!
  · exact (fsaRun_no_literal _ 0 [] (by decide!) (by decide)).1

/-- C14: inside a literal the two bytes backslash, `c` make the FSA write
exactly `c` (whatever `c` is), not the backslash, and stay inside the literal;
in particular `(a\)b)\n`, followed in the buffer by a byte other than `(`,
gives `a)b\n`. -/
theorem fsa_escape :
    (∀ (c : Nat) (t : List Nat) (p endp : Nat),
      fsa FsaState.s3 (92 :: c :: t) p endp
        = (fsa FsaState.s3 t (p + 2) endp).map (fun out => c :: out))
    ∧ (∀ (b : Nat) (pad : List Nat), b ≠ 40 →
      fsaRun ([40, 97, 92, 41, 98, 41, 10] ++ b :: pad) 7 = some [97, 41, 98, 10]) := by
  refine ⟨fun c t p endp => fsa_s3_escape c t p endp, ?_⟩
  intro b pad hb
  unfold fsaRun
  simp only [List.cons_append, List.nil_append]
  rw [fsa_s2_open _ _ _ (by omega), fsa_s3_emit 97 _ _ _ (by decide) (by decide),
    fsa_s3_escape, fsa_s3_emit 98 _ _ _ (by decide) (by decide), fsa_s3_close,
    fsa_s4_newline, fsa_s2_tail b pad 7 hb]
  rfl

theorem fsa_escape_witness :
    fsa FsaState.s3 (92 :: 92 :: [41, 10, 0]) 1 4
        = (fsa FsaState.s3 [41, 10, 0] (1 + 2) 4).map (fun out => 92 :: out)
    ∧ fsaRun ([40, 97, 92, 41, 98, 41, 10] ++ 0 :: [0]) 7 = some [97, 41, 98, 10] :=
  ⟨fsa_escape.1 92 [41, 10, 0] 1 4, fsa_escape.2 0 [0] (by decide)⟩

/-- C15: on a line `( t_1 ) g_1 ( t_2 ) g_2 ... ( t_k ) g_k \n` with two or
more literals (each `t_j` without `)` and backslash, each `g_j` without `(` and
newline), read from state 2 inside the content, the FSA writes
`t_1 ++ ... ++ t_k`, then exactly one newline, nothing from the gaps, and is
back in state 2 at the byte after the line. -/
theorem fsa_adjacent_literals (segs : List (List Nat × List Nat)) (rest : List Nat)
    (p endp : Nat) (hk : 2 ≤ segs.length) (hp : p ≤ endp)
    (h : ∀ s ∈ segs, (∀ c ∈ s.1, c ≠ 41 ∧ c ≠ 92) ∧ (∀ c ∈ s.2, c ≠ 40 ∧ c ≠ 10)) :
    fsa FsaState.s2 (litSegs segs ++ 10 :: rest) p endp
        = (fsa FsaState.s2 rest (p + (litSegs segs).length + 1) endp).map
            (fun out => litTexts segs ++ 10 :: out)
    ∧ (∀ (b : Nat) (pad : List Nat), b ≠ 40 →
        fsaRun (litSegs segs ++ 10 :: b :: pad) ((litSegs segs).length + 1)
          = some (litTexts segs ++ [10])) := by
  have hne : segs ≠ [] := by
    intro hnil
    rw [hnil] at hk
    simp at hk
  refine ⟨fsa_s2_segs rest endp segs p hne hp h, ?_⟩
  intro b pad hb
  unfold fsaRun
  rw [fsa_s2_segs (b :: pad) _ segs 0 hne (by omega) h, Nat.zero_add,
    fsa_s2_tail b pad _ hb]
  rfl

theorem fsa_adjacent_literals_witness :
    fsa FsaState.s2 (litSegs [([65, 66], [32]), ([67], [32, 84, 74])] ++ 10 :: [66, 84, 10, 0]) 0 15
        = (fsa FsaState.s2 [66, 84, 10, 0]
            (0 + (litSegs [([65, 66], [32]), ([67], [32, 84, 74])]).length + 1) 15).map
            (fun out => litTexts [([65, 66], [32]), ([67], [32, 84, 74])] ++ 10 :: out)
    ∧ fsaRun (litSegs [([65, 66], [32]), ([67], [32, 84, 74])] ++ 10 :: 0 :: [0])
          ((litSegs [([65, 66], [32]), ([67], [32, 84, 74])]).length + 1)
        = some (litTexts [([65, 66], [32]), ([67], [32, 84, 74])] ++ [10]) :=
  ⟨(fsa_adjacent_literals [([65, 66], [32]), ([67], [32, 84, 74])] [66, 84, 10, 0] 0 15
      (by decide) (by decide) (by decide)).1,
    (fsa_adjacent_literals [([65, 66], [32]), ([67], [32, 84, 74])] [66, 84, 10, 0] 0 15
      (by decide) (by decide) (by decide)).2 0 [0] (by decide)⟩

/-! ## Lemmas on the run of main -/

theorem ascii85decodeAlloc_ok (sc : Bool) (streamIn streamOut : List Nat) (cnt : Nat) :
    ascii85decodeAlloc true sc streamIn streamOut cnt
      = ascii85decode sc streamIn streamOut cnt := by
  unfold ascii85decodeAlloc ascii85decode
  by_cases h1 : streamIn.length < 2
  · simp [h1]
  · by_cases h2 : streamIn.getD (streamIn.length - 2) 0 ≠ 126
        ∨ streamIn.getD (streamIn.length - 1) 0 ≠ 62
    · simp only [h1, h2, if_true, if_false]
    · simp only [h1, h2, if_false, Bool.true_eq_false]

/-- A successful decode in `main` is a successful call of `ascii85decode` with
its allocation granted. -/
theorem ascii85decodeAlloc_rc0 (ct sc : Bool) (streamIn streamOut : List Nat) (cnt : Nat)
    (r : Ascii85Result) (h : ascii85decodeAlloc ct sc streamIn streamOut cnt = some r)
    (h0 : r.rc = 0) :
    ct = true ∧ ascii85decode sc streamIn streamOut cnt = some r := by
  unfold ascii85decodeAlloc at h
  by_cases h1 : streamIn.length < 2
  · simp [h1] at h
  · by_cases h2 : streamIn.getD (streamIn.length - 2) 0 ≠ 126
        ∨ streamIn.getD (streamIn.length - 1) 0 ≠ 62
    · simp only [h1, h2, if_true, if_false, Option.some.injEq] at h
      rw [← h] at h0
      simp at h0
    · cases ct with
      | false =>
        simp only [h1, h2, if_true, if_false, Option.some.injEq] at h
        rw [← h] at h0
        simp at h0
      | true =>
        simp only [h1, h2, if_false, Bool.true_eq_false] at h
        exact ⟨rfl, h⟩

theorem failWith_status (status : Nat) (cause : Cause) (o : Outcome)
    (h : failWith status cause = some o) :
    o.status = status ∧ o.cause = some cause ∧ o.report = [] := by
  unfold failWith at h
  simp only [Option.some.injEq] at h
  subst h
  exact ⟨rfl, rfl, rfl⟩

theorem failWith_ok (status : Nat) (cause : Cause) (o : Outcome)
    (h : failWith status cause = some o)
    (hs : outcomeOk { status := status, cause := some cause, report := [] }) :
    outcomeOk o := by
  unfold failWith at h
  simp only [Option.some.injEq] at h
  subst h
  exact hs

theorem mainReport_ok (env : Env) (buf : List Nat) (n : Nat) (o : Outcome)
    (h : mainReport env buf n = some o) : outcomeOk o := by
  unfold mainReport at h
  split at h
  · exact failWith_ok _ _ o h (by simp [outcomeOk])
  · split at h
    · simp at h
    · simp only [Option.some.injEq] at h
      subst h
      exact Or.inl ⟨rfl, rfl⟩

theorem mainInflate_ok (env : Env) (buf : List Nat) (n : Nat) (o : Outcome)
    (h : mainInflate env buf n = some o) : outcomeOk o := by
  unfold mainInflate at h
  simp only at h
  split at h
  · exact failWith_ok _ _ o h (by simp [outcomeOk])
  · split at h
    · exact failWith_ok _ _ o h (by simp [outcomeOk])
    · split at h
      · exact failWith_ok _ _ o h (by simp [outcomeOk])
      · split at h
        · exact failWith_ok _ _ o h (by simp [outcomeOk])
        · exact mainReport_ok env _ _ o h

theorem mainDecodeStep_ok (env : Env) (buf : List Nat) (z : Nat) (o : Outcome)
    (h : mainDecodeStep env buf z = some o) : outcomeOk o := by
  unfold mainDecodeStep at h
  split at h
  · exact failWith_ok _ _ o h (by simp [outcomeOk])
  · split at h
    · simp at h
    · split at h
      · exact failWith_ok _ _ o h (by simp [outcomeOk])
      · split at h
        · exact failWith_ok _ _ o h (by simp [outcomeOk])
        · exact mainInflate_ok env _ _ o h

theorem mainRun_ok (env : Env) (o : Outcome) (h : mainRun env = some o) : outcomeOk o := by
  unfold mainRun at h
  split at h
  · exact failWith_ok _ _ o h (by simp [outcomeOk])
  · split at h
    · exact failWith_ok _ _ o h (by simp [outcomeOk])
    · split at h
      · exact failWith_ok _ _ o h (by simp [outcomeOk])
      · split at h
        · exact failWith_ok _ _ o h (by simp [outcomeOk])
        · split at h
          · exact failWith_ok _ _ o h (by simp [outcomeOk])
          · split at h
            · exact failWith_ok _ _ o h (by simp [outcomeOk])
            · split at h
              · exact failWith_ok _ _ o h (by simp [outcomeOk])
              · split at h
                · split at h
                  · exact failWith_ok _ _ o h (by simp [outcomeOk])
                  · split at h
                    · exact failWith_ok _ _ o h (by simp [outcomeOk])
                    · exact failWith_ok _ _ o h (by simp [outcomeOk])
                · split at h
                  · exact failWith_ok _ _ o h (by simp [outcomeOk])
                  · exact mainDecodeStep_ok env _ _ o h

theorem failWith_early (status : Nat) (cause : Cause) (o : Outcome)
    (h : failWith status cause = some o) (hs : o.status = 0 ∨ 14 ≤ o.status)
    (h1 : status ≠ 0) (h2 : status < 14) : False := by
  rw [(failWith_status status cause o h).1] at hs
  omega

/-- A run that ends with status 0 or with a status from 14 on has passed the
decoding step. -/
theorem mainDecodeStep_reach (env : Env) (buf : List Nat) (z : Nat) (o : Outcome)
    (h : mainDecodeStep env buf z = some o) (hs : o.status = 0 ∨ 14 ≤ o.status) :
    ∃ r, mainDecode env.signedChar buf z = some r ∧ r.rc = 0
      ∧ mainInflate env r.streamOut r.actualOutCount = some o := by
  unfold mainDecodeStep at h
  split at h
  · exact (failWith_early _ _ o h hs (by decide) (by decide)).elim
  · split at h
    · simp at h
    · rename_i r hr
      split at h
      · exact (failWith_early _ _ o h hs (by decide) (by decide)).elim
      · split at h
        · exact (failWith_early _ _ o h hs (by decide) (by decide)).elim
        · rename_i hrc0
          have hrc : r.rc = 0 := not_not.1 hrc0
          exact ⟨r, (ascii85decodeAlloc_rc0 _ _ _ _ _ r hr hrc).2, hrc, h⟩

/-- A run that ends with status 0 or with a status from 14 on has passed the
scan. -/
theorem mainRun_reach (env : Env) (o : Outcome) (h : mainRun env = some o)
    (hs : o.status = 0 ∨ 14 ≤ o.status) :
    ∃ doc startp endp buf z, env.invoiceFile = some doc
      ∧ mainScan doc = ScanResult.slice startp endp buf z
      ∧ mainDecodeStep env buf z = some o := by
  unfold mainRun at h
  split at h
  · exact (failWith_early _ _ o h hs (by decide) (by decide)).elim
  · split at h
    · exact (failWith_early _ _ o h hs (by decide) (by decide)).elim
    · split at h
      · exact (failWith_early _ _ o h hs (by decide) (by decide)).elim
      · split at h
        · exact (failWith_early _ _ o h hs (by decide) (by decide)).elim
        · split at h
          · exact (failWith_early _ _ o h hs (by decide) (by decide)).elim
          · split at h
            · exact (failWith_early _ _ o h hs (by decide) (by decide)).elim
            · rename_i doc hdoc
              split at h
              · exact (failWith_early _ _ o h hs (by decide) (by decide)).elim
              · split at h
                · split at h
                  · exact (failWith_early _ _ o h hs (by decide) (by decide)).elim
                  · split at h
                    · exact (failWith_early _ _ o h hs (by decide) (by decide)).elim
                    · exact (failWith_early _ _ o h hs (by decide) (by decide)).elim
                · rename_i startp endp buf z hscan
                  split at h
                  · exact (failWith_early _ _ o h hs (by decide) (by decide)).elim
                  · exact ⟨doc, startp, endp, buf, z, hdoc, hscan, h⟩

/-- A run that ends with status 0 or with a status from 14 on has reached the
decompression step, with the decoded bytes of the scanned slice. -/
theorem mainRun_reach_inflate (env : Env) (o : Outcome) (h : mainRun env = some o)
    (hs : o.status = 0 ∨ 14 ≤ o.status) :
    ∃ doc startp endp buf z r,
      env.invoiceFile = some doc
      ∧ mainScan doc = ScanResult.slice startp endp buf z
      ∧ mainDecode env.signedChar buf z = some r ∧ r.rc = 0
      ∧ mainInflate env r.streamOut r.actualOutCount = some o := by
  obtain ⟨doc, startp, endp, buf, z, hdoc, hscan, hdec⟩ := mainRun_reach env o h hs
  obtain ⟨r, hr, hrc, hinf⟩ := mainDecodeStep_reach env buf z o hdec hs
  exact ⟨doc, startp, endp, buf, z, r, hdoc, hscan, hr, hrc, hinf⟩

/-- The decoder of `main` on `k` characters `z` and the marker: it returns 0
and has stored `4 * k` zero bytes. -/
theorem mainDecode_zSlice (sc : Bool) (k z : Nat) :
    mainDecode sc (zSlice k) z
      = some { rc := 0, streamIn := zSlice k,
               streamOut := storeOut (List.replicate ((zSlice k).length + 3 * z % 4294967296) 0)
                 (List.replicate (4 * k) 0),
               actualOutCount := 4 * k } := by
  have hws : ∀ c ∈ List.replicate k 122, isWhitespace c = false := by
    intro c hc
    rw [(List.mem_replicate.1 hc).2]
    rfl
  unfold mainDecode zSlice
  rw [ascii85decode_eod_clean sc (List.replicate k 122) _ 0 hws, List.length_replicate,
    decodeLoop_z_run sc k [62] (k : Int) (by omega)]
  simp [decodeTail]

/-- A run of `main` whose checks of the arguments and of the libraries pass
and whose scan gives a slice goes on to the decoding step. -/
theorem mainRun_of_slice (env : Env) (doc : List Nat) (startp endp : Nat) (buf : List Nat)
    (z : Nat)
    (h1 : env.argc = 3) (h2 : env.invoiceNameLen ≤ 199) (h3 : env.reportNameLen ≤ 199)
    (h4 : 8 ≤ env.sizeofULL) (h5 : env.zlibMajorMatches = true)
    (h6 : env.invoiceFile = some doc) (h7 : env.callocInvoice = true)
    (h8 : env.callocAscii85In = true)
    (hscan : mainScan doc = ScanResult.slice startp endp buf z) :
    mainRun env = mainDecodeStep env buf z := by
  have hn2 : ¬ env.invoiceNameLen > 199 := by omega
  have hn3 : ¬ env.reportNameLen > 199 := by omega
  have hn4 : ¬ env.sizeofULL < 8 := by omega
  unfold mainRun
  simp only [h1, ne_eq, not_true_eq_false, if_false, hn2, hn3, hn4, h5, h6, h7, h8,
    Bool.true_eq_false, hscan]

/-- A decoding step whose allocations are granted and whose decoder returns 0
goes on to the decompression step with the decoded bytes. -/
theorem mainDecodeStep_of_decode (env : Env) (buf : List Nat) (z : Nat) (r : Ascii85Result)
    (h9 : env.callocAscii85Out = true) (hct : env.callocTemp = true)
    (hdec : mainDecode env.signedChar buf z = some r) (hrc : r.rc = 0) :
    mainDecodeStep env buf z = mainInflate env r.streamOut r.actualOutCount := by
  unfold mainDecode at hdec
  unfold mainDecodeStep
  rw [hct, ascii85decodeAlloc_ok, hdec]
  simp [h9, hrc]

/-- The decompression step with the `inflate` of `roomEnv`: it ends well when
`avail_out` is `room`, and with status 16 otherwise. -/
theorem mainInflate_roomEnv (doc : List Nat) (room : Nat) (buf : List Nat) (n : Nat)
    (hroom : 0 < room) :
    mainInflate (roomEnv doc room) buf n
      = if 20 * n % 4294967296 = room then
          some { status := 0, cause := none, report := separator }
        else some { status := 16, cause := some Cause.inflateStatus, report := [] } := by
  unfold mainInflate
  by_cases h : 20 * n % 4294967296 = room
  · obtain ⟨m, hm⟩ : ∃ m, room = m + 1 := ⟨room - 1, by omega⟩
    have hf : fsaRun (List.replicate (m + 1) 0) 0 = some [] := by
      unfold fsaRun
      rw [List.replicate_succ]
      exact fsa_s2_tail 0 _ 0 (by decide)
    simp [roomEnv, exampleEnv, zStreamEnd, zOk, h, mainReport, hm, hf]
  · simp [roomEnv, exampleEnv, zStreamEnd, zOk, h, failWith]

/-! ## Claims on the run of main -/

/-- C17: a run of `main` that ends with a nonzero status has written no byte
to the report; bytes are written only on runs that end with status 0. -/
theorem mainRun_no_partial_output (env : Env) (o : Outcome) (h : mainRun env = some o) :
    (o.status ≠ 0 → o.report = []) ∧ (o.report ≠ [] → o.status = 0) := by
  have hok := mainRun_ok env o h
  have h1 : o.status ≠ 0 → o.report = [] := by
    intro hs
    rcases hok with ⟨h0, _⟩ | ⟨hr, _⟩
    · exact absurd h0 hs
    · exact hr
  refine ⟨h1, ?_⟩
  intro hr
  by_contra hs
  exact hr (h1 hs)

theorem mainRun_no_partial_output_witness :
    ((13 : Nat) ≠ 0 → ([] : List Nat) = []) ∧ (([] : List Nat) ≠ [] → (13 : Nat) = 0) :=
  mainRun_no_partial_output
    (exampleEnv (kwStream ++ [54, 77, 60, 71, 35] ++ kwEndstream) [])
    { status := 13, cause := some Cause.missingEod, report := [] } (by decide)

/-- C18 (amended): two runs of `main` that end with the same status failed for
the same cause, except that status 13 stands for both failures of the decoder,
the missing end-of-data marker and the failed allocation of its temporary
buffer. -/
theorem mainRun_status_cause (e1 e2 : Env) (o1 o2 : Outcome)
    (h1 : mainRun e1 = some o1) (h2 : mainRun e2 = some o2) (hs : o1.status = o2.status) :
    o1.cause = o2.cause
      ∨ (o1.status = 13
          ∧ (o1.cause = some Cause.missingEod ∨ o1.cause = some Cause.decoderAlloc)
          ∧ (o2.cause = some Cause.missingEod ∨ o2.cause = some Cause.decoderAlloc)) := by
  have k1 := mainRun_ok e1 o1 h1
  have k2 := mainRun_ok e2 o2 h2
  unfold outcomeOk at k1 k2
  by_cases h13 : o1.status = 13
  · right
    have h13b : o2.status = 13 := by omega
    refine ⟨h13, ?_, ?_⟩
    · rcases k1 with ⟨a, _⟩ | ⟨_, k⟩
      · omega
      · rcases k with ⟨a, _⟩ | ⟨a, _⟩ | ⟨a, _⟩ | ⟨a, _⟩ | ⟨a, _⟩ | ⟨a, _⟩ | ⟨a, _⟩ | ⟨a, _⟩
          | ⟨a, _⟩ | ⟨a, _⟩ | ⟨a, _⟩ | ⟨a, _⟩ | ⟨_, c⟩ | ⟨a, _⟩ | ⟨a, _⟩ | ⟨a, _⟩ | ⟨a, _⟩
          | ⟨a, _⟩
        all_goals first | exact c | omega
    · rcases k2 with ⟨a, _⟩ | ⟨_, k⟩
      · omega
      · rcases k with ⟨a, _⟩ | ⟨a, _⟩ | ⟨a, _⟩ | ⟨a, _⟩ | ⟨a, _⟩ | ⟨a, _⟩ | ⟨a, _⟩ | ⟨a, _⟩
          | ⟨a, _⟩ | ⟨a, _⟩ | ⟨a, _⟩ | ⟨a, _⟩ | ⟨_, c⟩ | ⟨a, _⟩ | ⟨a, _⟩ | ⟨a, _⟩ | ⟨a, _⟩
          | ⟨a, _⟩
        all_goals first | exact c | omega
  · left
    have key : ∀ o : Outcome,
        ((o.status = 0 ∧ o.cause = none)
        ∨ (o.report = [] ∧
          ((o.status = 1 ∧ o.cause = some Cause.usage)
          ∨ (o.status = 2 ∧ o.cause = some Cause.invoiceNameTooLong)
          ∨ (o.status = 3 ∧ o.cause = some Cause.reportNameTooLong)
          ∨ (o.status = 4 ∧ o.cause = some Cause.no64BitIntegers)
          ∨ (o.status = 5 ∧ o.cause = some Cause.zlibIncompatible)
          ∨ (o.status = 6 ∧ o.cause = some Cause.invoiceOpen)
          ∨ (o.status = 7 ∧ o.cause = some Cause.allocInvoice)
          ∨ (o.status = 8 ∧ o.cause = some Cause.streamStartNotFound)
          ∨ (o.status = 9 ∧ o.cause = some Cause.streamEndNotFound)
          ∨ (o.status = 10 ∧ o.cause = some Cause.streamEmpty)
          ∨ (o.status = 11 ∧ o.cause = some Cause.allocAscii85In)
          ∨ (o.status = 12 ∧ o.cause = some Cause.allocAscii85Out)
          ∨ (o.status = 13
              ∧ (o.cause = some Cause.missingEod ∨ o.cause = some Cause.decoderAlloc))
          ∨ (o.status = 14 ∧ o.cause = some Cause.allocInflateOut)
          ∨ (o.status = 15 ∧ o.cause = some Cause.inflateInit)
          ∨ (o.status = 16 ∧ o.cause = some Cause.inflateStatus)
          ∨ (o.status = 17 ∧ o.cause = some Cause.inflateEnd)
          ∨ (o.status = 18 ∧ o.cause = some Cause.reportOpen)))) →
        o.status ≠ 13 →
        o.cause = (match o.status with
          | 0 => none
          | 1 => some Cause.usage
          | 2 => some Cause.invoiceNameTooLong
          | 3 => some Cause.reportNameTooLong
          | 4 => some Cause.no64BitIntegers
          | 5 => some Cause.zlibIncompatible
          | 6 => some Cause.invoiceOpen
          | 7 => some Cause.allocInvoice
          | 8 => some Cause.streamStartNotFound
          | 9 => some Cause.streamEndNotFound
          | 10 => some Cause.streamEmpty
          | 11 => some Cause.allocAscii85In
          | 12 => some Cause.allocAscii85Out
          | 14 => some Cause.allocInflateOut
          | 15 => some Cause.inflateInit
          | 16 => some Cause.inflateStatus
          | 17 => some Cause.inflateEnd
          | _ => some Cause.reportOpen) := by
      intro o k hn
      rcases k with ⟨a, c⟩ | ⟨_, k⟩
      · rw [a, c]
      · rcases k with ⟨a, c⟩ | ⟨a, c⟩ | ⟨a, c⟩ | ⟨a, c⟩ | ⟨a, c⟩ | ⟨a, c⟩ | ⟨a, c⟩ | ⟨a, c⟩
          | ⟨a, c⟩ | ⟨a, c⟩ | ⟨a, c⟩ | ⟨a, c⟩ | ⟨a, _⟩ | ⟨a, c⟩ | ⟨a, c⟩ | ⟨a, c⟩ | ⟨a, c⟩
          | ⟨a, c⟩
        all_goals first | exact absurd a hn | rw [a, c]
    rw [key o1 k1 h13, key o2 k2 (by omega), hs]

theorem mainRun_status_cause_witness :
    (some Cause.streamEmpty = some Cause.streamEmpty)
      ∨ ((10 : Nat) = 13
          ∧ (some Cause.streamEmpty = some Cause.missingEod
              ∨ some Cause.streamEmpty = some Cause.decoderAlloc)
          ∧ (some Cause.streamEmpty = some Cause.missingEod
              ∨ some Cause.streamEmpty = some Cause.decoderAlloc)) :=
  mainRun_status_cause
    (exampleEnv (kwStream ++ [32] ++ kwEndstream) [])
    (exampleEnv (kwStream ++ kwEndstream) [])
    { status := 10, cause := some Cause.streamEmpty, report := [] }
    { status := 10, cause := some Cause.streamEmpty, report := [] }
    (by decide) (by decide) rfl

/-- C18 (counterexample): a run on a slice without the marker `~>` and a run
whose decoder cannot allocate its temporary buffer fail for different causes
and both end with status 13. -/
theorem mainRun_status_13_counterexample :
    mainRun (exampleEnv (kwStream ++ [54, 77, 60, 71, 35] ++ kwEndstream) [])
        = some { status := 13, cause := some Cause.missingEod, report := [] }
    ∧ mainRun { exampleEnv exampleDoc [] with callocTemp := false }
        = some { status := 13, cause := some Cause.decoderAlloc, report := [] }
    ∧ Cause.missingEod ≠ Cause.decoderAlloc := by
  refine ⟨by decide, by decide, by decide⟩

/-- C19 (amended): a run that ends with status 0 or with a status from 14 on
has reached the decompression step with the decoded bytes; that step depends
on `inflate` only through its one call, whose input is the first `n mod 2^32`
of the `n` decoded bytes and whose `avail_out` is `20 * n mod 2^32` (both are
passed as `uInt`), that is, all decoded bytes and 20 times their number
whenever `20 * n < 2^32`; any return code other than `Z_STREAM_END` ends the
run with status 16; with `Z_STREAM_END` the run goes on to `inflateEnd` and the
report, where the FSA runs over `total_out` bytes of the output buffer. -/
theorem mainInflate_contract :
    (∀ (env : Env) (o : Outcome), mainRun env = some o → (o.status = 0 ∨ 14 ≤ o.status) →
      ∃ doc startp endp buf z r,
        env.invoiceFile = some doc
        ∧ mainScan doc = ScanResult.slice startp endp buf z
        ∧ mainDecode env.signedChar buf z = some r ∧ r.rc = 0
        ∧ mainInflate env r.streamOut r.actualOutCount = some o)
    ∧ (∀ (env : Env) (buf : List Nat) (n : Nat) (f : List Nat → Nat → InflateResult),
        f (buf.take (n % 4294967296)) (20 * n % 4294967296)
          = env.inflate (buf.take (n % 4294967296)) (20 * n % 4294967296) →
        mainInflate { env with inflate := f } buf n = mainInflate env buf n)
    ∧ (∀ (env : Env) (buf : List Nat) (n : Nat) (f : List Nat → Nat → InflateResult),
        20 * n < 4294967296 →
        f (buf.take n) (20 * n) = env.inflate (buf.take n) (20 * n) →
        mainInflate { env with inflate := f } buf n = mainInflate env buf n)
    ∧ (∀ (env : Env) (buf : List Nat) (n : Nat),
        env.callocInflateOut = true → env.inflateInitRc = zOk →
        (env.inflate (buf.take (n % 4294967296)) (20 * n % 4294967296)).rc ≠ zStreamEnd →
        mainInflate env buf n
          = some { status := 16, cause := some Cause.inflateStatus, report := [] })
    ∧ (∀ (env : Env) (buf : List Nat) (n : Nat),
        env.callocInflateOut = true → env.inflateInitRc = zOk →
        (env.inflate (buf.take (n % 4294967296)) (20 * n % 4294967296)).rc = zStreamEnd →
        (∀ o, mainInflate env buf n = some o → o.status ≠ 16)
        ∧ (env.inflateEndRc = zOk → env.reportOpen = true →
            mainInflate env buf n
              = (fsaRun
                  (env.inflate (buf.take (n % 4294967296)) (20 * n % 4294967296)).outBuff
                  (env.inflate (buf.take (n % 4294967296)) (20 * n % 4294967296)).totalOut).map
                  (fun out => { status := 0, cause := none, report := out ++ separator }))) := by
  have hdep : ∀ (env : Env) (buf : List Nat) (n : Nat) (f : List Nat → Nat → InflateResult),
      f (buf.take (n % 4294967296)) (20 * n % 4294967296)
        = env.inflate (buf.take (n % 4294967296)) (20 * n % 4294967296) →
      mainInflate { env with inflate := f } buf n = mainInflate env buf n := by
    intro env buf n f hf
    unfold mainInflate mainReport
    simp only [hf]
  refine ⟨mainRun_reach_inflate, hdep, ?_, ?_, ?_⟩
  · intro env buf n f hlt hf
    have h1 : 20 * n % 4294967296 = 20 * n := Nat.mod_eq_of_lt hlt
    have h2 : n % 4294967296 = n := Nat.mod_eq_of_lt (by omega)
    exact hdep env buf n f (by rw [h1, h2]; exact hf)
  · intro env buf n hc hi hrc
    unfold mainInflate
    simp only [hc, hi, Bool.true_eq_false, if_false, ne_eq, not_true_eq_false]
    rw [if_pos hrc]
    rfl
  · intro env buf n hc hi hrc
    constructor
    · intro o ho
      unfold mainInflate at ho
      simp only [hc, hi, hrc] at ho
      simp only [Bool.true_eq_false, if_false, ne_eq, not_true_eq_false] at ho
      split at ho
      · rw [(failWith_status _ _ o ho).1]
        decide
      · unfold mainReport at ho
        split at ho
        · rw [(failWith_status _ _ o ho).1]
          decide
        · split at ho
          · simp at ho
          · simp only [Option.some.injEq] at ho
            rw [← ho]
            simp
    · intro he hr
      unfold mainInflate mainReport
      simp only [hc, hi, hrc, he, hr]
      simp only [Bool.true_eq_false, if_false, ne_eq, not_true_eq_false]
      cases fsaRun (env.inflate (buf.take (n % 4294967296)) (20 * n % 4294967296)).outBuff
        (env.inflate (buf.take (n % 4294967296)) (20 * n % 4294967296)).totalOut <;> rfl

theorem mainInflate_contract_witness :
    (∃ doc startp endp buf z r,
        (exampleEnv exampleDoc [66, 84, 10]).invoiceFile = some doc
        ∧ mainScan doc = ScanResult.slice startp endp buf z
        ∧ mainDecode true buf z = some r ∧ r.rc = 0
        ∧ mainInflate (exampleEnv exampleDoc [66, 84, 10]) r.streamOut r.actualOutCount
            = some { status := 0, cause := none, report := separator })
    ∧ mainInflate { zlibEnv dollarDoc dollarZlib dollarContent with
          inflate := fun input availOut =>
            if input = dollarZlib ∧ availOut = 400 then
              { rc := 1, outBuff := dollarContent ++ List.replicate 388 0, totalOut := 12 }
            else { rc := -3, outBuff := [], totalOut := 0 } }
        (dollarZlib ++ [0, 0, 0, 0, 0, 0, 0]) 20
        = mainInflate (zlibEnv dollarDoc dollarZlib dollarContent)
            (dollarZlib ++ [0, 0, 0, 0, 0, 0, 0]) 20
    ∧ mainInflate { exampleEnv exampleDoc [] with
          inflate := fun _ _ => { rc := -3, outBuff := [], totalOut := 0 } }
        [66, 246, 57, 228, 0, 0, 0] 4
        = some { status := 16, cause := some Cause.inflateStatus, report := [] } :=
  ⟨mainInflate_contract.1 (exampleEnv exampleDoc [66, 84, 10])
      { status := 0, cause := none, report := separator } (by decide) (Or.inl rfl),
    mainInflate_contract.2.2.1 (zlibEnv dollarDoc dollarZlib dollarContent)
      (dollarZlib ++ [0, 0, 0, 0, 0, 0, 0]) 20
      (fun input availOut =>
        if input = dollarZlib ∧ availOut = 400 then
          { rc := 1, outBuff := dollarContent ++ List.replicate 388 0, totalOut := 12 }
        else { rc := -3, outBuff := [], totalOut := 0 })
      (by decide) rfl,
    mainInflate_contract.2.2.2.1
      { exampleEnv exampleDoc [] with
        inflate := fun _ _ => { rc := -3, outBuff := [], totalOut := 0 } }
      [66, 246, 57, 228, 0, 0, 0] 4 rfl rfl (by decide)⟩

/-- C19 (counterexample): in the file `\nstream`, 53687092 characters `z`,
`~>`, `endstream` the slice decodes to 214748368 zero bytes; 20 times that
number is 4294967360, and as a `uInt` it is 64. With an `inflate` that returns
`Z_STREAM_END` only when it is given room for exactly 64 bytes the run ends
well, and with an `inflate` that returns `Z_STREAM_END` only when it is given
room for exactly 20 times the decoded length the run ends with status 16. -/
theorem mainRun_capacity_counterexample :
    (mainDecode true (zSlice 53687092) 53687092).map (fun r => (r.rc, r.actualOutCount))
        = some (0, 214748368)
    ∧ 20 * 214748368 = 4294967360
    ∧ 20 * 214748368 % 4294967296 = 64
    ∧ mainRun (roomEnv (kwStream ++ zSlice 53687092 ++ kwEndstream) 64)
        = some { status := 0, cause := none, report := separator }
    ∧ mainRun (roomEnv (kwStream ++ zSlice 53687092 ++ kwEndstream) (20 * 214748368))
        = some { status := 16, cause := some Cause.inflateStatus, report := [] } := by
  have hscan : mainScan (kwStream ++ zSlice 53687092 ++ kwEndstream)
      = ScanResult.slice 7 53687100 (zSlice 53687092) 53687092 := mainScan_zSlice 53687091
  have hdec := mainDecode_zSlice true 53687092 53687092
  have hrun : ∀ room, 0 < room →
      mainRun (roomEnv (kwStream ++ zSlice 53687092 ++ kwEndstream) room)
        = if 20 * (4 * 53687092) % 4294967296 = room then
            some { status := 0, cause := none, report := separator }
          else some { status := 16, cause := some Cause.inflateStatus, report := [] } := by
    intro room hroom
    rw [mainRun_of_slice (roomEnv (kwStream ++ zSlice 53687092 ++ kwEndstream) room) _ _ _ _ _
        rfl (by simp [roomEnv, exampleEnv]) (by simp [roomEnv, exampleEnv])
        (by simp [roomEnv, exampleEnv]) rfl rfl rfl rfl hscan,
      mainDecodeStep_of_decode (roomEnv (kwStream ++ zSlice 53687092 ++ kwEndstream) room)
        _ _ _ rfl rfl hdec rfl,
      mainInflate_roomEnv _ _ _ _ hroom]
  refine ⟨?_, by decide, by decide, ?_, ?_⟩
  · rw [hdec]
    rfl
  · rw [hrun 64 (by decide), if_pos (by decide)]
  · rw [hrun _ (by decide), if_neg (by decide)]


/-! ## The running totals of rpt3pgm -/

theorem runTotals_append (U L : Nat) (rows : List (Nat × Nat × Nat)) (r : Nat × Nat × Nat) :
    runTotals U L (rows ++ [r]) = updateTotals U L (runTotals U L rows) r.1 r.2.1 r.2.2 := by
  simp [runTotals, List.foldl_append]

theorem rowsWithHst_append (rows : List (Nat × Nat × Nat)) (r : Nat × Nat × Nat) :
    rowsWithHst (rows ++ [r])
      = if r.2.1 ≠ 0 then rowsWithHst rows ++ [r] else rowsWithHst rows := by
  unfold rowsWithHst
  by_cases h : r.2.1 = 0 <;> simp [List.filter_append, h]

/-- The two counters after the loop: the number of rows and the number of rows
with a nonzero HST value, in `unsigned int` arithmetic. -/
theorem runTotals_counts (U L : Nat) (rows : List (Nat × Nat × Nat)) :
    (runTotals U L rows).countInvoicesAll = rows.length % U
      ∧ (runTotals U L rows).countInvoicesWithNonZeroHst = (rowsWithHst rows).length % U := by
  induction rows using List.reverseRecOn with
  | nil => simp [runTotals, rowsWithHst]
  | append_singleton rows r ih =>
    rw [runTotals_append, rowsWithHst_append]
    unfold updateTotals
    by_cases h : r.2.1 = 0
    · simp [h, ih.1, ih.2]
    · simp [h, ih.1, ih.2]

/-- The five sums after the loop, in `unsigned long` arithmetic. -/
theorem runTotals_sums (U L : Nat) (rows : List (Nat × Nat × Nat)) :
    (runTotals U L rows).sumNetAmtsAll = (rows.map (fun r => r.1)).sum % L
      ∧ (runTotals U L rows).sumGrossAmtsAll = (rows.map (fun r => r.2.2)).sum % L
      ∧ (runTotals U L rows).sumNetAmtsWithNonZeroHst
          = ((rowsWithHst rows).map (fun r => r.1)).sum % L
      ∧ (runTotals U L rows).sumHst = ((rowsWithHst rows).map (fun r => r.2.1)).sum % L
      ∧ (runTotals U L rows).sumGrossAmtsWithNonZeroHst
          = ((rowsWithHst rows).map (fun r => r.2.2)).sum % L := by
  induction rows using List.reverseRecOn with
  | nil => simp [runTotals, rowsWithHst]
  | append_singleton rows r ih =>
    obtain ⟨i1, i2, i3, i4, i5⟩ := ih
    rw [runTotals_append, rowsWithHst_append]
    unfold updateTotals
    by_cases h : r.2.1 = 0
    · simp [h, i1, i2, i3, i4, i5]
    · simp [h, i1, i2, i3, i4, i5]

/-- C20 (amended): after the loop over the rows with values
`(net_i, hst_i, gross_i)`, `countInvoicesAll` is the number of rows and
`countInvoicesWithNonZeroHst` the number of rows with `hst_i != 0`, both modulo
the width of `unsigned int`; `sumNetAmtsAll` and `sumGrossAmtsAll` are the sums
over all rows, and `sumNetAmtsWithNonZeroHst`, `sumHst`,
`sumGrossAmtsWithNonZeroHst` the sums over exactly the rows with `hst_i != 0`,
all modulo the width of `unsigned long`. -/
theorem runTotals_split (U L : Nat) (rows : List (Nat × Nat × Nat)) :
    (runTotals U L rows).countInvoicesAll = rows.length % U
      ∧ (runTotals U L rows).sumNetAmtsAll = (rows.map (fun r => r.1)).sum % L
      ∧ (runTotals U L rows).sumGrossAmtsAll = (rows.map (fun r => r.2.2)).sum % L
      ∧ (runTotals U L rows).countInvoicesWithNonZeroHst
          = (rows.filter (fun r => decide (r.2.1 ≠ 0))).length % U
      ∧ (runTotals U L rows).sumNetAmtsWithNonZeroHst
          = ((rows.filter (fun r => decide (r.2.1 ≠ 0))).map (fun r => r.1)).sum % L
      ∧ (runTotals U L rows).sumHst
          = ((rows.filter (fun r => decide (r.2.1 ≠ 0))).map (fun r => r.2.1)).sum % L
      ∧ (runTotals U L rows).sumGrossAmtsWithNonZeroHst
          = ((rows.filter (fun r => decide (r.2.1 ≠ 0))).map (fun r => r.2.2)).sum % L := by
  obtain ⟨c1, c2⟩ := runTotals_counts U L rows
  obtain ⟨s1, s2, s3, s4, s5⟩ := runTotals_sums U L rows
  exact ⟨c1, s1, s2, c2, s3, s4, s5⟩

/-- C20 (counterexample): with a 32-bit `unsigned int`, after 4294967296 rows
`countInvoicesAll` is 0, not the number of rows. -/
theorem runTotals_count_wraps :
    (runTotals 4294967296 18446744073709551616
        (List.replicate 4294967296 (1000, 130, 1130))).countInvoicesAll = 0
    ∧ (List.replicate 4294967296 ((1000 : Nat), (130 : Nat), (1130 : Nat))).length
        = 4294967296 := by
  refine ⟨?_, List.length_replicate _ _⟩
  rw [(runTotals_counts _ _ _).1, List.length_replicate]


/-! ## The group step of the decoder -/

theorem isWhitespace_iff (c : Nat) :
    isWhitespace c = true ↔ (c = 0 ∨ c = 9 ∨ c = 10 ∨ c = 12 ∨ c = 13 ∨ c = 32) := by
  simp [isWhitespace, or_assoc]

/-- The first loop stores the bytes outside the white-space class, in order,
and counts the others. -/
theorem stripLoop_eq (l : List Nat) :
    stripLoop l = (l.filter (fun c => !isWhitespace c), l.countP isWhitespace) := by
  induction l with
  | nil => rfl
  | cons c t ih =>
    by_cases h : c = 0 ∨ c = 9 ∨ c = 10 ∨ c = 12 ∨ c = 13 ∨ c = 32
    · have hw : isWhitespace c = true := (isWhitespace_iff c).2 h
      simp [stripLoop, h, ih, hw]
    · have hw : isWhitespace c = false := by
        rcases hb : isWhitespace c with _ | _
        · rfl
        · exact absurd ((isWhitespace_iff c).1 hb) h
      simp [stripLoop, h, ih, hw]

/-- The white-space removal on a buffer that ends in the marker. -/
theorem stripWhitespace_eod (body : List Nat) :
    stripWhitespace (body ++ [126, 62]) body.length
      = (body.filter (fun c => !isWhitespace c)
          ++ (body ++ [126, 62]).drop (body.filter (fun c => !isWhitespace c)).length,
         (body.filter (fun c => !isWhitespace c)).length) := by
  unfold stripWhitespace
  have htake : (body ++ [126, 62]).take body.length = body := by simp
  simp only [htake, stripLoop_eq, countP_whitespace_eq]
  have hle : (body.filter (fun c => !isWhitespace c)).length ≤ body.length :=
    List.length_filter_le _ _
  rw [List.take_append_of_le_length (le_refl _), List.take_length]

/-- C25: on an input that ends in `~>` with interior `I`, the white-space
removal of `ascii85decode` leaves as working length the number of bytes of `I`
outside the class NUL, TAB, LF, FF, CR, SPACE, and the first that many bytes
of the input buffer are `I` without the bytes of the class, in the order they
have in `I`. The buffer keeps its size, and it is the buffer `ascii85decode`
hands back whenever it returns. -/
theorem stripWhitespace_interior (I : List Nat) :
    (stripWhitespace (I ++ [126, 62]) I.length).2
        = I.countP (fun c => decide (c ∉ [0, 9, 10, 12, 13, 32]))
    ∧ (stripWhitespace (I ++ [126, 62]) I.length).1.take
          (stripWhitespace (I ++ [126, 62]) I.length).2
        = I.filter (fun c => decide (c ∉ [0, 9, 10, 12, 13, 32]))
    ∧ (stripWhitespace (I ++ [126, 62]) I.length).1.length = (I ++ [126, 62]).length
    ∧ ∀ (sc : Bool) (out : List Nat) (cnt : Nat) (r : Ascii85Result),
        ascii85decode sc (I ++ [126, 62]) out cnt = some r →
        r.streamIn = (stripWhitespace (I ++ [126, 62]) I.length).1 := by
  have hfun : (fun c => decide (c ∉ [0, 9, 10, 12, 13, 32]))
      = (fun c => !isWhitespace c) := by
    funext c
    rw [Bool.eq_iff_iff]
    simp [isWhitespace, and_assoc]
  have hle : (I.filter (fun c => !isWhitespace c)).length ≤ I.length :=
    List.length_filter_le _ _
  rw [stripWhitespace_eod, hfun]
  refine ⟨?_, ?_, ?_, ?_⟩
  · simp [List.countP_eq_length_filter]
  · simp
  · simp only [List.length_append, List.length_drop, List.length_cons, List.length_nil]
    omega
  · intro sc out cnt r h
    rw [ascii85decode_eod] at h
    rcases hl : decodeLoop sc (I.filter (fun c => !isWhitespace c)
        ++ (I ++ [126, 62]).drop (I.filter (fun c => !isWhitespace c)).length)
        ((I.filter (fun c => !isWhitespace c)).length : Int) with _ | l
    · rw [hl] at h
      exact absurd h (by simp)
    · rw [hl] at h
      simp only [] at h
      rcases ht : decodeTail sc l.rest l.bytesLeft with _ | ⟨w, c⟩
      · rw [ht] at h
        exact absurd h (by simp)
      · rw [ht] at h
        simp only [Option.some.injEq] at h
        rw [← h]

/-! ## The end test of the FSA and the short inputs of the decoder -/

/-- State 4 steps over zero bytes until the buffer is used up, and then reads
outside it. -/
theorem fsa_s4_zeros (endp : Nat) :
    ∀ (k p : Nat), fsa FsaState.s4 (List.replicate k 0) p endp = none := by
  intro k
  induction k with
  | zero => intro p; rfl
  | succ k ih =>
    intro p
    rw [List.replicate_succ, fsa_s4_skip 0 _ p endp (by decide) (by decide)]
    exact ih (p + 1)

/-- C26 (failing input): in state 2 with the read position at `endp`, the
index one past the content, the FSA of `main` reads the byte at that index.
On a buffer that holds the 3 content bytes `BT\n` and nothing more the read
is outside the buffer; with a zero behind the content the report is empty,
with `($)\n` behind it the report is `$\n`, so the output depends on bytes at
index 3 and beyond. In a run of `main` on the file
`\nstreamGhV3;)Hd%?C>9,(~>endstream`, whose 12 compressed bytes inflate to 240
line feeds and fill the 240 bytes of `inflateOutBuff`, the read is outside
the allocation. -/
theorem fsaRun_reads_at_endp :
    fsaRun [66, 84, 10] 3 = none
    ∧ fsaRun [66, 84, 10, 0] 3 = some []
    ∧ fsaRun [66, 84, 10, 40, 36, 41, 10, 0] 3 = some [36, 10]
    ∧ mainRun (exampleEnv (kwStream ++ [71, 104, 86, 51, 59, 41, 72, 100, 37, 63, 67, 62, 57,
        44, 40] ++ [126, 62] ++ kwEndstream) (List.replicate 240 10)) = none := by
  refine ⟨by decide, by decide, by decide, ?_⟩
  set_option maxRecDepth 100000 in decide

/-- C27 (failing input): on the content `(a)`, in which the only `(` has its
`)`, the FSA of `main` is in state 4 at the end of the content; state 4 has no
end test, steps over every zero byte behind the content and reads outside the
buffer, however many zero bytes there are. So it does in the run of `main` on
the file `\nstreamGhUV;e-#aPAcT.~>endstream`, whose 11 compressed bytes
inflate to `(a)` in a zeroed buffer of 220 bytes. -/
theorem fsaRun_balanced_overrun :
    (∀ k : Nat, fsaRun ([40, 97, 41] ++ List.replicate k 0) 3 = none)
    ∧ mainRun (exampleEnv (kwStream ++ [71, 104, 85, 86, 59, 101, 45, 35, 97, 80, 65, 99, 84,
        46] ++ [126, 62] ++ kwEndstream) [40, 97, 41]) = none := by
  constructor
  · intro k
    unfold fsaRun
    rw [show [40, 97, 41] ++ List.replicate k 0 = 40 :: 97 :: 41 :: List.replicate k 0 from rfl,
      fsa_s2_open _ 0 3 (by decide), fsa_s3_emit 97 _ _ 3 (by decide) (by decide),
      fsa_s3_close, fsa_s4_zeros]
    rfl
  · set_option maxRecDepth 100000 in decide

/-- C28 (failing input): on a buffer of length 1, such as the slice `X` that
the scan of `main` copies from the file `\nstreamXendstream`, and on a buffer
of length 0, the end-of-data test of `ascii85decode` reads the byte at index
`inLen - 2`, which is outside the buffer. -/
theorem ascii85decode_short_input_reads_outside :
    mainScan (kwStream ++ [88] ++ kwEndstream) = ScanResult.slice 7 7 [88] 0
    ∧ (∀ (sc : Bool) (c : Nat) (out : List Nat) (cnt : Nat),
        ascii85decode sc [c] out cnt = none)
    ∧ (∀ (sc : Bool) (out : List Nat) (cnt : Nat), ascii85decode sc [] out cnt = none)
    ∧ (∀ sc : Bool, mainDecode sc [88] 0 = none) := by
  refine ⟨by decide, ?_, ?_, ?_⟩
  · intro sc c out cnt; rfl
  · intro sc out cnt; rfl
  · intro sc; rfl

/-! ## The decoder returns on every buffer that ends in the marker -/

/-- The loop of `ascii85decode` leaves through its exit whenever the buffer in
front of it ends in the marker and `bytesLeft` counts no more than the bytes
before the marker; it leaves with less than five bytes to read, all of them in
the buffer. -/
theorem decodeLoop_total (sc : Bool) (n : Nat) :
    ∀ (R : List Nat) (bl : Int), R.length = n → bl ≤ (R.length : Int) →
      ∃ r, decodeLoop sc (R ++ [126, 62]) bl = some r ∧ r.bytesLeft < 5
        ∧ r.bytesLeft ≤ (r.rest.length : Int) := by
  induction n using Nat.strong_induction_on with
  | _ n ih =>
    intro R bl hn hbl
    rcases R with _ | ⟨c0, t⟩
    · -- the marker is next: `~` is not `z` and no five bytes are left
      simp only [List.length_nil, Nat.cast_zero] at hbl
      refine ⟨_, decodeLoop_stop sc 126 [62] bl (by decide) (by omega), by simp; omega,
        by simp; omega⟩
    · by_cases hz : c0 = 122
      · subst hz
        simp only [List.length_cons, Nat.cast_add, Nat.cast_one] at hbl
        obtain ⟨r, hr, h5, hle⟩ := ih t.length (by simp at hn; omega) t (bl - 1) rfl (by omega)
        refine ⟨{ r with written := [0, 0, 0, 0] ++ r.written, count := r.count + 4 }, ?_, h5, hle⟩
        rw [List.cons_append, decodeLoop_z, hr]
        rfl
      · by_cases h5 : 5 ≤ bl
        · simp only [List.length_cons, Nat.cast_add, Nat.cast_one] at hbl
          rcases t with _ | ⟨c1, _ | ⟨c2, _ | ⟨c3, _ | ⟨c4, t5⟩⟩⟩⟩
          · simp at hbl; omega
          · simp at hbl; omega
          · simp at hbl; omega
          · simp at hbl; omega
          · simp only [List.length_cons, Nat.cast_add, Nat.cast_one] at hbl
            obtain ⟨r, hr, h5', hle⟩ := ih t5.length (by simp at hn; omega) t5 (bl - 5) rfl
              (by omega)
            refine ⟨{ r with written := decodeGroup sc c0 c1 c2 c3 c4 ++ r.written,
                             count := r.count + 4 }, ?_, h5', hle⟩
            simp only [List.cons_append]
            rw [decodeLoop_group sc c0 c1 c2 c3 c4 _ bl hz h5, hr]
            rfl
        · refine ⟨{ written := [], count := 0, rest := c0 :: (t ++ [126, 62]), bytesLeft := bl },
            by rw [List.cons_append]; exact decodeLoop_stop sc c0 (t ++ [126, 62]) bl hz (by omega),
            by simp only []; omega, ?_⟩
          simp only [List.length_cons, List.length_append, List.length_nil, Nat.cast_add,
            Nat.cast_one] at hbl ⊢
          push_cast
          omega

/-- The final short group is always decoded when fewer than five bytes are
left and they are in the buffer. -/
theorem decodeTail_total (sc : Bool) (rest : List Nat) (bl : Int) (h5 : bl < 5)
    (hle : bl ≤ (rest.length : Int)) :
    ∃ w c, decodeTail sc rest bl = some (w, c) := by
  unfold decodeTail
  by_cases h0 : bl = 0
  · exact ⟨[], 0, by simp [h0]⟩
  · have hn : ¬ rest.length < bl.toNat := by omega
    have hlen : (rest.take bl.toNat ++ List.replicate (5 - bl.toNat) 117).length = 5 := by
      simp only [List.length_append, List.length_take, List.length_replicate]
      omega
    simp only [h0, if_false, shortGroup, hn]
    generalize rest.take bl.toNat ++ List.replicate (5 - bl.toNat) 117 = g at hlen
    rcases g with _ | ⟨c0, _ | ⟨c1, _ | ⟨c2, _ | ⟨c3, _ | ⟨c4, _ | ⟨c5, g⟩⟩⟩⟩⟩⟩ <;>
      simp at hlen
    simp only []
    split_ifs <;> exact ⟨_, _, rfl⟩

/-- On a buffer that ends in the marker `ascii85decode` returns, with return
code 0. -/
theorem ascii85decode_eod_total (sc : Bool) (body out : List Nat) (cnt : Nat) :
    ∃ r, ascii85decode sc (body ++ [126, 62]) out cnt = some r ∧ r.rc = 0 := by
  rw [ascii85decode_eod]
  have hle : (body.filter (fun c => !isWhitespace c)).length ≤ body.length :=
    List.length_filter_le _ _
  have hshape : body.filter (fun c => !isWhitespace c)
      ++ (body ++ [126, 62]).drop (body.filter (fun c => !isWhitespace c)).length
      = (body.filter (fun c => !isWhitespace c)
          ++ body.drop (body.filter (fun c => !isWhitespace c)).length) ++ [126, 62] := by
    rw [List.drop_append_of_le_length hle, List.append_assoc]
  rw [hshape]
  obtain ⟨l, hl, h5, hlen⟩ := decodeLoop_total sc _ (body.filter (fun c => !isWhitespace c)
      ++ body.drop (body.filter (fun c => !isWhitespace c)).length)
      ((body.filter (fun c => !isWhitespace c)).length : Int) rfl
      (by simp only [List.length_append]; push_cast; omega)
  obtain ⟨w, c, ht⟩ := decodeTail_total sc l.rest l.bytesLeft h5 hlen
  rw [hl]
  simp only [ht]
  exact ⟨_, rfl, rfl⟩

/-- On a buffer of at least two bytes that does not end in the marker
`ascii85decode` returns 1. -/
theorem ascii85decode_no_eod_rc (sc : Bool) (s out : List Nat) (cnt : Nat)
    (hlen : 2 ≤ s.length) (h : ¬ [126, 62] <:+ s) :
    ∃ r, ascii85decode sc s out cnt = some r ∧ r.rc = 1 := by
  obtain ⟨body, a, b, rfl⟩ := exists_eod_split s hlen
  have hab : a ≠ 126 ∨ b ≠ 62 := by
    by_contra hc
    push_neg at hc
    apply h
    rw [hc.1, hc.2]
    exact List.suffix_append body [126, 62]
  have hl : ¬ (body ++ [a, b]).length < 2 := by simp
  refine ⟨{ rc := 1, streamIn := body ++ [a, b], streamOut := out, actualOutCount := cnt },
    ?_, rfl⟩
  unfold ascii85decode
  simp only [hl, if_false, getD_eod_fst, getD_eod_snd]
  simp [hab]


/-- C30: on every input of length at least 2 `ascii85decode` returns; it
returns 0 exactly when the last two bytes are `~>`, whatever the bytes before
them, and the error code 1 of the missing marker exactly when they are not. -/
theorem ascii85decode_rc_iff_marker (sc : Bool) (s out : List Nat) (cnt : Nat)
    (hlen : 2 ≤ s.length) :
    ∃ r, ascii85decode sc s out cnt = some r
      ∧ (r.rc = 0 ↔ [126, 62] <:+ s) ∧ (r.rc = 1 ↔ ¬ [126, 62] <:+ s) := by
  by_cases hs : [126, 62] <:+ s
  · obtain ⟨body, rfl⟩ := hs
    obtain ⟨r, hr, h0⟩ := ascii85decode_eod_total sc body out cnt
    refine ⟨r, hr, ?_, ?_⟩
    · simp [h0]
    · simp [h0]
  · obtain ⟨r, hr, h1⟩ := ascii85decode_no_eod_rc sc s out cnt hlen hs
    refine ⟨r, hr, ?_, ?_⟩
    · simp [h1, hs]
    · simp [h1, hs]

theorem ascii85decode_rc_iff_marker_witness :
    2 ≤ [200, 122, 33, 9, 5, 126, 62].length
    ∧ ∃ r, ascii85decode true [200, 122, 33, 9, 5, 126, 62] [] 0 = some r
      ∧ (r.rc = 0 ↔ [126, 62] <:+ [200, 122, 33, 9, 5, 126, 62])
      ∧ (r.rc = 1 ↔ ¬ [126, 62] <:+ [200, 122, 33, 9, 5, 126, 62]) :=
  ⟨by decide, ascii85decode_rc_iff_marker true [200, 122, 33, 9, 5, 126, 62] [] 0 (by decide)⟩


/-! ## The conversion of an amount to cents -/

theorem shiftLoop_text (junk : List Nat) :
    ∀ post : List Nat, (∀ c ∈ post, c ≠ 0) →
      shiftLoop (post ++ 0 :: junk) = some (post ++ 0 :: 0 :: junk)
  | [], _ => by simp [shiftLoop]
  | c :: post, h => by
    have hc : c ≠ 0 := h c (by simp)
    have ih := shiftLoop_text junk post (fun x hx => h x (by simp [hx]))
    simp [shiftLoop, hc, ih]

/-- The decimal point removal takes the first point out of the C string and
leaves the bytes behind its NUL as they are. -/
theorem removePoint_text (post junk : List Nat) (hpost : ∀ c ∈ post, c ≠ 0) :
    ∀ pre : List Nat, (∀ c ∈ pre, c ≠ 46) →
      removePoint (pre ++ 46 :: (post ++ 0 :: junk)) = some (pre ++ (post ++ 0 :: 0 :: junk))
  | [], _ => by
    simp only [List.nil_append, removePoint, if_true]
    exact shiftLoop_text junk post hpost
  | c :: pre, h => by
    have hc : c ≠ 46 := h c (by simp)
    have ih := removePoint_text post junk hpost pre (fun x hx => h x (by simp [hx]))
    simp only [List.cons_append, removePoint, hc, if_false]
    rw [show pre.append (46 :: (post ++ 0 :: junk)) = pre ++ 46 :: (post ++ 0 :: junk) from rfl, ih]
    rfl

theorem digitsValue_append_one (ds : List Nat) (c : Nat) :
    digitsValue (ds ++ [c]) = digitsValue ds * 10 + (c - 48) := by
  simp [digitsValue, List.foldl_append]

/-- The value read from a run of digits is the number they denote in base
10. -/
theorem digitsValue_eq_ofDigits (ds : List Nat) :
    digitsValue ds = Nat.ofDigits 10 ((ds.map (fun c => c - 48)).reverse) := by
  induction ds using List.reverseRecOn with
  | nil => rfl
  | append_singleton ds c ih =>
    rw [digitsValue_append_one, ih]
    simp [Nat.ofDigits_cons]
    ring

theorem digitsValue_append_two (ds : List Nat) (a b : Nat) :
    digitsValue (ds ++ [a, b]) = 100 * digitsValue ds + digitsValue [a, b] := by
  have h : ds ++ [a, b] = (ds ++ [a]) ++ [b] := by simp
  rw [h, digitsValue_append_one, digitsValue_append_one]
  simp only [digitsValue, List.foldl_cons, List.foldl_nil]
  ring

/-- On a run of digits that a NUL ends `strtoul` reads the whole run and
leaves `q` at the NUL. -/
theorem strtoul_digits (ulongMax : Nat) (ds junk : List Nat) (hne : ds ≠ [])
    (hd : ∀ c ∈ ds, 48 ≤ c ∧ c ≤ 57) (hfit : digitsValue ds ≤ ulongMax) :
    strtoul ulongMax (ds ++ 0 :: junk)
      = { value := digitsValue ds, endptr := 0 :: junk, erange := false } := by
  obtain ⟨c, t, rfl⟩ := List.exists_cons_of_ne_nil hne
  have hc := hd c (by simp)
  have hsp : isSpaceC c = false := by
    simp only [isSpaceC, Bool.or_eq_false_iff, beq_eq_false_iff_ne, Bool.and_eq_false_imp,
      decide_eq_true_eq, decide_eq_false_iff_not]
    omega
  have hdig : ∀ x ∈ c :: t, isDigitC x = true := by
    intro x hx
    have := hd x hx
    simp [isDigitC, this.1, this.2]
  have h0 : isDigitC 0 = false := by decide
  have htw : (c :: t ++ 0 :: junk).takeWhile isDigitC = c :: t := by
    rw [List.takeWhile_append_of_pos hdig]
    simp [List.takeWhile, h0]
  have hdw : (c :: t ++ 0 :: junk).dropWhile isDigitC = 0 :: junk := by
    rw [List.dropWhile_append_of_pos hdig]
    simp [List.dropWhile, h0]
  have h43 : c ≠ 43 := by omega
  have h45 : c ≠ 45 := by omega
  have hgt : ¬ digitsValue (c :: t) > ulongMax := by omega
  unfold strtoul
  have hds : (c :: t ++ 0 :: junk).dropWhile isSpaceC = c :: t ++ 0 :: junk := by
    simp [List.dropWhile, hsp]
  have hsign : (some c == some 43 || some c == some 45) = false := by simp [h43, h45]
  simp only [hds]
  simp only [List.cons_append, List.head?_cons, hsign, Bool.false_eq_true, if_false]
  rw [← List.cons_append, htw, hdw]
  simp [hgt, h45]


/-- C21: an amount field `D.dd`, `D` a non-empty run of decimal digits and `dd`
two decimal digits, held as a C string in its array (whatever bytes follow the
NUL), is converted by the decimal point removal and `strtoul` to
100 * value(D) + value(dd), with no format error, when that value is not
above `ULONG_MAX`. (The proof does not need `D` to be non-empty.) -/
theorem convertAmount_cents (ulongMax : Nat) (D dd junk : List Nat)
    (hDd : ∀ c ∈ D, 48 ≤ c ∧ c ≤ 57)
    (hdd : dd.length = 2) (hddd : ∀ c ∈ dd, 48 ≤ c ∧ c ≤ 57)
    (hfit : 100 * Nat.ofDigits 10 ((D.map (fun c => c - 48)).reverse)
        + Nat.ofDigits 10 ((dd.map (fun c => c - 48)).reverse) ≤ ulongMax) :
    convertAmount ulongMax (D ++ 46 :: (dd ++ 0 :: junk))
      = some (Amount.cents (100 * Nat.ofDigits 10 ((D.map (fun c => c - 48)).reverse)
          + Nat.ofDigits 10 ((dd.map (fun c => c - 48)).reverse))) := by
  rw [← digitsValue_eq_ofDigits, ← digitsValue_eq_ofDigits] at hfit ⊢
  obtain ⟨a, b, rfl⟩ : ∃ a b, dd = [a, b] := by
    rcases dd with _ | ⟨a, _ | ⟨b, _ | ⟨c, t⟩⟩⟩ <;> simp at hdd
    exact ⟨a, b, rfl⟩
  have hpre : ∀ c ∈ D, c ≠ 46 := fun c hc => by have := hDd c hc; omega
  have hpost : ∀ c ∈ [a, b], c ≠ 0 := fun c hc => by have := hddd c hc; omega
  have hall : ∀ c ∈ D ++ [a, b], 48 ≤ c ∧ c ≤ 57 := by
    intro c hc
    rcases List.mem_append.1 hc with h | h
    · exact hDd c h
    · exact hddd c h
  have hne : D ++ [a, b] ≠ [] := by simp
  have hv := digitsValue_append_two D a b
  have hs := strtoul_digits ulongMax (D ++ [a, b]) (0 :: junk) hne hall (by omega)
  unfold convertAmount
  rw [removePoint_text [a, b] junk hpost D hpre]
  simp only [parseAmount]
  rw [show D ++ ([a, b] ++ 0 :: 0 :: junk) = (D ++ [a, b]) ++ 0 :: 0 :: junk by simp, hs, hv]
  simp

theorem convertAmount_cents_witness :
    convertAmount 18446744073709551615 [49, 50, 46, 51, 52, 0, 7, 7]
      = some (Amount.cents 1234) := by
  have h := convertAmount_cents 18446744073709551615 [49, 50] [51, 52] [7, 7]
    (by decide) rfl (by decide) (by norm_num [Nat.ofDigits])
  simpa [Nat.ofDigits] using h

/-! ## Lemmas on the searches and loops of rpt2pgm -/

/-- The search returns the first index at which the needle occurs when no NUL
lies before it. -/
theorem strstr_first (needle : List Nat) (hne : needle ≠ []) :
    ∀ (i : Nat) (hay : List Nat), needle <+: hay.drop i →
      (∀ j, j < i → ¬ needle <+: hay.drop j) → (∀ j, j < i → hay[j]? ≠ some 0) →
      strstr hay needle = some i
  | 0, hay, hocc, _, _ => by
    rcases hay with _ | ⟨c, t⟩
    · simp at hocc
      exact absurd hocc hne
    · exact strstr_here needle c t (by simpa using hocc)
  | i + 1, hay, hocc, hfirst, hnul => by
    rcases hay with _ | ⟨c, t⟩
    · simp at hocc
      exact absurd hocc hne
    · have hp : ¬ needle <+: c :: t := by simpa using hfirst 0 (by omega)
      have hc : c ≠ 0 := by simpa using hnul 0 (by omega)
      have ih := strstr_first needle hne i t (by simpa using hocc)
        (fun j hj => by simpa using hfirst (j + 1) (by omega))
        (fun j hj => by simpa using hnul (j + 1) (by omega))
      rw [strstr.eq_def]
      simp only [List.isPrefixOf_iff_prefix, hp, hc, if_false, ih]

/-- The search of rpt2pgm finds the first occurrence of the anchor at or
behind `startp` when no NUL lies between `startp` and it. -/
theorem findFrom_first (buf : List Nat) (startp x : Nat) (needle : List Nat)
    (hne : needle ≠ []) (hsx : startp ≤ x) (hocc : needle <+: buf.drop x)
    (hfirst : ∀ y, y < x → startp ≤ y → ¬ needle <+: buf.drop y)
    (hnul : ∀ y, y < x → startp ≤ y → buf[y]? ≠ some 0) :
    findFrom buf startp needle = some x := by
  unfold findFrom
  rw [strstr_first needle hne (x - startp) (buf.drop startp)]
  · simp; omega
  · rw [List.drop_drop]
    have : startp + (x - startp) = x := by omega
    rw [this]; exact hocc
  · intro j hj
    rw [List.drop_drop]
    exact hfirst (startp + j) (by omega) (by omega)
  · intro j hj
    rw [List.getElem?_drop]
    exact hnul (startp + j) (by omega) (by omega)

/-- What the search of rpt2pgm returns is an occurrence of the anchor at or
behind `startp`. -/
theorem findFrom_some (buf : List Nat) (startp x : Nat) (needle : List Nat)
    (h : findFrom buf startp needle = some x) : startp ≤ x ∧ needle <+: buf.drop x := by
  unfold findFrom at h
  rcases hs : strstr (buf.drop startp) needle with _ | i
  · rw [hs] at h; simp at h
  · rw [hs] at h
    simp only [Option.map_some', Option.some.injEq] at h
    subst h
    refine ⟨by omega, ?_⟩
    have := strstr_some needle _ i hs
    rwa [List.drop_drop] at this

theorem copyUntil_text (delim : Nat) (rest : List Nat) :
    ∀ t : List Nat, (∀ c ∈ t, c ≠ delim) →
      copyUntil delim (t ++ delim :: rest) = some t
  | [], _ => by simp [copyUntil]
  | c :: t, h => by
    have hc : c ≠ delim := h c (by simp)
    have ih := copyUntil_text delim rest t (fun x hx => h x (by simp [hx]))
    simp [copyUntil, hc, ih]

theorem backLoop_line (rest : List Nat) :
    ∀ l : List Nat, (∀ c ∈ l, c ≠ 10) → backLoop (l ++ 10 :: rest) = some l.length
  | [], _ => by simp [backLoop]
  | c :: l, h => by
    have hc : c ≠ 10 := h c (by simp)
    have ih := backLoop_line rest l (fun x hx => h x (by simp [hx]))
    simp [backLoop, hc, ih]

theorem skipLine_line (rest : List Nat) :
    ∀ l : List Nat, (∀ c ∈ l, c ≠ 10) → skipLine (l ++ 10 :: rest) = some rest
  | [], _ => by simp [skipLine]
  | c :: l, h => by
    have hc : c ≠ 10 := h c (by simp)
    have ih := skipLine_line rest l (fun x hx => h x (by simp [hx]))
    simp [skipLine, hc, ih]

/-- The bounded copy takes the line up to its line feed, or its first `j`
bytes when it is longer. -/
theorem copyBounded_line (rest : List Nat) :
    ∀ (j : Nat) (l : List Nat), (∀ c ∈ l, c ≠ 10) →
      copyBounded j (l ++ 10 :: rest) = some (l.take j)
  | 0, l, _ => by simp [copyBounded]
  | j + 1, [], _ => by simp [copyBounded]
  | j + 1, c :: l, h => by
    have hc : c ≠ 10 := h c (by simp)
    have ih := copyBounded_line rest j l (fun x hx => h x (by simp [hx]))
    simp [copyBounded, hc, ih]

/-- The bounded copy never takes more than `j` bytes. -/
theorem copyBounded_length :
    ∀ (j : Nat) (l r : List Nat), copyBounded j l = some r → r.length ≤ j
  | 0, l, r, h => by
    simp [copyBounded] at h
    subst h; simp
  | j + 1, [], r, h => by simp [copyBounded] at h
  | j + 1, c :: l, r, h => by
    by_cases hc : c = 10
    · simp [copyBounded, hc] at h
      subst h; simp
    · simp only [copyBounded, hc, if_false] at h
      rcases hr : copyBounded j l with _ | r2
      · rw [hr] at h; simp at h
      · rw [hr] at h
        simp only [Option.map_some', Option.some.injEq] at h
        subst h
        have := copyBounded_length j l r2 hr
        simp; omega

theorem cString_text (t : List Nat) (rest : List Nat) (h : ∀ c ∈ t, c ≠ 0) :
    cString (t ++ 0 :: rest) = t := by
  unfold cString
  rw [List.takeWhile_append_of_pos (by intro c hc; simp [h c hc])]
  simp [List.takeWhile]

theorem thenField_ok (r : Option Extract) (k : List Nat → Option RowResult)
    (row : CsvRow) (h : thenField r k = some (RowResult.row row)) :
    ∃ w, r = some (Extract.text w) ∧ k (cString w) = some (RowResult.row row) := by
  rcases r with _ | ⟨s | w⟩
  · simp [thenField] at h
  · simp [thenField] at h
  · exact ⟨w, rfl, h⟩

/-- The fields of a row that `invoiceRow` returns are the strings the field
extractions left in their arrays. -/
theorem invoiceRow_fields (buf : List Nat) (startp endp : Nat) (row : CsvRow)
    (h : invoiceRow buf startp endp = some (RowResult.row row)) :
    (∃ w, taxPointDateField buf startp endp = some (Extract.text w)
        ∧ row.taxPointDate = cString w)
    ∧ (∃ w, restaurantNameField buf startp endp = some (Extract.text w)
        ∧ row.restaurantName = cString w)
    ∧ (∃ w, hstAmtField buf startp endp = some (Extract.text w) ∧ row.hstAmt = cString w) := by
  unfold invoiceRow at h
  obtain ⟨w1, _, h⟩ := thenField_ok _ _ row h
  obtain ⟨w2, _, h⟩ := thenField_ok _ _ row h
  obtain ⟨w3, h3, h⟩ := thenField_ok _ _ row h
  obtain ⟨w4, h4, h⟩ := thenField_ok _ _ row h
  obtain ⟨w5, _, h⟩ := thenField_ok _ _ row h
  obtain ⟨w6, _, h⟩ := thenField_ok _ _ row h
  obtain ⟨w7, _, h⟩ := thenField_ok _ _ row h
  obtain ⟨w8, h8, h⟩ := thenField_ok _ _ row h
  simp only [Option.some.injEq, RowResult.row.injEq] at h
  subst h
  exact ⟨⟨w3, h3, rfl⟩, ⟨w4, h4, rfl⟩, ⟨w8, h8, rfl⟩⟩

/-! ## The optional and the bounded fields of rpt2pgm -/

/-- Without an occurrence of the anchor that starts in the invoice before its
last byte, the test `x && (x<endp)` fails. -/
theorem findFrom_absent (buf : List Nat) (startp endp : Nat) (needle : List Nat)
    (habs : ∀ y, y < endp → startp ≤ y → ¬ needle <+: buf.drop y) :
    findFrom buf startp needle = none
      ∨ ∃ x, findFrom buf startp needle = some x ∧ ¬ x < endp := by
  rcases h : findFrom buf startp needle with _ | x
  · exact Or.inl rfl
  · refine Or.inr ⟨x, rfl, fun hlt => ?_⟩
    obtain ⟨hsx, hocc⟩ := findFrom_some buf startp x needle h
    exact habs x hlt hsx hocc

theorem hstAmtField_absent (buf : List Nat) (startp endp : Nat)
    (habs : ∀ y, y < endp → startp ≤ y → ¬ kwTotalHst <+: buf.drop y) :
    hstAmtField buf startp endp = some (Extract.text (zeroAmount ++ [0])) := by
  unfold hstAmtField
  rcases findFrom_absent buf startp endp kwTotalHst habs with h | ⟨x, h, hx⟩
  · rw [h]
  · rw [h]
    simp only [hx, if_false]

theorem hstAmtField_present (buf : List Nat) (startp endp x : Nat) (text rest : List Nat)
    (hsx : startp ≤ x) (hxe : x < endp) (hocc : kwTotalHst <+: buf.drop x)
    (hfirst : ∀ y, y < x → startp ≤ y → ¬ kwTotalHst <+: buf.drop y)
    (hnul : ∀ y, y < x → startp ≤ y → buf[y]? ≠ some 0)
    (htext : buf.drop (x + kwTotalHst.length) = text ++ 32 :: rest)
    (hsp : ∀ c ∈ text, c ≠ 32 ∧ c ≠ 0) (hlen : text.length ≤ 9) :
    hstAmtField buf startp endp = some (Extract.text (text ++ [0])) := by
  unfold hstAmtField
  rw [findFrom_first buf startp x kwTotalHst (by decide) hsx hocc hfirst hnul]
  simp only [hxe, if_true, htext]
  rw [copyUntil_text 32 rest text (fun c hc => (hsp c hc).1)]
  simp [stored, hlen]

theorem taxPointDateField_absent (buf : List Nat) (startp endp : Nat)
    (habs : ∀ y, y < endp → startp ≤ y → ¬ kwDelivery <+: buf.drop y) :
    taxPointDateField buf startp endp = some (Extract.text (notSpecified ++ [0])) := by
  unfold taxPointDateField
  rcases findFrom_absent buf startp endp kwDelivery habs with h | ⟨x, h, hx⟩
  · rw [h]
  · rw [h]
    simp only [hx, if_false]

/-- The bytes stored into `taxPointDate` when the anchor is found and the line
above it is `line`. -/
theorem taxPointDateField_line (buf : List Nat) (startp endp x : Nat) (A line : List Nat)
    (hsx : startp ≤ x) (hxe : x < endp) (hocc : kwDelivery <+: buf.drop x)
    (hfirst : ∀ y, y < x → startp ≤ y → ¬ kwDelivery <+: buf.drop y)
    (hnul : ∀ y, y < x → startp ≤ y → buf[y]? ≠ some 0)
    (hline : buf.take x = A ++ 10 :: line) (hnl : ∀ c ∈ line, c ≠ 10) :
    taxPointDateField buf startp endp
      = (stored 20 ((34 :: line).dropLast ++ [34, 0])).map Extract.text := by
  obtain ⟨r, hr⟩ := hocc
  have hxl : x ≤ buf.length := by
    by_contra hc
    have : buf.drop x = [] := List.drop_eq_nil_of_le (by omega)
    rw [this] at hr
    simp [kwDelivery] at hr
  have hlen : x = A.length + 1 + line.length := by
    have := congrArg List.length hline
    simp only [List.length_take, List.length_append, List.length_cons] at this
    omega
  have hbuf : buf = (A ++ [10]) ++ (line ++ buf.drop x) := by
    conv_lhs => rw [← List.take_append_drop x buf, hline]
    simp
  have hrev : (buf.take x).reverse = line.reverse ++ 10 :: A.reverse := by
    rw [hline]; simp
  have hdrop : buf.drop (x - line.length) = line ++ 10 :: (kwDelivery.tail ++ r) := by
    have h1 : x - line.length = (A ++ [10]).length := by simp; omega
    rw [h1]
    conv_lhs => rw [hbuf]
    rw [List.drop_left, ← hr]
    rfl
  unfold taxPointDateField
  rw [findFrom_first buf startp x kwDelivery (by decide) hsx ⟨r, hr⟩ hfirst hnul]
  simp only [hxe, if_true, hrev]
  rw [backLoop_line A.reverse line.reverse (fun c hc => hnl c (List.mem_reverse.1 hc))]
  simp only [List.length_reverse, hdrop]
  rw [copyUntil_text 10 _ line hnl]

theorem restaurantNameField_line (buf : List Nat) (startp endp x : Nat)
    (tl line rest : List Nat)
    (hsx : startp ≤ x) (hxe : x ≤ endp) (hocc : kwUber <+: buf.drop x)
    (hfirst : ∀ y, y < x → startp ≤ y → ¬ kwUber <+: buf.drop y)
    (hnul : ∀ y, y < x → startp ≤ y → buf[y]? ≠ some 0)
    (hshape : buf.drop (x + kwUber.length) = tl ++ 10 :: (line ++ 10 :: rest))
    (htl : ∀ c ∈ tl, c ≠ 10) (hnl : ∀ c ∈ line, c ≠ 10) :
    restaurantNameField buf startp endp
      = some (Extract.text (34 :: line.take 50 ++ [34, 0])) := by
  obtain ⟨r, hr⟩ := hocc
  have hr2 : r = tl ++ 10 :: (line ++ 10 :: rest) := by
    rw [← hshape, ← List.drop_drop, ← hr]
    simp [kwUber]
  have hd1 : buf.drop (x + 1) = (kwUber.tail ++ tl) ++ 10 :: (line ++ 10 :: rest) := by
    rw [← List.drop_drop, ← hr, hr2]
    simp [kwUber]
  have hk : ∀ c ∈ kwUber.tail ++ tl, c ≠ 10 := by
    intro c hc
    rcases List.mem_append.1 hc with h | h
    · have hd : ∀ c ∈ kwUber.tail, c ≠ 10 := by decide
      exact hd c h
    · exact htl c h
  have hx : ¬ x > endp := by omega
  unfold restaurantNameField
  rw [findFrom_first buf startp x kwUber (by decide) hsx ⟨r, hr⟩ hfirst hnul]
  simp only [hx, if_false, hd1]
  rw [skipLine_line _ _ hk]
  simp only [RESTAURANTMAX]
  rw [copyBounded_line rest 50 line hnl]

/-- C22 (amended): the HST field. When the anchor `\nTotal HST Amount \n` does
not occur in the invoice before its last byte, the string left in `hstAmt` is
`0.00`. When it does, `x` being its first occurrence from the start of the
invoice (no NUL before it), and the text behind it up to the next space has at
most 9 bytes and no NUL, the string left in `hstAmt` is that text. In both
cases it is the HST field of every row `invoiceRow` returns. -/
theorem hstAmtField_value (buf : List Nat) (startp endp : Nat) :
    ((∀ y, y < endp → startp ≤ y → ¬ kwTotalHst <+: buf.drop y) →
      (∃ w, hstAmtField buf startp endp = some (Extract.text w) ∧ cString w = zeroAmount)
      ∧ ∀ row, invoiceRow buf startp endp = some (RowResult.row row) →
          row.hstAmt = zeroAmount)
    ∧ ∀ (x : Nat) (text rest : List Nat), startp ≤ x → x < endp →
        kwTotalHst <+: buf.drop x →
        (∀ y, y < x → startp ≤ y → ¬ kwTotalHst <+: buf.drop y) →
        (∀ y, y < x → startp ≤ y → buf[y]? ≠ some 0) →
        buf.drop (x + kwTotalHst.length) = text ++ 32 :: rest →
        (∀ c ∈ text, c ≠ 32 ∧ c ≠ 0) → text.length ≤ 9 →
        (∃ w, hstAmtField buf startp endp = some (Extract.text w) ∧ cString w = text)
        ∧ ∀ row, invoiceRow buf startp endp = some (RowResult.row row) →
            row.hstAmt = text := by
  have hrow : ∀ w s, hstAmtField buf startp endp = some (Extract.text w) → cString w = s →
      ∀ row, invoiceRow buf startp endp = some (RowResult.row row) → row.hstAmt = s := by
    intro w s hw hs row h
    obtain ⟨_, _, w2, hw2, hr⟩ := invoiceRow_fields buf startp endp row h
    rw [hw] at hw2
    simp only [Option.some.injEq, Extract.text.injEq] at hw2
    rw [hr, ← hw2, hs]
  constructor
  · intro habs
    have h := hstAmtField_absent buf startp endp habs
    have hc : cString (zeroAmount ++ [0]) = zeroAmount := by decide
    exact ⟨⟨_, h, hc⟩, hrow _ _ h hc⟩
  · intro x text rest hsx hxe hocc hfirst hnul htext hsp hlen
    have h := hstAmtField_present buf startp endp x text rest hsx hxe hocc hfirst hnul htext
      hsp hlen
    have hc : cString (text ++ [0]) = text := cString_text text [] (fun c hc => (hsp c hc).2)
    exact ⟨⟨_, h, hc⟩, hrow _ _ h hc⟩

theorem hstAmtField_value_witness :
    (∃ w, hstAmtField (exampleInvoice [] []) 4 151 = some (Extract.text w)
        ∧ cString w = zeroAmount)
    ∧ (∃ w, hstAmtField (exampleInvoice exampleDateLines exampleHstLines) 4 199
          = some (Extract.text w) ∧ cString w = [48, 46, 49, 51]) :=
  ⟨((hstAmtField_value (exampleInvoice [] []) 4 151).1
      (by set_option maxRecDepth 100000 in decide)).1,
   ((hstAmtField_value (exampleInvoice exampleDateLines exampleHstLines) 4 199).2 156
      [48, 46, 49, 51] ((exampleInvoice exampleDateLines exampleHstLines).drop 180)
      (by decide) (by decide) (by decide)
      (by set_option maxRecDepth 100000 in decide)
      (by set_option maxRecDepth 100000 in decide)
      (by decide) (by decide) (by decide)).1⟩

/-- C22 (counterexample): an invoice with all the mandatory fields in which the
text behind the anchor `\nTotal HST Amount \n`, `1234567.89`, has 10 bytes up
to the next space: the copy stores the NUL outside the 10 bytes of `hstAmt`,
so neither the field nor the row is defined; with `0.13` in its place the row
is written. -/
theorem hstAmtField_long_counterexample :
    kwTotalHst <+: (exampleInvoice [] ([84, 111, 116, 97, 108, 32, 72, 83, 84, 32, 65, 109,
        111, 117, 110, 116, 32, 10, 49, 50, 51, 52, 53, 54, 55, 46, 56, 57, 32, 10])).drop 132
    ∧ hstAmtField (exampleInvoice [] [84, 111, 116, 97, 108, 32, 72, 83, 84, 32, 65, 109,
        111, 117, 110, 116, 32, 10, 49, 50, 51, 52, 53, 54, 55, 46, 56, 57, 32, 10]) 4 181 = none
    ∧ invoiceRow (exampleInvoice [] [84, 111, 116, 97, 108, 32, 72, 83, 84, 32, 65, 109,
        111, 117, 110, 116, 32, 10, 49, 50, 51, 52, 53, 54, 55, 46, 56, 57, 32, 10]) 4 181 = none
    ∧ invoiceRow (exampleInvoice [] exampleHstLines) 4 175
      = some (RowResult.row
          { invNum := [65, 49], invDate := [34, 77, 97, 114, 32, 49, 34],
            taxPointDate := notSpecified, restaurantName := [34, 74, 111, 101, 34],
            gstNumber := [49, 50], netAmt := [49, 46, 48, 48], hstAmt := [48, 46, 49, 51],
            grossAmt := [49, 46, 49, 51] }) := by
  refine ⟨?_, ?_, ?_, ?_⟩ <;> set_option maxRecDepth 100000 in decide

/-- C23 (amended): the tax point date field. When no `\nDelivery service`
occurs in the invoice before its last byte, the string left in `taxPointDate`
is the unquoted `notSpecified`. When it does, `x` being its first occurrence
from the start of the invoice (no NUL before it), and the line above it has
between 1 and 18 bytes, none of them NUL, the string left is that line without
its last byte between double quotes. In both cases it is the tax point date
field of every row `invoiceRow` returns. -/
theorem taxPointDateField_value (buf : List Nat) (startp endp : Nat) :
    ((∀ y, y < endp → startp ≤ y → ¬ kwDelivery <+: buf.drop y) →
      (∃ w, taxPointDateField buf startp endp = some (Extract.text w)
          ∧ cString w = notSpecified)
      ∧ ∀ row, invoiceRow buf startp endp = some (RowResult.row row) →
          row.taxPointDate = notSpecified)
    ∧ ∀ (x : Nat) (A line : List Nat), startp ≤ x → x < endp →
        kwDelivery <+: buf.drop x →
        (∀ y, y < x → startp ≤ y → ¬ kwDelivery <+: buf.drop y) →
        (∀ y, y < x → startp ≤ y → buf[y]? ≠ some 0) →
        buf.take x = A ++ 10 :: line →
        (∀ c ∈ line, c ≠ 10 ∧ c ≠ 0) → 1 ≤ line.length → line.length ≤ 18 →
        (∃ w, taxPointDateField buf startp endp = some (Extract.text w)
            ∧ cString w = 34 :: (line.dropLast ++ [34]))
        ∧ ∀ row, invoiceRow buf startp endp = some (RowResult.row row) →
            row.taxPointDate = 34 :: (line.dropLast ++ [34]) := by
  have hrow : ∀ w s, taxPointDateField buf startp endp = some (Extract.text w) →
      cString w = s →
      ∀ row, invoiceRow buf startp endp = some (RowResult.row row) →
        row.taxPointDate = s := by
    intro w s hw hs row h
    obtain ⟨⟨w2, hw2, hr⟩, _, _⟩ := invoiceRow_fields buf startp endp row h
    rw [hw] at hw2
    simp only [Option.some.injEq, Extract.text.injEq] at hw2
    rw [hr, ← hw2, hs]
  constructor
  · intro habs
    have h := taxPointDateField_absent buf startp endp habs
    have hc : cString (notSpecified ++ [0]) = notSpecified := by decide
    exact ⟨⟨_, h, hc⟩, hrow _ _ h hc⟩
  · intro x A line hsx hxe hocc hfirst hnul hline hl h1 h18
    have hne : line ≠ [] := by
      intro he
      rw [he] at h1
      simp at h1
    have hdl : (34 :: line).dropLast = 34 :: line.dropLast := List.dropLast_cons_of_ne_nil hne
    have hlen : ((34 :: line).dropLast ++ [34, 0]).length ≤ 20 := by
      rw [hdl]
      simp only [List.length_append, List.length_cons, List.length_dropLast, List.length_nil]
      omega
    have h := taxPointDateField_line buf startp endp x A line hsx hxe hocc hfirst hnul hline
      (fun c hc => (hl c hc).1)
    simp only [stored, hlen, if_true, Option.map_some'] at h
    have hc : cString ((34 :: line).dropLast ++ [34, 0]) = 34 :: (line.dropLast ++ [34]) := by
      rw [hdl]
      have := cString_text (34 :: (line.dropLast ++ [34])) [] (by
        intro c hc
        rcases List.mem_cons.1 hc with rfl | hc
        · decide
        · rcases List.mem_append.1 hc with hc | hc
          · exact (hl c (List.dropLast_subset line hc)).2
          · simp at hc
            rw [hc]
            decide)
      simpa using this
    exact ⟨⟨_, h, hc⟩, hrow _ _ h hc⟩

theorem taxPointDateField_value_witness :
    (∃ w, taxPointDateField (exampleInvoice [] []) 4 151 = some (Extract.text w)
        ∧ cString w = notSpecified)
    ∧ (∃ w, taxPointDateField (exampleInvoice exampleDateLines exampleHstLines) 4 199
          = some (Extract.text w) ∧ cString w = 34 :: ([77, 97, 114, 32, 50, 32].dropLast ++ [34])) :=
  ⟨((taxPointDateField_value (exampleInvoice [] []) 4 151).1
      (by set_option maxRecDepth 100000 in decide)).1,
   ((taxPointDateField_value (exampleInvoice exampleDateLines exampleHstLines) 4 199).2 94
      ((exampleInvoice exampleDateLines exampleHstLines).take 87) [77, 97, 114, 32, 50, 32]
      (by decide) (by decide) (by decide)
      (by set_option maxRecDepth 100000 in decide)
      (by set_option maxRecDepth 100000 in decide)
      (by decide) (by decide) (by decide) (by decide)).1⟩

/-- C23 (counterexample): with an empty line above the line
`Delivery service` the `w--` steps back onto the opening quote, and the field
of the row is one double quote; with the 19-byte line `Mar 12, 2021 11:59 `
above it the NUL is stored outside the 20 bytes of `taxPointDate`, so neither
the field nor the row is defined. -/
theorem taxPointDateField_counterexample :
    invoiceRow (exampleInvoice [10, 68, 101, 108, 105, 118, 101, 114, 121, 32, 115, 101, 114,
        118, 105, 99, 101, 10] []) 4 169
      = some (RowResult.row
          { invNum := [65, 49], invDate := [34, 77, 97, 114, 32, 49, 34],
            taxPointDate := [34], restaurantName := [34, 74, 111, 101, 34],
            gstNumber := [49, 50], netAmt := [49, 46, 48, 48], hstAmt := zeroAmount,
            grossAmt := [49, 46, 49, 51] })
    ∧ taxPointDateField (exampleInvoice [77, 97, 114, 32, 49, 50, 44, 32, 50, 48, 50, 49, 32,
        49, 49, 58, 53, 57, 32, 10, 68, 101, 108, 105, 118, 101, 114, 121, 32, 115, 101, 114,
        118, 105, 99, 101, 10] []) 4 188 = none
    ∧ invoiceRow (exampleInvoice [77, 97, 114, 32, 49, 50, 44, 32, 50, 48, 50, 49, 32,
        49, 49, 58, 53, 57, 32, 10, 68, 101, 108, 105, 118, 101, 114, 121, 32, 115, 101, 114,
        118, 105, 99, 101, 10] []) 4 188 = none := by
  refine ⟨?_, ?_, ?_⟩ <;> set_option maxRecDepth 100000 in decide

/-- C29: every store into `restaurantName` stays inside its `RESTAURANTMAX`
= 53 bytes, the NUL included. When `x` is the first occurrence of
`\nUber Portier B.V.` from the start of the invoice (no NUL before it), not
behind the last byte of the invoice, and `line` is the line that follows that
line, up to its line feed, the bytes stored are a double quote, the first
min(len, 50) bytes of `line`, a double quote and the NUL; when `line` holds no
NUL, the string between the quotes is what every row `invoiceRow` returns has
as restaurant field. -/
theorem restaurantNameField_bound (buf : List Nat) (startp endp : Nat) :
    (∀ w, restaurantNameField buf startp endp = some (Extract.text w) →
      w.length ≤ RESTAURANTMAX)
    ∧ ∀ (x : Nat) (tl line rest : List Nat), startp ≤ x → x ≤ endp →
        kwUber <+: buf.drop x →
        (∀ y, y < x → startp ≤ y → ¬ kwUber <+: buf.drop y) →
        (∀ y, y < x → startp ≤ y → buf[y]? ≠ some 0) →
        buf.drop (x + kwUber.length) = tl ++ 10 :: (line ++ 10 :: rest) →
        (∀ c ∈ tl, c ≠ 10) → (∀ c ∈ line, c ≠ 10) →
        restaurantNameField buf startp endp
          = some (Extract.text (34 :: line.take 50 ++ [34, 0]))
        ∧ (line.take 50).length = min 50 line.length
        ∧ ((∀ c ∈ line, c ≠ 0) →
            ∀ row, invoiceRow buf startp endp = some (RowResult.row row) →
              row.restaurantName = 34 :: line.take 50 ++ [34]) := by
  constructor
  · intro w hw
    unfold restaurantNameField at hw
    rcases hf : findFrom buf startp kwUber with _ | x
    · rw [hf] at hw; simp at hw
    · rw [hf] at hw
      simp only [] at hw
      by_cases hx : x > endp
      · simp [hx] at hw
      · simp only [hx, if_false] at hw
        rcases hs : skipLine (buf.drop (x + 1)) with _ | after
        · rw [hs] at hw; simp at hw
        · rw [hs] at hw
          simp only [] at hw
          rcases hc : copyBounded (RESTAURANTMAX - 3) after with _ | name
          · rw [hc] at hw; simp at hw
          · rw [hc] at hw
            simp only [Option.some.injEq, Extract.text.injEq] at hw
            have hl := copyBounded_length _ _ _ hc
            rw [← hw]
            simp only [RESTAURANTMAX, List.length_append, List.length_cons,
              List.length_nil] at hl ⊢
            omega
  · intro x tl line rest hsx hxe hocc hfirst hnul hshape htl hnl
    have h := restaurantNameField_line buf startp endp x tl line rest hsx hxe hocc hfirst hnul
      hshape htl hnl
    refine ⟨h, List.length_take _ _, ?_⟩
    intro h0 row hr
    obtain ⟨_, ⟨w2, hw2, hrn⟩, _⟩ := invoiceRow_fields buf startp endp row hr
    rw [h] at hw2
    simp only [Option.some.injEq, Extract.text.injEq] at hw2
    rw [hrn, ← hw2]
    have := cString_text (34 :: line.take 50 ++ [34]) [] (by
      intro c hc
      rcases List.mem_append.1 hc with hc | hc
      · rcases List.mem_cons.1 hc with rfl | hc
        · decide
        · exact h0 c (List.take_subset 50 line hc)
      · simp at hc
        rw [hc]
        decide)
    simpa using this

theorem restaurantNameField_bound_witness :
    restaurantNameField (exampleInvoice exampleDateLines exampleHstLines) 4 199
        = some (Extract.text (34 :: List.take 50 [74, 111, 101] ++ [34, 0]))
    ∧ restaurantNameField (kwUber ++ 10 :: (List.replicate 60 65 ++ [10, 0])) 0 70
        = some (Extract.text (34 :: List.take 50 (List.replicate 60 65) ++ [34, 0])) :=
  ⟨((restaurantNameField_bound (exampleInvoice exampleDateLines exampleHstLines) 4 199).2 24
      [] [74, 111, 101] ((exampleInvoice exampleDateLines exampleHstLines).drop 47)
      (by decide) (by decide) (by decide)
      (by set_option maxRecDepth 100000 in decide)
      (by set_option maxRecDepth 100000 in decide)
      (by decide) (by decide) (by decide)).1,
   ((restaurantNameField_bound (kwUber ++ 10 :: (List.replicate 60 65 ++ [10, 0])) 0 70).2 0
      [] (List.replicate 60 65) [0]
      (by decide) (by decide) (by decide) (by decide) (by decide)
      (by decide) (by decide) (by decide)).1⟩


/-! ## The reads of the decoder stay in front of the marker -/

/-- The loop of `ascii85decode` on a buffer `R` followed by `~` and any bytes
`tail`, entered with `bytesLeft` no more than the length of `R`: it leaves
through its exit with the read position inside `R` or at the `~`, with less
than five bytes to read, all of them in `R`; what it has written does not
depend on `tail`. -/
theorem decodeLoop_marker (sc : Bool) (n : Nat) :
    ∀ (R : List Nat) (bl : Int), R.length = n → bl ≤ (R.length : Int) →
      ∃ (w : List Nat) (c : Nat) (R2 : List Nat) (bl2 : Int),
        bl2 < 5 ∧ bl2 ≤ (R2.length : Int) ∧ R2 <:+ R
        ∧ ∀ tail : List Nat, decodeLoop sc (R ++ 126 :: tail) bl
            = some { written := w, count := c, rest := R2 ++ 126 :: tail, bytesLeft := bl2 } := by
  induction n using Nat.strong_induction_on with
  | _ n ih =>
    intro R bl hn hbl
    rcases R with _ | ⟨c0, t⟩
    · simp only [List.length_nil, Nat.cast_zero] at hbl
      refine ⟨[], 0, [], bl, by omega, by simpa using hbl, List.suffix_refl _, ?_⟩
      intro tail
      exact decodeLoop_stop sc 126 tail bl (by decide) (by omega)
    · by_cases hz : c0 = 122
      · subst hz
        simp only [List.length_cons, Nat.cast_add, Nat.cast_one] at hbl
        obtain ⟨w, c, R2, bl2, h5, hle, hsuf, hr⟩ :=
          ih t.length (by simp at hn; omega) t (bl - 1) rfl (by omega)
        refine ⟨[0, 0, 0, 0] ++ w, c + 4, R2, bl2, h5, hle,
          hsuf.trans (List.suffix_cons _ _), ?_⟩
        intro tail
        rw [List.cons_append, decodeLoop_z, hr tail]
        rfl
      · by_cases h5 : 5 ≤ bl
        · simp only [List.length_cons, Nat.cast_add, Nat.cast_one] at hbl
          rcases t with _ | ⟨c1, _ | ⟨c2, _ | ⟨c3, _ | ⟨c4, t5⟩⟩⟩⟩
          · simp at hbl; omega
          · simp at hbl; omega
          · simp at hbl; omega
          · simp at hbl; omega
          · simp only [List.length_cons, Nat.cast_add, Nat.cast_one] at hbl
            obtain ⟨w, c, R2, bl2, h5', hle, hsuf, hr⟩ :=
              ih t5.length (by simp at hn; omega) t5 (bl - 5) rfl (by omega)
            refine ⟨decodeGroup sc c0 c1 c2 c3 c4 ++ w, c + 4, R2, bl2, h5', hle, ?_, ?_⟩
            · exact hsuf.trans (List.suffix_append [c0, c1, c2, c3, c4] t5)
            · intro tail
              simp only [List.cons_append]
              rw [decodeLoop_group sc c0 c1 c2 c3 c4 _ bl hz h5, hr tail]
              rfl
        · refine ⟨[], 0, c0 :: t, bl, by omega, hbl, List.suffix_refl _, ?_⟩
          intro tail
          rw [List.cons_append]
          exact decodeLoop_stop sc c0 (t ++ 126 :: tail) bl hz (by omega)

/-- The short-group step reads `bytesLeft` bytes from the read position and
none behind them. -/
theorem decodeTail_append (sc : Bool) (R X : List Nat) (bl : Int)
    (h : bl ≤ (R.length : Int)) :
    decodeTail sc (R ++ X) bl = decodeTail sc R bl := by
  unfold decodeTail shortGroup
  have h1 : ¬ R.length < bl.toNat := by omega
  have h2 : ¬ (R ++ X).length < bl.toNat := by simp; omega
  simp only [h1, h2, if_false]
  rw [List.take_append_of_le_length (by omega)]

/-- C31: on every input that ends in `~>` the decode loop of `ascii85decode`
ends and the short-group step is carried out, without a read outside the
buffer. The loop leaves with the read position at or before the `~` (the
bytes `R` before the `~` from the read position on are a suffix of the
stripped buffer), the short-group step reads only bytes of `R`, and the two
steps give the same result whatever bytes `tail` stand behind the `~`: with
`tail` empty the buffer ends at the `~`, with `tail` the byte `>` it is the
buffer of the call, whose result is the one stated. -/
theorem ascii85decode_reads_before_marker (sc : Bool) (body : List Nat) :
    ∃ (w : List Nat) (c : Nat) (R : List Nat) (bl : Int) (w2 : List Nat) (c2 : Nat),
      bl < 5 ∧ bl ≤ (R.length : Int)
      ∧ R <:+ body.filter (fun x => !isWhitespace x)
            ++ body.drop (body.filter (fun x => !isWhitespace x)).length
      ∧ decodeTail sc R bl = some (w2, c2)
      ∧ (∀ tail : List Nat,
          decodeLoop sc ((body.filter (fun x => !isWhitespace x)
                ++ body.drop (body.filter (fun x => !isWhitespace x)).length) ++ 126 :: tail)
              ((body.filter (fun x => !isWhitespace x)).length : Int)
            = some { written := w, count := c, rest := R ++ 126 :: tail, bytesLeft := bl }
          ∧ decodeTail sc (R ++ 126 :: tail) bl = some (w2, c2))
      ∧ ∀ (out : List Nat) (cnt : Nat),
          ascii85decode sc (body ++ [126, 62]) out cnt
            = some { rc := 0,
                     streamIn := (body.filter (fun x => !isWhitespace x)
                       ++ body.drop (body.filter (fun x => !isWhitespace x)).length)
                       ++ [126, 62],
                     streamOut := storeOut out (w ++ w2), actualOutCount := 0 + c + c2 } := by
  have hle : (body.filter (fun x => !isWhitespace x)).length ≤ body.length :=
    List.length_filter_le _ _
  obtain ⟨w, c, R, bl, h5, hbl, hsuf, hloop⟩ := decodeLoop_marker sc _
    (body.filter (fun x => !isWhitespace x)
      ++ body.drop (body.filter (fun x => !isWhitespace x)).length)
    ((body.filter (fun x => !isWhitespace x)).length : Int) rfl
    (by simp only [List.length_append]; push_cast; omega)
  obtain ⟨w2, c2, ht⟩ := decodeTail_total sc R bl h5 hbl
  have htail : ∀ tail : List Nat, decodeTail sc (R ++ 126 :: tail) bl = some (w2, c2) := by
    intro tail
    rw [decodeTail_append sc R _ bl hbl, ht]
  refine ⟨w, c, R, bl, w2, c2, h5, hbl, hsuf, ht, fun tail => ⟨hloop tail, htail tail⟩, ?_⟩
  intro out cnt
  rw [ascii85decode_eod]
  have hshape : body.filter (fun c => !isWhitespace c)
      ++ (body ++ [126, 62]).drop (body.filter (fun c => !isWhitespace c)).length
      = (body.filter (fun c => !isWhitespace c)
          ++ body.drop (body.filter (fun c => !isWhitespace c)).length) ++ [126, 62] := by
    rw [List.drop_append_of_le_length hle, List.append_assoc]
  rw [hshape, hloop [62]]
  simp only [htail [62]]

/-! ## A lone last character and groups above 2^32 -/

/-- The full groups of a payload of `5 * m + n` characters, `n < 5`, are those
of its first `5 * m` characters. -/
theorem decodeFullGroups_take (sc : Bool) (n : Nat) (hn : n < 5) :
    ∀ (m : Nat) (payload : List Nat), payload.length = 5 * m + n →
      decodeFullGroups sc (payload.take (5 * m)) = decodeFullGroups sc payload := by
  intro m
  induction m with
  | zero =>
    intro payload hlen
    rw [decodeFullGroups_short sc payload (by omega)]
    simp [decodeFullGroups]
  | succ m ih =>
    intro payload hlen
    rcases payload with _ | ⟨c0, _ | ⟨c1, _ | ⟨c2, _ | ⟨c3, _ | ⟨c4, t⟩⟩⟩⟩⟩ <;>
      simp at hlen <;> try omega
    have hlt : t.length = 5 * m + n := by omega
    have hd : 5 * (m + 1) = 5 * m + 5 := by ring
    have e : List.take (5 * m + 5) (c0 :: c1 :: c2 :: c3 :: c4 :: t)
        = c0 :: c1 :: c2 :: c3 :: c4 :: t.take (5 * m) := rfl
    rw [hd, e]
    simp only [decodeFullGroups]
    rw [ih t hlt]

/-- The short-group step on one character left over stores nothing. -/
theorem decodeTail_one (sc : Bool) (x : Nat) (T : List Nat) :
    decodeTail sc (x :: T) 1 = some ([], 0) := by
  simp [decodeTail, shortGroup, List.replicate]

/-- C36: for a payload without white space and without `z`, of length
`5 * m + 1`, followed by `~>`, `ascii85decode` returns 0 and stores exactly
`4 * m` bytes, the decode of the first `5 * m` characters, which is also what
it stores for these characters alone followed by `~>`; the last character
adds no byte. -/
theorem ascii85decode_lone_character (sc : Bool) (payload out : List Nat) (cnt m : Nat)
    (hws : ∀ c ∈ payload, isWhitespace c = false) (hz : ∀ c ∈ payload, c ≠ 122)
    (hlen : payload.length = 5 * m + 1) :
    ascii85decode sc (payload ++ [126, 62]) out cnt
      = some { rc := 0, streamIn := payload ++ [126, 62],
               streamOut := decodeFullGroups sc (payload.take (5 * m)) ++ out.drop (4 * m),
               actualOutCount := 4 * m }
    ∧ (decodeFullGroups sc (payload.take (5 * m))).length = 4 * m
    ∧ ascii85decode sc (payload.take (5 * m) ++ [126, 62]) out cnt
      = some { rc := 0, streamIn := payload.take (5 * m) ++ [126, 62],
               streamOut := decodeFullGroups sc (payload.take (5 * m)) ++ out.drop (4 * m),
               actualOutCount := 4 * m } := by
  have hfl := decodeFullGroups_length sc 1 (by decide) m payload hlen
  have htk := decodeFullGroups_take sc 1 (by decide) m payload hlen
  have hdl : (payload.drop (5 * m)).length = 1 := by simp [hlen]
  obtain ⟨x, hx⟩ : ∃ x, payload.drop (5 * m) = [x] := by
    rcases hp : payload.drop (5 * m) with _ | ⟨a, _ | ⟨b, t⟩⟩ <;> rw [hp] at hdl <;>
      simp at hdl
    exact ⟨a, rfl⟩
  refine ⟨?_, by rw [htk]; exact hfl, ?_⟩
  · rw [ascii85decode_eod_clean sc payload out cnt hws]
    have hloop := decodeLoop_clean sc 1 (by decide) [62] m payload hz hlen
    simp only [List.append_assoc] at hloop
    rw [hloop]
    simp only [hx, List.cons_append, List.nil_append, Nat.cast_one, decodeTail_one]
    simp only [storeOut, List.append_nil, hfl, htk, zero_add, Nat.add_zero]
  · have hlen2 : (payload.take (5 * m)).length = 5 * m + 0 := by simp [hlen]
    rw [ascii85decode_eod_clean sc _ out cnt
      (fun c hc => hws c (List.take_subset _ _ hc))]
    have hloop := decodeLoop_clean sc 0 (by decide) [62] m (payload.take (5 * m))
      (fun c hc => hz c (List.take_subset _ _ hc)) hlen2
    simp only [List.append_assoc] at hloop
    rw [hloop]
    have hfl2 : (decodeFullGroups sc (payload.take (5 * m))).length = 4 * m := by
      rw [htk]; exact hfl
    have htl : decodeTail sc (List.drop (5 * m) (List.take (5 * m) payload) ++ 126 :: [62])
        ((0 : Nat) : Int) = some ([], 0) := by
      simp [decodeTail]
    simp only [htl]
    have hd : List.drop (5 * m) (List.take (5 * m) payload) = [] := by
      simp [hlen]
    simp only [List.singleton_append] at *
    simp [storeOut, hfl2]

theorem ascii85decode_lone_character_witness :
    ascii85decode true ([54, 77, 60, 71, 35, 54] ++ [126, 62]) [] 0
      = some { rc := 0, streamIn := [54, 77, 60, 71, 35, 54] ++ [126, 62],
               streamOut := decodeFullGroups true (List.take (5 * 1) [54, 77, 60, 71, 35, 54])
                 ++ List.drop (4 * 1) [],
               actualOutCount := 4 * 1 }
    ∧ (decodeFullGroups true (List.take (5 * 1) [54, 77, 60, 71, 35, 54])).length = 4 * 1
    ∧ ascii85decode true (List.take (5 * 1) [54, 77, 60, 71, 35, 54] ++ [126, 62]) [] 0
      = some { rc := 0, streamIn := List.take (5 * 1) [54, 77, 60, 71, 35, 54] ++ [126, 62],
               streamOut := decodeFullGroups true (List.take (5 * 1) [54, 77, 60, 71, 35, 54])
                 ++ List.drop (4 * 1) [],
               actualOutCount := 4 * 1 } :=
  ascii85decode_lone_character true [54, 77, 60, 71, 35, 54] [] 0 1
    (by decide) (by decide) (by decide)

/-- The bytes the group step stores for any sum: the digits of the sum in base
256 at the places 3, 2, 1, 0; the quotient by 2^24 is cut to a byte only when
it is stored. -/
theorem bytesOfSum_any (v : Nat) :
    bytesOfSum v = [v / 16777216 % 256, v / 65536 % 256, v / 256 % 256, v % 256] := by
  unfold bytesOfSum
  have e1 : v - v / 16777216 * 16777216 = v % 16777216 := by omega
  simp only [e1]
  have e2 : v % 16777216 - v % 16777216 / 65536 * 65536 = v % 65536 := by omega
  simp only [e2]
  have e3 : v % 65536 - v % 65536 / 256 * 256 = v % 256 := by omega
  simp only [e3]
  have e4 : v % 16777216 / 65536 % 256 = v / 65536 % 256 := by omega
  have e5 : v % 65536 / 256 % 256 = v / 256 % 256 := by omega
  have e6 : v % 256 % 256 = v % 256 := by omega
  rw [e4, e5, e6]

/-- C37: five characters in the range 33..117 whose base-85 value `V` is at
least 2^32 are decoded without failure: the group step stores the four bytes
of `V mod 2^32`, most significant first, the first of them being
`(V div 2^24) mod 256`, and the loop goes on five characters further; `uuuuu`
(`V = 85^5 - 1`) followed by `~>` makes `ascii85decode` return 0 with the
bytes 8, 120, 14, 196. -/
theorem decodeGroup_wraps (sc : Bool) (c1 c2 c3 c4 c5 : Nat) (t : List Nat) (bl : Int)
    (h1 : 33 ≤ c1 ∧ c1 ≤ 117) (h2 : 33 ≤ c2 ∧ c2 ≤ 117) (h3 : 33 ≤ c3 ∧ c3 ≤ 117)
    (h4 : 33 ≤ c4 ∧ c4 ≤ 117) (h5 : 33 ≤ c5 ∧ c5 ≤ 117)
    (hV : 2 ^ 32 ≤ (c1 - 33) * 85 ^ 4 + (c2 - 33) * 85 ^ 3 + (c3 - 33) * 85 ^ 2
        + (c4 - 33) * 85 + (c5 - 33))
    (hbl : 5 ≤ bl) :
    decodeGroup sc c1 c2 c3 c4 c5
      = [((c1 - 33) * 85 ^ 4 + (c2 - 33) * 85 ^ 3 + (c3 - 33) * 85 ^ 2 + (c4 - 33) * 85
            + (c5 - 33)) % 2 ^ 32 / 2 ^ 24,
         ((c1 - 33) * 85 ^ 4 + (c2 - 33) * 85 ^ 3 + (c3 - 33) * 85 ^ 2 + (c4 - 33) * 85
            + (c5 - 33)) % 2 ^ 32 / 2 ^ 16 % 256,
         ((c1 - 33) * 85 ^ 4 + (c2 - 33) * 85 ^ 3 + (c3 - 33) * 85 ^ 2 + (c4 - 33) * 85
            + (c5 - 33)) % 2 ^ 32 / 2 ^ 8 % 256,
         ((c1 - 33) * 85 ^ 4 + (c2 - 33) * 85 ^ 3 + (c3 - 33) * 85 ^ 2 + (c4 - 33) * 85
            + (c5 - 33)) % 2 ^ 32 % 256]
    ∧ (decodeGroup sc c1 c2 c3 c4 c5).head?
      = some (((c1 - 33) * 85 ^ 4 + (c2 - 33) * 85 ^ 3 + (c3 - 33) * 85 ^ 2 + (c4 - 33) * 85
            + (c5 - 33)) / 2 ^ 24 % 256)
    ∧ decodeLoop sc (c1 :: c2 :: c3 :: c4 :: c5 :: t) bl
      = emitGroup (decodeGroup sc c1 c2 c3 c4 c5) (decodeLoop sc t (bl - 5))
    ∧ ∀ (out : List Nat) (cnt : Nat),
        ascii85decode sc [117, 117, 117, 117, 117, 126, 62] out cnt
          = some { rc := 0, streamIn := [117, 117, 117, 117, 117, 126, 62],
                   streamOut := [8, 120, 14, 196] ++ out.drop 4, actualOutCount := 4 } := by
  refine ⟨?_, ?_, decodeLoop_group sc c1 c2 c3 c4 c5 t bl (by omega) hbl, ?_⟩
  · obtain ⟨d1, rfl⟩ : ∃ d, c1 = d + 33 := ⟨c1 - 33, by omega⟩
    obtain ⟨d2, rfl⟩ : ∃ d, c2 = d + 33 := ⟨c2 - 33, by omega⟩
    obtain ⟨d3, rfl⟩ : ∃ d, c3 = d + 33 := ⟨c3 - 33, by omega⟩
    obtain ⟨d4, rfl⟩ : ∃ d, c4 = d + 33 := ⟨c4 - 33, by omega⟩
    obtain ⟨d5, rfl⟩ : ∃ d, c5 = d + 33 := ⟨c5 - 33, by omega⟩
    simp only [Nat.add_sub_cancel] at hV ⊢
    norm_num at hV ⊢
    unfold decodeGroup
    rw [sum85_digits sc d1 d2 d3 d4 d5 (by omega) (by omega) (by omega) (by omega) (by omega),
      bytesOfSum_any]
    generalize d1 * 52200625 + d2 * 614125 + d3 * 7225 + d4 * 85 + d5 = v
    have e1 : v % 4294967296 / 16777216 = v / 16777216 % 256 := by omega
    have e2 : v % 4294967296 / 65536 % 256 = v / 65536 % 256 := by omega
    have e3 : v % 4294967296 / 256 % 256 = v / 256 % 256 := by omega
    rw [e1, e2, e3]
  · obtain ⟨d1, rfl⟩ : ∃ d, c1 = d + 33 := ⟨c1 - 33, by omega⟩
    obtain ⟨d2, rfl⟩ : ∃ d, c2 = d + 33 := ⟨c2 - 33, by omega⟩
    obtain ⟨d3, rfl⟩ : ∃ d, c3 = d + 33 := ⟨c3 - 33, by omega⟩
    obtain ⟨d4, rfl⟩ : ∃ d, c4 = d + 33 := ⟨c4 - 33, by omega⟩
    obtain ⟨d5, rfl⟩ : ∃ d, c5 = d + 33 := ⟨c5 - 33, by omega⟩
    simp only [Nat.add_sub_cancel]
    norm_num
    unfold decodeGroup
    rw [sum85_digits sc d1 d2 d3 d4 d5 (by omega) (by omega) (by omega) (by omega) (by omega),
      bytesOfSum_any]
    rfl
  · intro out cnt
    cases sc <;> rfl

theorem decodeGroup_wraps_witness :
    decodeGroup false 117 117 117 117 117 = [8, 120, 14, 196]
    ∧ (decodeGroup false 117 117 117 117 117).head? = some (264 % 256) := by
  have h := decodeGroup_wraps false 117 117 117 117 117 [126, 62] 5 (by decide) (by decide)
    (by decide) (by decide) (by decide) (by decide) (by decide)
  exact ⟨h.1.trans (by decide), h.2.1.trans (by decide)⟩

/-! ## The FSA on well-formed content streams -/

/-- State 3 emits the text of a body and closes at the `)` behind it. -/
theorem fsa_s3_body (rest : List Nat) (endp : Nat) :
    ∀ (body : List BodyItem) (p : Nat), (∀ i ∈ body, itemOk i = true) →
      fsa FsaState.s3 (bodyBytes body ++ 41 :: rest) p endp
        = (fsa FsaState.s4 rest (p + (bodyBytes body).length + 1) endp).map
            (fun out => bodyText body ++ out)
  | [], p, _ => by
    simp only [bodyBytes, bodyText, List.nil_append, List.length_nil, Nat.add_zero]
    rw [fsa_s3_close]
    cases fsa FsaState.s4 rest (p + 1) endp <;> rfl
  | BodyItem.plain c :: body, p, h => by
    have hc := h (BodyItem.plain c) (by simp)
    simp only [itemOk, Bool.and_eq_true, bne_iff_ne, ne_eq] at hc
    have ih := fsa_s3_body rest endp body (p + 1) (fun x hx => h x (by simp [hx]))
    simp only [bodyBytes, bodyText, List.cons_append, List.length_cons]
    rw [fsa_s3_emit c _ p endp hc.1 hc.2, ih]
    have e : p + 1 + (bodyBytes body).length + 1 = p + ((bodyBytes body).length + 1) + 1 := by
      omega
    rw [e]
    cases fsa FsaState.s4 rest (p + ((bodyBytes body).length + 1) + 1) endp <;> rfl
  | BodyItem.escaped c :: body, p, h => by
    have ih := fsa_s3_body rest endp body (p + 2) (fun x hx => h x (by simp [hx]))
    simp only [bodyBytes, bodyText, List.cons_append, List.length_cons]
    rw [fsa_s3_escape c _ p endp, ih]
    have e : p + 2 + (bodyBytes body).length + 1
        = p + ((bodyBytes body).length + 1 + 1) + 1 := by omega
    rw [e]
    cases fsa FsaState.s4 rest (p + ((bodyBytes body).length + 1 + 1) + 1) endp <;> rfl

/-- State 4 in front of the literals of a line and its newline: the texts are
emitted, then one newline, and the FSA is back in state 2. -/
theorem fsa_s4_line (rest : List Nat) (endp : Nat) :
    ∀ (lits : List (List BodyItem × List Nat)) (p : Nat),
      (∀ s ∈ lits, (∀ i ∈ s.1, itemOk i = true) ∧ (∀ c ∈ s.2, c ≠ 40 ∧ c ≠ 10)) →
      fsa FsaState.s4 (lineBytes lits ++ 10 :: rest) p endp
        = (fsa FsaState.s2 rest (p + (lineBytes lits).length + 1) endp).map
            (fun out => lineText lits ++ 10 :: out)
  | [], p, _ => by
    simp only [lineBytes, lineText, List.nil_append, List.length_nil, Nat.add_zero]
    rw [fsa_s4_newline]
  | s :: lits, p, h => by
    have hs := h s (by simp)
    have ih := fsa_s4_line rest endp lits (p + 1 + (bodyBytes s.1).length + 1 + s.2.length)
      (fun x hx => h x (by simp [hx]))
    have e : lineBytes (s :: lits) ++ 10 :: rest
        = 40 :: (bodyBytes s.1 ++ 41 :: (s.2 ++ (lineBytes lits ++ 10 :: rest))) := by
      simp [lineBytes]
    rw [e, fsa_s4_open, fsa_s3_body _ endp s.1 (p + 1) hs.1, fsa_s4_gap _ endp s.2 _ hs.2, ih]
    have e2 : p + 1 + (bodyBytes s.1).length + 1 + s.2.length + (lineBytes lits).length + 1
        = p + (lineBytes (s :: lits)).length + 1 := by
      simp [lineBytes]
      omega
    rw [e2]
    cases fsa FsaState.s2 rest (p + (lineBytes (s :: lits)).length + 1) endp with
    | none => rfl
    | some out => simp [lineText]

/-- What `segOk` says of a literal line. -/
theorem segOk_line (lits : List (List BodyItem × List Nat))
    (h : segOk (Segment.line lits) = true) :
    lits ≠ [] ∧ ∀ s ∈ lits, (∀ i ∈ s.1, itemOk i = true) ∧ (∀ c ∈ s.2, c ≠ 40 ∧ c ≠ 10) := by
  simp only [segOk, Bool.and_eq_true, Bool.not_eq_true', List.all_eq_true, bne_iff_ne,
    ne_eq] at h
  refine ⟨?_, fun s hs => ⟨fun i hi => (h.2 s hs).1 i hi, fun c hc => (h.2 s hs).2 c hc⟩⟩
  intro he
  rw [he] at h
  simp at h

/-- State 2 in front of well-formed segments that lie at offsets up to
`endp`: their report text is emitted and the FSA is in state 2 behind them. -/
theorem fsa_s2_content (tail : List Nat) (endp : Nat) :
    ∀ (segs : List Segment) (p : Nat), (∀ s ∈ segs, segOk s = true) →
      p + (contentOf segs).length ≤ endp + 1 →
      fsa FsaState.s2 (contentOf segs ++ tail) p endp
        = (fsa FsaState.s2 tail (p + (contentOf segs).length) endp).map
            (fun out => textOf segs ++ out)
  | [], p, _, _ => by
    simp only [contentOf, textOf, List.nil_append, List.length_nil, Nat.add_zero]
    cases fsa FsaState.s2 tail p endp <;> rfl
  | Segment.byte c :: segs, p, h, hl => by
    have hc := h (Segment.byte c) (by simp)
    simp only [segOk, bne_iff_ne, ne_eq] at hc
    simp only [contentOf, segBytes, List.singleton_append, List.length_cons] at hl ⊢
    have ih := fsa_s2_content tail endp segs (p + 1) (fun x hx => h x (by simp [hx]))
      (by omega)
    rw [List.cons_append, fsa_s2_skip c _ p endp (by omega) hc, ih]
    have e : p + 1 + (contentOf segs).length = p + ((contentOf segs).length + 1) := by omega
    rw [e]
    cases fsa FsaState.s2 tail (p + ((contentOf segs).length + 1)) endp <;> rfl
  | Segment.line lits :: segs, p, h, hl => by
    obtain ⟨hne, hs⟩ := segOk_line lits (h (Segment.line lits) (by simp))
    obtain ⟨s, more, rfl⟩ := List.exists_cons_of_ne_nil hne
    have hlen : (contentOf (Segment.line (s :: more) :: segs)).length
        = (lineBytes (s :: more)).length + 1 + (contentOf segs).length := by
      simp [contentOf, segBytes]
      omega
    have h2 : 2 ≤ (lineBytes (s :: more)).length := by
      simp [lineBytes]
      omega
    have ih := fsa_s2_content tail endp segs (p + (lineBytes (s :: more)).length + 1)
      (fun x hx => h x (by simp [hx])) (by omega)
    have e : contentOf (Segment.line (s :: more) :: segs) ++ tail
        = 40 :: (bodyBytes s.1 ++ 41 :: (s.2 ++ (lineBytes more
            ++ 10 :: (contentOf segs ++ tail)))) := by
      simp [contentOf, segBytes, lineBytes]
    have e4 : lineBytes (s :: more) ++ 10 :: (contentOf segs ++ tail)
        = 40 :: (bodyBytes s.1 ++ 41 :: (s.2 ++ (lineBytes more
            ++ 10 :: (contentOf segs ++ tail)))) := by
      simp [lineBytes]
    have h4 := fsa_s4_line (contentOf segs ++ tail) endp (s :: more) p hs
    rw [e4, fsa_s4_open] at h4
    rw [e, fsa_s2_open _ p endp (by omega), h4, ih]
    have e2 : p + (lineBytes (s :: more)).length + 1 + (contentOf segs).length
        = p + (contentOf (Segment.line (s :: more) :: segs)).length := by omega
    rw [e2]
    cases fsa FsaState.s2 tail (p + (contentOf (Segment.line (s :: more) :: segs)).length)
        endp with
    | none => rfl
    | some out => simp [textOf, segText]

/-- C32: on a content stream made of well-formed segments (single bytes other
than `(`, and literal lines), followed in the buffer by a byte other than `(`
and by any bytes `pad` or none, the FSA reaches its end and writes the texts
of the segments. With `pad` empty the buffer holds one byte more than the
content, so no byte at an index above the length of the content is read. -/
theorem fsaRun_well_formed (segs : List Segment) (b : Nat) (pad : List Nat)
    (hok : ∀ s ∈ segs, segOk s = true) (hb : b ≠ 40) :
    fsaRun (contentOf segs ++ b :: pad) (contentOf segs).length = some (textOf segs)
    ∧ fsaRun (contentOf segs ++ [b]) (contentOf segs).length = some (textOf segs) := by
  have key : ∀ pd : List Nat,
      fsaRun (contentOf segs ++ b :: pd) (contentOf segs).length = some (textOf segs) := by
    intro pd
    unfold fsaRun
    rw [fsa_s2_content (b :: pd) _ segs 0 hok (by omega), Nat.zero_add, fsa_s2_tail b pd _ hb]
    simp
  exact ⟨key pad, key []⟩

theorem fsaRun_well_formed_witness :
    fsaRun (contentOf [Segment.byte 66, Segment.byte 10,
        Segment.line [([BodyItem.plain 97, BodyItem.escaped 41, BodyItem.plain 40], [32]),
          ([BodyItem.plain 98], [32, 84, 106])],
        Segment.byte 69] ++ 0 :: [0, 0])
      (contentOf [Segment.byte 66, Segment.byte 10,
        Segment.line [([BodyItem.plain 97, BodyItem.escaped 41, BodyItem.plain 40], [32]),
          ([BodyItem.plain 98], [32, 84, 106])],
        Segment.byte 69]).length
      = some (textOf [Segment.byte 66, Segment.byte 10,
        Segment.line [([BodyItem.plain 97, BodyItem.escaped 41, BodyItem.plain 40], [32]),
          ([BodyItem.plain 98], [32, 84, 106])],
        Segment.byte 69]) :=
  (fsaRun_well_formed [Segment.byte 66, Segment.byte 10,
        Segment.line [([BodyItem.plain 97, BodyItem.escaped 41, BodyItem.plain 40], [32]),
          ([BodyItem.plain 98], [32, 84, 106])],
        Segment.byte 69] 0 [0, 0] (by decide) (by decide)).1

/-! ## The output of the FSA is a subsequence of the content -/

/-- C34: the FSA keeps no nesting depth. In state 3 an unescaped `(` is
written like any other byte and the state stays 3; the first unescaped `)`
moves to state 4, where a further `)` is stepped over. On `(a(b)c)\n` the
report is `a(b\n`, not `a(b)c\n`. -/
theorem fsa_no_nesting :
    (∀ (t : List Nat) (p endp : Nat),
      fsa FsaState.s3 (40 :: t) p endp
        = (fsa FsaState.s3 t (p + 1) endp).map (fun out => 40 :: out))
    ∧ (∀ (t : List Nat) (p endp : Nat),
      fsa FsaState.s3 (41 :: t) p endp = fsa FsaState.s4 t (p + 1) endp)
    ∧ (∀ (t : List Nat) (p endp : Nat),
      fsa FsaState.s4 (41 :: t) p endp = fsa FsaState.s4 t (p + 1) endp)
    ∧ fsaRun ([40, 97, 40, 98, 41, 99, 41, 10] ++ [0]) 8 = some [97, 40, 98, 10]
    ∧ fsaRun ([40, 97, 40, 98, 41, 99, 41, 10] ++ [0]) 8 ≠ some [97, 40, 98, 41, 99, 10] := by
  refine ⟨fun t p endp => fsa_s3_emit 40 t p endp (by decide) (by decide),
    fun t p endp => fsa_s3_close t p endp,
    fun t p endp => fsa_s4_skip 41 t p endp (by decide) (by decide), by decide, by decide⟩

/-! ## A slice that ends in white space -/

/-- What a successful scan returns: the copied buffer is the slice
`startp .. endp` of the file, its first byte is not white space, and `endp` is
the byte in front of the keyword `endstream` that the second search found. -/
theorem mainScan_slice_bytes (doc : List Nat) (startp endp : Nat) (buf : List Nat) (z : Nat)
    (h : mainScan doc = ScanResult.slice startp endp buf z) :
    buf = (doc.drop startp).take (endp - startp + 1)
      ∧ startp ≤ endp ∧ endp < doc.length
      ∧ isWhitespace (doc.getD startp 0) = false
      ∧ kwEndstream <+: (doc ++ [0]).drop (endp + 1) := by
  unfold mainScan at h
  cases h1 : strstr (doc ++ [0]) kwStream with
  | none => simp [h1] at h
  | some i =>
    cases h2 : strstr ((doc ++ [0]).drop (i + 1)) kwEndstream with
    | none => simp [h1, h2] at h
    | some j =>
      simp only [h1, h2] at h
      have hpre := strstr_some kwEndstream _ j h2
      have hlen := hpre.length_le
      simp only [List.length_drop, List.length_append, List.length_singleton] at hlen
      have hk : kwEndstream.length = 9 := rfl
      rw [hk] at hlen
      have hj : 0 < j := by
        by_contra hj0
        have hj0 : j = 0 := by omega
        subst hj0
        -- the keyword `endstream` cannot start at the `s` of `\nstream`
        have hs := strstr_some kwStream _ i h1
        obtain ⟨r1, hr1⟩ := hs
        obtain ⟨r2, hr2⟩ := hpre
        have hd : (doc ++ [0]).drop (i + 1) = ((doc ++ [0]).drop i).drop 1 := by
          rw [List.drop_drop]
        rw [List.drop_zero, hd, ← hr1] at hr2
        simp [kwStream, kwEndstream] at hr2
      have hsx := skipLoop_exit (doc ++ [0]) (i + 1 + j - 1) (i + 1 + j - 1 + 1 - (i + 1 + 6))
        (i + 1 + 6) (by omega)
      generalize skipLoop (doc ++ [0]) (i + 1 + j - 1) (i + 1 + j - 1 + 1 - (i + 1 + 6))
        (i + 1 + 6) = s at h hsx
      have hend : i + 1 + j - 1 < doc.length := by omega
      have he1 : i + 1 + j - 1 + 1 = i + 1 + j := by omega
      have hkw : kwEndstream <+: (doc ++ [0]).drop (i + 1 + j - 1 + 1) := by
        rw [he1, ← List.drop_drop]
        exact hpre
      generalize i + 1 + j - 1 = e at h hend hsx hkw
      by_cases hgt : s > e
      · simp [hgt] at h
      · rw [if_neg hgt] at h
        have hse : s ≤ e := by omega
        have hcl := copyLoop_slice (doc ++ [0]) e (by simp; omega) (e - s + 1) s (by omega)
        rw [hcl] at h
        injection h with hs he hb hz
        subst hs he
        have hdoc : ((doc ++ [0]).drop s).take (e - s + 1) = (doc.drop s).take (e - s + 1) := by
          rw [List.drop_append_of_le_length (by omega),
            List.take_append_of_le_length (by simp; omega)]
        rw [hdoc] at hb
        have hws := hsx hse
        have hg : (doc ++ [0]).getD s 0 = doc.getD s 0 := by
          rw [List.getD_eq_getElem?_getD, List.getD_eq_getElem?_getD,
            List.getElem?_append_left (by omega)]
        rw [hg] at hws
        exact ⟨hb.symm, hse, hend, hws, hkw⟩

/-- C35: when the scan succeeds and the byte in front of the keyword
`endstream` is a white-space byte, the copied slice ends in that byte and not
in `~>`; a run that gets as far as the decoder then ends with status 13 for
the missing marker, and nothing is written to the report. -/
theorem mainRun_trailing_whitespace (env : Env) (doc : List Nat) (startp endp : Nat)
    (buf : List Nat) (z : Nat)
    (h1 : env.argc = 3) (h2 : env.invoiceNameLen ≤ 199) (h3 : env.reportNameLen ≤ 199)
    (h4 : 8 ≤ env.sizeofULL) (h5 : env.zlibMajorMatches = true)
    (h6 : env.invoiceFile = some doc) (h7 : env.callocInvoice = true)
    (h8 : env.callocAscii85In = true) (h9 : env.callocAscii85Out = true)
    (hscan : mainScan doc = ScanResult.slice startp endp buf z)
    (hws : isWhitespace (doc.getD endp 0) = true) :
    kwEndstream <+: (doc ++ [0]).drop (endp + 1)
      ∧ buf.getLast? = some (doc.getD endp 0)
      ∧ ¬ [126, 62] <:+ buf
      ∧ mainRun env = some { status := 13, cause := some Cause.missingEod, report := [] } := by
  obtain ⟨hbuf, hse, hend, hfirst, hkw⟩ := mainScan_slice_bytes doc startp endp buf z hscan
  have hne : startp ≠ endp := by
    intro he
    rw [he, hws] at hfirst
    exact absurd hfirst (by decide)
  have hlen : buf.length = endp - startp + 1 := by
    rw [hbuf, List.length_take, List.length_drop]
    omega
  have hlast : buf.getD (buf.length - 1) 0 = doc.getD endp 0 := by
    rw [hlen, hbuf, List.getD_eq_getElem?_getD, List.getD_eq_getElem?_getD,
      List.getElem?_take_of_lt (by omega), List.getElem?_drop]
    congr 2
    omega
  have h62 : doc.getD endp 0 ≠ 62 := by
    intro he
    rw [he] at hws
    exact absurd hws (by decide)
  have hgl : buf.getLast? = some (doc.getD endp 0) := by
    rw [List.getLast?_eq_getElem?, ← hlast, List.getD_eq_getElem?_getD]
    have hlt : buf.length - 1 < buf.length := by omega
    rw [List.getElem?_eq_getElem hlt]
    rfl
  have hnsuf : ¬ [126, 62] <:+ buf := by
    rintro ⟨t, ht⟩
    have hl := hlast
    rw [← ht, getD_eod_snd] at hl
    exact h62 hl.symm
  refine ⟨hkw, hgl, hnsuf, ?_⟩
  have hl2 : ¬ buf.length < 2 := by omega
  have hdec : ascii85decodeAlloc env.callocTemp env.signedChar buf
      (List.replicate (buf.length + 3 * z % 4294967296) 0) 0
      = some { rc := 1, streamIn := buf,
               streamOut := List.replicate (buf.length + 3 * z % 4294967296) 0,
               actualOutCount := 0 } := by
    unfold ascii85decodeAlloc
    simp only [hl2, if_false, hlast]
    rw [if_pos (Or.inr h62)]
  have hn2 : ¬ env.invoiceNameLen > 199 := by omega
  have hn3 : ¬ env.reportNameLen > 199 := by omega
  have hn4 : ¬ env.sizeofULL < 8 := by omega
  unfold mainRun
  simp only [h1, ne_eq, not_true_eq_false, if_false, hn2, hn3, hn4, h5, h6, h7, h8,
    Bool.true_eq_false, hscan]
  unfold mainDecodeStep
  simp only [h9, Bool.true_eq_false, if_false, hdec, if_true]
  rfl

theorem mainRun_trailing_whitespace_witness :
    kwEndstream <+: ((kwStream ++ [54, 77, 60, 71, 35, 126, 62, 10] ++ kwEndstream)
        ++ [0]).drop (14 + 1)
      ∧ [54, 77, 60, 71, 35, 126, 62, 10].getLast?
          = some ((kwStream ++ [54, 77, 60, 71, 35, 126, 62, 10] ++ kwEndstream).getD 14 0)
      ∧ ¬ [126, 62] <:+ [54, 77, 60, 71, 35, 126, 62, 10]
      ∧ mainRun (exampleEnv (kwStream ++ [54, 77, 60, 71, 35, 126, 62, 10] ++ kwEndstream)
          [40, 97, 41, 10])
        = some { status := 13, cause := some Cause.missingEod, report := [] } :=
  mainRun_trailing_whitespace
    (exampleEnv (kwStream ++ [54, 77, 60, 71, 35, 126, 62, 10] ++ kwEndstream) [40, 97, 41, 10])
    (kwStream ++ [54, 77, 60, 71, 35, 126, 62, 10] ++ kwEndstream) 7 14
    [54, 77, 60, 71, 35, 126, 62, 10] 0
    rfl (by decide) (by decide) (by decide) rfl rfl rfl rfl rfl (by decide) (by decide)

/-! ## From the row of rpt2pgm to the amount strings of rpt3pgm -/

theorem fgetsChars_line (rest : List Nat) :
    ∀ (k : Nat) (line : List Nat), (∀ c ∈ line, c ≠ 10) → line.length < k →
      fgetsChars k (line ++ 10 :: rest) = (line ++ [10], rest)
  | 0, _, _, h => by omega
  | k + 1, [], _, _ => by simp [fgetsChars]
  | k + 1, c :: line, hc, hl => by
    have h10 : c ≠ 10 := hc c (by simp)
    have ih := fgetsChars_line rest k line (fun x hx => hc x (by simp [hx]))
      (by simp at hl; omega)
    simp [fgetsChars, h10, ih]

theorem scanComma_text (rest : List Nat) :
    ∀ t : List Nat, (∀ c ∈ t, c ≠ 44) → scanComma (t ++ 44 :: rest) = some rest
  | [], _ => by simp [scanComma]
  | c :: t, h => by
    have hc : c ≠ 44 := h c (by simp)
    have ih := scanComma_text rest t (fun x hx => h x (by simp [hx]))
    simp [scanComma, hc, ih]

/-- The scan over a field that is not empty, entered one byte before its last
byte: the last byte is not looked at. -/
theorem scanComma_tail (rest : List Nat) (f : List Nat) (hf : ∀ c ∈ f, c ≠ 44) (hne : f ≠ []) :
    scanComma (f.reverse ++ 44 :: rest).tail = some rest := by
  have hr : f.reverse ≠ [] := by simpa using hne
  obtain ⟨c, t, hct⟩ := List.exists_cons_of_ne_nil hr
  rw [hct]
  simp only [List.cons_append, List.tail_cons]
  apply scanComma_text
  intro x hx
  have : x ∈ f.reverse := by rw [hct]; simp [hx]
  exact hf x (List.mem_reverse.1 this)

/-- The positioning and the three copies on a line `X,N,H,G` whose last three
fields hold no comma, `N` and `H` not being empty. -/
theorem rowAmountArrays_fields (X N H G : List Nat)
    (hX : ∀ c ∈ X, c ≠ 10 ∧ c ≠ 0)
    (hN : ∀ c ∈ N, c ≠ 44 ∧ c ≠ 10 ∧ c ≠ 0) (hH : ∀ c ∈ H, c ≠ 44 ∧ c ≠ 10 ∧ c ≠ 0)
    (hG : ∀ c ∈ G, c ≠ 44 ∧ c ≠ 10 ∧ c ≠ 0)
    (hNe : N ≠ []) (hHe : H ≠ [])
    (hNl : N.length ≤ 14) (hHl : H.length ≤ 14) (hGl : G.length ≤ 14) :
    rowAmountArrays ((X ++ 44 :: (N ++ 44 :: (H ++ 44 :: G))) ++ [10, 0])
      = some (N ++ [0], H ++ [0], G ++ [0]) := by
  have hline : ∀ c ∈ X ++ 44 :: (N ++ 44 :: (H ++ 44 :: G)), c ≠ 10 ∧ c ≠ 0 := by
    intro c hc
    simp only [List.mem_append, List.mem_cons] at hc
    rcases hc with h | rfl | h | rfl | h | rfl | h
    · exact hX c h
    · decide
    · exact ⟨(hN c h).2.1, (hN c h).2.2⟩
    · decide
    · exact ⟨(hH c h).2.1, (hH c h).2.2⟩
    · decide
    · exact ⟨(hG c h).2.1, (hG c h).2.2⟩
  generalize hL : X ++ 44 :: (N ++ 44 :: (H ++ 44 :: G)) = line at hline
  have hc1 : cString (line ++ [10, 0]) = line ++ [10] := by
    have := cString_text (line ++ [10]) [] (by
      intro c hc
      rcases List.mem_append.1 hc with h | h
      · exact (hline c h).2
      · simp at h; rw [h]; decide)
    simpa using this
  have hg : (line ++ [10, 0]).getD ((line ++ [10]).length - 1) 0 = 10 := by
    have := getD_eod_fst line 10 0
    simpa using this
  have hset : (line ++ [10, 0]).set ((line ++ [10]).length - 1) 0 = line ++ [0, 0] := by
    have h1 : (line ++ [10]).length - 1 = line.length := by simp
    rw [h1, List.set_append_right _ _ (le_refl _)]
    simp
  have hstrip : stripNewline (line ++ [10, 0]) = some (line ++ [0, 0]) := by
    unfold stripNewline
    rw [hc1]
    have hn0 : ¬ (line ++ [10]).length = 0 := by simp
    simp only [hn0, if_false, hg, if_true, hset]
  have hc2 : cString (line ++ [0, 0]) = line := cString_text line [0] (fun c hc => (hline c hc).2)
  have htake : (line ++ [0, 0]).take (line.length + 1) = line ++ [0] := by
    rw [List.take_append_eq_append_take]
    simp
  have hrev : (line ++ [0]).reverse
      = (0 :: G.reverse) ++ 44 :: (H.reverse ++ 44 :: (N.reverse ++ 44 :: X.reverse)) := by
    rw [← hL]
    simp
  have hstart : netStart (line ++ [0, 0]) = some (X.length + 1) := by
    unfold netStart
    rw [hc2, htake, hrev, scanComma_text _ (0 :: G.reverse) (by
      intro c hc
      rcases List.mem_cons.1 hc with rfl | h
      · decide
      · exact (hG c (List.mem_reverse.1 h)).1)]
    simp only []
    rw [scanComma_tail _ H (fun c hc => (hH c hc).1) hHe]
    simp only []
    rw [scanComma_tail _ N (fun c hc => (hN c hc).1) hNe]
    simp
  have hd1 : (line ++ [0, 0]).drop (X.length + 1) = N ++ 44 :: (H ++ 44 :: (G ++ [0, 0])) := by
    rw [← hL]
    have : (X ++ 44 :: (N ++ 44 :: (H ++ 44 :: G))) ++ [0, 0]
        = (X ++ [44]) ++ (N ++ 44 :: (H ++ 44 :: (G ++ [0, 0]))) := by simp
    rw [this, List.drop_left' (by simp)]
  have hd2 : (line ++ [0, 0]).drop (X.length + 1 + N.length + 1)
      = H ++ 44 :: (G ++ [0, 0]) := by
    rw [← hL]
    have : (X ++ 44 :: (N ++ 44 :: (H ++ 44 :: G))) ++ [0, 0]
        = (X ++ [44] ++ N ++ [44]) ++ (H ++ 44 :: (G ++ [0, 0])) := by simp
    rw [this, List.drop_left' (by simp; omega)]
  have hd3 : (line ++ [0, 0]).drop (X.length + 1 + N.length + 1 + H.length + 1)
      = G ++ [0, 0] := by
    rw [← hL]
    have : (X ++ 44 :: (N ++ 44 :: (H ++ 44 :: G))) ++ [0, 0]
        = (X ++ [44] ++ N ++ [44] ++ H ++ [44]) ++ (G ++ [0, 0]) := by simp
    rw [this, List.drop_left' (by simp; omega)]
  unfold rowAmountArrays
  rw [hstrip]
  simp only [hstart]
  unfold grabAmounts
  rw [hd1, copyUntil_text 44 _ N (fun c hc => (hN c hc).1)]
  have s1 : stored 15 (N ++ [0]) = some (N ++ [0]) := by simp [stored]; omega
  have s2 : stored 15 (H ++ [0]) = some (H ++ [0]) := by simp [stored]; omega
  have s3 : stored 15 (G ++ [0]) = some (G ++ [0]) := by simp [stored]; omega
  simp only [s1, hd2]
  rw [copyUntil_text 44 _ H (fun c hc => (hH c hc).1)]
  simp only [s2, hd3]
  have hcg : copyUntil 0 (G ++ [0, 0]) = some G :=
    copyUntil_text 0 [0] G (fun c hc => (hG c hc).2.2)
  rw [hcg]
  simp only [s3]

/-- One row `X,N,H,G` of the CSV file, of less than 194 characters, read by
`fgets`: the three arrays hold `N`, `H` and `G`. -/
theorem readRowAmounts_fields (X N H G rest : List Nat)
    (hX : ∀ c ∈ X, c ≠ 10 ∧ c ≠ 0)
    (hN : ∀ c ∈ N, c ≠ 44 ∧ c ≠ 10 ∧ c ≠ 0) (hH : ∀ c ∈ H, c ≠ 44 ∧ c ≠ 10 ∧ c ≠ 0)
    (hG : ∀ c ∈ G, c ≠ 44 ∧ c ≠ 10 ∧ c ≠ 0)
    (hNe : N ≠ []) (hHe : H ≠ [])
    (hNl : N.length ≤ 14) (hHl : H.length ≤ 14) (hGl : G.length ≤ 14)
    (hlen : X.length + N.length + H.length + G.length + 3 < 194) :
    readRowAmounts ((X ++ 44 :: (N ++ 44 :: (H ++ 44 :: G))) ++ 10 :: rest)
      = some (N ++ [0], H ++ [0], G ++ [0]) := by
  have hline : ∀ c ∈ X ++ 44 :: (N ++ 44 :: (H ++ 44 :: G)), c ≠ 10 := by
    intro c hc
    simp only [List.mem_append, List.mem_cons] at hc
    rcases hc with h | rfl | h | rfl | h | rfl | h
    · exact (hX c h).1
    · decide
    · exact (hN c h).2.1
    · decide
    · exact (hH c h).2.1
    · decide
    · exact (hG c h).2.1
  have hl : (X ++ 44 :: (N ++ 44 :: (H ++ 44 :: G))).length < 194 := by
    simp only [List.length_append, List.length_cons]
    omega
  unfold readRowAmounts fgets
  have hne : (X ++ 44 :: (N ++ 44 :: (H ++ 44 :: G))) ++ 10 :: rest ≠ [] := by simp
  simp only [hne, if_false]
  rw [fgetsChars_line rest (195 - 1) _ hline hl]
  have h := rowAmountArrays_fields X N H G hX hN hH hG hNe hHe hNl hHl hGl
  simp only [List.append_assoc, List.singleton_append, List.cons_append] at h ⊢
  exact h

theorem cString_append_nul (B : List Nat) :
    ∀ A : List Nat, cString (A ++ 0 :: B) = cString A
  | [] => by simp [cString, List.takeWhile]
  | c :: A => by
    have ih := cString_append_nul B A
    unfold cString at ih ⊢
    by_cases hc : c = 0
    · simp [List.takeWhile, hc]
    · simp [List.takeWhile, hc, ih]

/-- The string an array holds: no NUL in it, and when the array was filled
with `A` and a NUL, it is not longer than `A` and made of bytes of `A`. -/
theorem cString_written (A : List Nat) :
    (∀ c ∈ cString (A ++ [0]), c ≠ 0 ∧ c ∈ A) ∧ (cString (A ++ [0])).length ≤ A.length := by
  rw [cString_append_nul]
  unfold cString
  refine ⟨fun c hc => ⟨?_, (List.takeWhile_prefix _).subset hc⟩,
    (List.takeWhile_prefix _).length_le⟩
  have := List.mem_takeWhile_imp hc
  simpa using this

theorem copyUntil_no_delim (d : Nat) :
    ∀ (l t : List Nat), copyUntil d l = some t → ∀ c ∈ t, c ≠ d
  | [], t, h => by simp [copyUntil] at h
  | x :: l, t, h => by
    by_cases hx : x = d
    · simp [copyUntil, hx] at h
      subst h
      simp
    · simp only [copyUntil, hx, if_false] at h
      rcases hr : copyUntil d l with _ | r
      · rw [hr] at h; simp at h
      · rw [hr] at h
        simp only [Option.map_some', Option.some.injEq] at h
        subst h
        intro c hc
        rcases List.mem_cons.1 hc with rfl | hc
        · exact hx
        · exact copyUntil_no_delim d l r hr c hc

theorem copyBounded_no_newline :
    ∀ (j : Nat) (l r : List Nat), copyBounded j l = some r → ∀ c ∈ r, c ≠ 10
  | 0, l, r, h => by
    simp [copyBounded] at h
    subst h; simp
  | j + 1, [], r, h => by simp [copyBounded] at h
  | j + 1, x :: l, r, h => by
    by_cases hx : x = 10
    · simp [copyBounded, hx] at h
      subst h; simp
    · simp only [copyBounded, hx, if_false] at h
      rcases hr : copyBounded j l with _ | r2
      · rw [hr] at h; simp at h
      · rw [hr] at h
        simp only [Option.map_some', Option.some.injEq] at h
        subst h
        intro c hc
        rcases List.mem_cons.1 hc with rfl | hc
        · exact hx
        · exact copyBounded_no_newline j l r2 hr c hc

theorem stored_some (cap : Nat) (w w2 : List Nat) (h : stored cap w = some w2) :
    w2 = w ∧ w.length ≤ cap := by
  unfold stored at h
  by_cases hl : w.length ≤ cap
  · simp only [hl, if_true, Option.some.injEq] at h
    exact ⟨h.symm, hl⟩
  · simp [hl] at h

/-- What a mandatory field leaves in its array: the text copied, which holds
no delimiter, between double quotes when quoted, and a NUL, inside the
array. -/
theorem mandatoryField_written (buf : List Nat) (startp endp : Nat) (anchor : List Nat)
    (status delim cap : Nat) (quoted : Bool) (w : List Nat)
    (h : mandatoryField buf startp endp anchor status delim cap quoted = some (Extract.text w)) :
    ∃ t, (∀ c ∈ t, c ≠ delim)
      ∧ w = (if quoted then 34 :: t ++ [34] else t) ++ [0] ∧ w.length ≤ cap := by
  unfold mandatoryField at h
  rcases hf : findFrom buf startp anchor with _ | x
  · rw [hf] at h; simp at h
  · rw [hf] at h
    simp only [] at h
    by_cases hx : x > endp
    · simp [hx] at h
    · simp only [hx, if_false] at h
      rcases hc : copyUntil delim (buf.drop (x + anchor.length)) with _ | t
      · rw [hc] at h; simp at h
      · rw [hc] at h
        simp only [] at h
        rcases hs : stored cap (if quoted then 34 :: t ++ [34, 0] else t ++ [0]) with _ | w2
        · rw [hs] at h; simp at h
        · rw [hs] at h
          simp only [Option.map_some', Option.some.injEq, Extract.text.injEq] at h
          subst h
          obtain ⟨he, hl⟩ := stored_some _ _ _ hs
          refine ⟨t, copyUntil_no_delim delim _ t hc, ?_, ?_⟩
          · rw [he]
            cases quoted <;> simp
          · rw [he]; exact hl

theorem taxPointDateField_written (buf : List Nat) (startp endp : Nat) (w : List Nat)
    (h : taxPointDateField buf startp endp = some (Extract.text w)) :
    ∃ A, (∀ c ∈ A, c ≠ 10) ∧ w = A ++ [0] ∧ w.length ≤ 20 := by
  have hns : ∃ A, (∀ c ∈ A, c ≠ 10) ∧ notSpecified ++ [0] = A ++ [0]
      ∧ (notSpecified ++ [0]).length ≤ 20 :=
    ⟨notSpecified, by decide, rfl, by decide⟩
  unfold taxPointDateField at h
  rcases hf : findFrom buf startp kwDelivery with _ | x
  · rw [hf] at h
    simp only [Option.some.injEq, Extract.text.injEq] at h
    rw [← h]; exact hns
  · rw [hf] at h
    simp only [] at h
    by_cases hx : x < endp
    · simp only [hx, if_true] at h
      rcases hb : backLoop (buf.take x).reverse with _ | k
      · rw [hb] at h; simp at h
      · rw [hb] at h
        simp only [] at h
        rcases hc : copyUntil 10 (buf.drop (x - k)) with _ | line
        · rw [hc] at h; simp at h
        · rw [hc] at h
          simp only [] at h
          rcases hs : stored 20 ((34 :: line).dropLast ++ [34, 0]) with _ | w2
          · rw [hs] at h; simp at h
          · rw [hs] at h
            simp only [Option.map_some', Option.some.injEq, Extract.text.injEq] at h
            subst h
            obtain ⟨he, hl⟩ := stored_some _ _ _ hs
            have hline := copyUntil_no_delim 10 _ line hc
            refine ⟨(34 :: line).dropLast ++ [34], ?_, by rw [he]; simp, by rw [he]; exact hl⟩
            intro c hc2
            rcases List.mem_append.1 hc2 with h1 | h1
            · rcases List.mem_cons.1 (List.dropLast_subset _ h1) with rfl | h2
              · decide
              · exact hline c h2
            · simp at h1
              rw [h1]; decide
    · simp only [hx, if_false, Option.some.injEq, Extract.text.injEq] at h
      rw [← h]; exact hns

theorem restaurantNameField_written (buf : List Nat) (startp endp : Nat) (w : List Nat)
    (h : restaurantNameField buf startp endp = some (Extract.text w)) :
    ∃ A, (∀ c ∈ A, c ≠ 10) ∧ w = A ++ [0] ∧ w.length ≤ 53 := by
  unfold restaurantNameField at h
  rcases hf : findFrom buf startp kwUber with _ | x
  · rw [hf] at h; simp at h
  · rw [hf] at h
    simp only [] at h
    by_cases hx : x > endp
    · simp [hx] at h
    · simp only [hx, if_false] at h
      rcases hs : skipLine (buf.drop (x + 1)) with _ | after
      · rw [hs] at h; simp at h
      · rw [hs] at h
        simp only [] at h
        rcases hc : copyBounded (RESTAURANTMAX - 3) after with _ | name
        · rw [hc] at h; simp at h
        · rw [hc] at h
          simp only [Option.some.injEq, Extract.text.injEq] at h
          have hl := copyBounded_length _ _ _ hc
          have hn := copyBounded_no_newline _ _ _ hc
          refine ⟨34 :: name ++ [34], ?_, by rw [← h]; simp, ?_⟩
          · intro c hc2
            rcases List.mem_append.1 hc2 with h1 | h1
            · rcases List.mem_cons.1 h1 with rfl | h2
              · decide
              · exact hn c h2
            · simp at h1
              rw [h1]; decide
          · rw [← h]
            simp only [RESTAURANTMAX, List.length_append, List.length_cons,
              List.length_nil] at hl ⊢
            omega

theorem hstAmtField_written (buf : List Nat) (startp endp : Nat) (w : List Nat)
    (h : hstAmtField buf startp endp = some (Extract.text w)) :
    ∃ A, w = A ++ [0] ∧ w.length ≤ 10 := by
  have hz : ∃ A, zeroAmount ++ [0] = A ++ [0] ∧ (zeroAmount ++ [0]).length ≤ 10 :=
    ⟨zeroAmount, rfl, by decide⟩
  unfold hstAmtField at h
  rcases hf : findFrom buf startp kwTotalHst with _ | x
  · rw [hf] at h
    simp only [Option.some.injEq, Extract.text.injEq] at h
    rw [← h]; exact hz
  · rw [hf] at h
    simp only [] at h
    by_cases hx : x < endp
    · simp only [hx, if_true] at h
      rcases hc : copyUntil 32 (buf.drop (x + kwTotalHst.length)) with _ | t
      · rw [hc] at h; simp at h
      · rw [hc] at h
        simp only [] at h
        rcases hs : stored 10 (t ++ [0]) with _ | w2
        · rw [hs] at h; simp at h
        · rw [hs] at h
          simp only [Option.map_some', Option.some.injEq, Extract.text.injEq] at h
          subst h
          obtain ⟨he, hl⟩ := stored_some _ _ _ hs
          exact ⟨t, he, by rw [he]; exact hl⟩
    · simp only [hx, if_false, Option.some.injEq, Extract.text.injEq] at h
      rw [← h]; exact hz

/-- A field that was stored as `A` and a NUL in an array of `cap` bytes, `A`
without newline: the string printed holds neither newline nor NUL and has
less than `cap` bytes. -/
theorem cString_field (A w : List Nat) (cap : Nat) (hw : w = A ++ [0]) (hl : w.length ≤ cap) :
    (∀ c ∈ cString w, c ≠ 0) ∧ (cString w).length + 1 ≤ cap
      ∧ ((∀ c ∈ A, c ≠ 10) → ∀ c ∈ cString w, c ≠ 10) := by
  subst hw
  obtain ⟨hm, hlen⟩ := cString_written A
  simp only [List.length_append, List.length_singleton] at hl
  exact ⟨fun c hc => (hm c hc).1, by omega, fun hA c hc => hA c (hm c hc).2⟩

/-- The row `invoiceRow` returns, as `fprintf` writes it: the first five
fields hold neither newline nor NUL and take at most 142 bytes with their
commas; the three amounts hold no NUL and have at most 9 bytes each. -/
theorem invoiceRow_shape (buf : List Nat) (startp endp : Nat) (r : CsvRow)
    (h : invoiceRow buf startp endp = some (RowResult.row r)) :
    (∀ c ∈ r.invNum ++ 44 :: (r.invDate ++ 44 :: (r.taxPointDate
        ++ 44 :: (r.restaurantName ++ 44 :: r.gstNumber))), c ≠ 10 ∧ c ≠ 0)
    ∧ (r.invNum ++ 44 :: (r.invDate ++ 44 :: (r.taxPointDate
        ++ 44 :: (r.restaurantName ++ 44 :: r.gstNumber)))).length ≤ 142
    ∧ (∀ c ∈ r.netAmt, c ≠ 0) ∧ r.netAmt.length ≤ 9
    ∧ (∀ c ∈ r.hstAmt, c ≠ 0) ∧ r.hstAmt.length ≤ 9
    ∧ (∀ c ∈ r.grossAmt, c ≠ 0) ∧ r.grossAmt.length ≤ 9 := by
  unfold invoiceRow at h
  obtain ⟨w1, h1, h⟩ := thenField_ok _ _ r h
  obtain ⟨w2, h2, h⟩ := thenField_ok _ _ r h
  obtain ⟨w3, h3, h⟩ := thenField_ok _ _ r h
  obtain ⟨w4, h4, h⟩ := thenField_ok _ _ r h
  obtain ⟨w5, h5, h⟩ := thenField_ok _ _ r h
  obtain ⟨w6, h6, h⟩ := thenField_ok _ _ r h
  obtain ⟨w7, h7, h⟩ := thenField_ok _ _ r h
  obtain ⟨w8, h8, h⟩ := thenField_ok _ _ r h
  simp only [Option.some.injEq, RowResult.row.injEq] at h
  subst h
  obtain ⟨t1, ht1, e1, l1⟩ := mandatoryField_written _ _ _ _ _ _ _ _ _ h1
  obtain ⟨t2, ht2, e2, l2⟩ := mandatoryField_written _ _ _ _ _ _ _ _ _ h2
  obtain ⟨A3, hA3, e3, l3⟩ := taxPointDateField_written _ _ _ _ h3
  obtain ⟨A4, hA4, e4, l4⟩ := restaurantNameField_written _ _ _ _ h4
  obtain ⟨t5, ht5, e5, l5⟩ := mandatoryField_written _ _ _ _ _ _ _ _ _ h5
  obtain ⟨t6, _, e6, l6⟩ := mandatoryField_written _ _ _ _ _ _ _ _ _ h6
  obtain ⟨t7, _, e7, l7⟩ := mandatoryField_written _ _ _ _ _ _ _ _ _ h7
  obtain ⟨A8, e8, l8⟩ := hstAmtField_written _ _ _ _ h8
  simp only [Bool.false_eq_true, if_false, if_true] at e1 e2 e5 e6 e7
  obtain ⟨n1, b1, q1⟩ := cString_field t1 w1 30 e1 l1
  obtain ⟨n2, b2, q2⟩ := cString_field (34 :: t2 ++ [34]) w2 20 e2 l2
  obtain ⟨n3, b3, q3⟩ := cString_field A3 w3 20 e3 l3
  obtain ⟨n4, b4, q4⟩ := cString_field A4 w4 53 e4 l4
  obtain ⟨n5, b5, q5⟩ := cString_field t5 w5 20 e5 l5
  obtain ⟨n6, b6, _⟩ := cString_field t6 w6 10 e6 l6
  obtain ⟨n7, b7, _⟩ := cString_field t7 w7 10 e7 l7
  obtain ⟨n8, b8, _⟩ := cString_field A8 w8 10 e8 l8
  have hq2 : ∀ c ∈ 34 :: t2 ++ [34], c ≠ 10 := by
    intro c hc
    rcases List.mem_append.1 hc with h | h
    · rcases List.mem_cons.1 h with rfl | h
      · decide
      · exact ht2 c h
    · simp at h
      rw [h]; decide
  dsimp only
  refine ⟨?_, ?_, n6, by omega, n8, by omega, n7, by omega⟩
  · intro c hc
    simp only [List.mem_append, List.mem_cons] at hc
    rcases hc with h | rfl | h | rfl | h | rfl | h | rfl | h
    · exact ⟨q1 ht1 c h, n1 c h⟩
    · decide
    · exact ⟨q2 hq2 c h, n2 c h⟩
    · decide
    · exact ⟨q3 hA3 c h, n3 c h⟩
    · decide
    · exact ⟨q4 hA4 c h, n4 c h⟩
    · decide
    · exact ⟨q5 ht5 c h, n5 c h⟩
  · simp only [List.length_append, List.length_cons]
    omega

/-- C38 (amended): for every row that the invoice loop of rpt2pgm formats, in
which the net, HST and gross amounts hold neither comma nor newline and the
net and HST amounts are not empty, the row read by rpt3pgm with `fgets`, the
backward scan for the third-last comma and the three copies leave exactly the
net, HST and gross amounts as C strings in `charNet`, `charHst` and
`charGross`, whatever commas the first five fields hold and whatever rows
follow in the file. -/
theorem readRowAmounts_invoiceRow (buf : List Nat) (startp endp : Nat) (r : CsvRow)
    (rest : List Nat)
    (hrow : invoiceRow buf startp endp = some (RowResult.row r))
    (hN : ∀ c ∈ r.netAmt, c ≠ 44 ∧ c ≠ 10) (hH : ∀ c ∈ r.hstAmt, c ≠ 44 ∧ c ≠ 10)
    (hG : ∀ c ∈ r.grossAmt, c ≠ 44 ∧ c ≠ 10)
    (hNe : r.netAmt ≠ []) (hHe : r.hstAmt ≠ []) :
    readRowAmounts (csvLine r ++ rest)
      = some (r.netAmt ++ [0], r.hstAmt ++ [0], r.grossAmt ++ [0]) := by
  obtain ⟨hX, hXl, n6, l6, n7, l7, n8, l8⟩ := invoiceRow_shape buf startp endp r hrow
  have hline : csvLine r ++ rest
      = ((r.invNum ++ 44 :: (r.invDate ++ 44 :: (r.taxPointDate
          ++ 44 :: (r.restaurantName ++ 44 :: r.gstNumber))))
          ++ 44 :: (r.netAmt ++ 44 :: (r.hstAmt ++ 44 :: r.grossAmt))) ++ 10 :: rest := by
    simp [csvLine]
  rw [hline]
  exact readRowAmounts_fields _ r.netAmt r.hstAmt r.grossAmt rest hX
    (fun c hc => ⟨(hN c hc).1, (hN c hc).2, n6 c hc⟩)
    (fun c hc => ⟨(hH c hc).1, (hH c hc).2, n7 c hc⟩)
    (fun c hc => ⟨(hG c hc).1, (hG c hc).2, n8 c hc⟩)
    hNe hHe (by omega) (by omega) (by omega) (by omega)

theorem readRowAmounts_invoiceRow_witness :
    readRowAmounts (csvLine
        { invNum := [65, 49], invDate := [34, 77, 97, 114, 32, 49, 34],
          taxPointDate := [34, 77, 97, 114, 32, 50, 44, 32, 50, 48, 50, 49, 34],
          restaurantName := [34, 74, 111, 101, 34], gstNumber := [49, 50],
          netAmt := [49, 46, 48, 48], hstAmt := [48, 46, 49, 51],
          grossAmt := [49, 46, 49, 51] } ++ [65, 50, 44])
      = some ([49, 46, 48, 48] ++ [0], [48, 46, 49, 51] ++ [0], [49, 46, 49, 51] ++ [0]) :=
  readRowAmounts_invoiceRow
    (exampleInvoice [77, 97, 114, 32, 50, 44, 32, 50, 48, 50, 49, 32, 10, 68, 101, 108, 105,
      118, 101, 114, 121, 32, 115, 101, 114, 118, 105, 99, 101, 10] exampleHstLines) 4 205
    { invNum := [65, 49], invDate := [34, 77, 97, 114, 32, 49, 34],
      taxPointDate := [34, 77, 97, 114, 32, 50, 44, 32, 50, 48, 50, 49, 34],
      restaurantName := [34, 74, 111, 101, 34], gstNumber := [49, 50],
      netAmt := [49, 46, 48, 48], hstAmt := [48, 46, 49, 51],
      grossAmt := [49, 46, 49, 51] } [65, 50, 44]
    (by set_option maxRecDepth 100000 in decide)
    (by decide) (by decide) (by decide) (by decide) (by decide)

/-- C38 (counterexample): when the text behind the anchor of the HST amount
starts with a blank, rpt2pgm formats a row whose HST amount is empty,
`A1,"Mar 1",notSpecified,"Joe",12,1.00,,1.13`; the `p--` between the backward
scans of rpt3pgm steps over the comma in front of the empty field, and the
three arrays get `12`, `1.00` and `,1.13`. When that text holds a newline
before its first blank, the HST amount is `0.13\nX`, `fgets` ends the row at
the newline, and the arrays get `12`, `1.00` and `0.13`. No amount holds a
comma. -/
theorem readRowAmounts_counterexample :
    invoiceRow (exampleInvoice [] [84, 111, 116, 97, 108, 32, 72, 83, 84, 32, 65, 109, 111,
        117, 110, 116, 32, 10, 32, 48, 46, 49, 51, 32, 10]) 4 176
      = some (RowResult.row
          { invNum := [65, 49], invDate := [34, 77, 97, 114, 32, 49, 34],
            taxPointDate := notSpecified, restaurantName := [34, 74, 111, 101, 34],
            gstNumber := [49, 50], netAmt := [49, 46, 48, 48], hstAmt := [],
            grossAmt := [49, 46, 49, 51] })
    ∧ readRowAmounts (csvLine
          { invNum := [65, 49], invDate := [34, 77, 97, 114, 32, 49, 34],
            taxPointDate := notSpecified, restaurantName := [34, 74, 111, 101, 34],
            gstNumber := [49, 50], netAmt := [49, 46, 48, 48], hstAmt := [],
            grossAmt := [49, 46, 49, 51] })
      = some ([49, 50, 0], [49, 46, 48, 48, 0], [44, 49, 46, 49, 51, 0])
    ∧ invoiceRow (exampleInvoice [] [84, 111, 116, 97, 108, 32, 72, 83, 84, 32, 65, 109, 111,
        117, 110, 116, 32, 10, 48, 46, 49, 51, 10, 88, 32, 10]) 4 177
      = some (RowResult.row
          { invNum := [65, 49], invDate := [34, 77, 97, 114, 32, 49, 34],
            taxPointDate := notSpecified, restaurantName := [34, 74, 111, 101, 34],
            gstNumber := [49, 50], netAmt := [49, 46, 48, 48],
            hstAmt := [48, 46, 49, 51, 10, 88], grossAmt := [49, 46, 49, 51] })
    ∧ readRowAmounts (csvLine
          { invNum := [65, 49], invDate := [34, 77, 97, 114, 32, 49, 34],
            taxPointDate := notSpecified, restaurantName := [34, 74, 111, 101, 34],
            gstNumber := [49, 50], netAmt := [49, 46, 48, 48],
            hstAmt := [48, 46, 49, 51, 10, 88], grossAmt := [49, 46, 49, 51] })
      = some ([49, 50, 0], [49, 46, 48, 48, 0], [48, 46, 49, 51, 0]) := by
  refine ⟨?_, ?_, ?_, ?_⟩ <;> set_option maxRecDepth 100000 in decide

end UberEats
